import Mathlib

/-!
# Coarse Dirac operator of mg_proto: geometry, thread partition, site kernels

Shallow embedding of `src/lib/lattice/coarse_op.cpp`.

* `IndexType` and `int` values are unbounded integers (`Int`); integer division is
  C++ truncating division (`Int.tdiv`).  Lattice extents and site counts stay far
  below 2^31, so no wrap-around is modelled.
* `float` values are elements of a commutative ring `R` (exact arithmetic).
* A `float*` is an offset into a buffer `Int → R`; a `const float*` is the read-only
  view `Int → R` seen from the pointer.
-/

namespace MG

/-! ## Lattice geometry and constants -/

/-- Number of floats per complex number (`n_complex` of `lattice/constants.h`). -/
abbrev n_complex : Int := 2

/-- Offset of the real part inside a complex number (`RE`). -/
abbrev RE : Int := 0

/-- Offset of the imaginary part inside a complex number (`IM`). -/
abbrev IM : Int := 1

/-- The fields of `LatticeInfo` that the coarse operator reads.  The class itself is
declared in `lattice/lattice_info.h`; its accessors are taken as data here. -/
structure LatticeInfo where
  /-- Global extents, `GetLatticeDimensions()[0..3]`. -/
  n_x : Int
  n_y : Int
  n_z : Int
  n_t : Int
  /-- Checkerboarded extent of the fastest axis, `GetCBLatticeDimensions()[0]`. -/
  n_xh : Int
  /-- Sites per checkerboard, `GetNumCBSites()`. -/
  n_cb_sites : Int
  /-- Number of colours, `GetNumColors()`. -/
  n_color : Int
  /-- Number of spins, `GetNumSpins()`. -/
  n_spin : Int
deriving DecidableEq, Repr

/-- Build-time constants of `MG_config.h`: the SIMD width `VECLEN` (in floats) and
`MG_DEFAULT_CACHE_LINE_SIZE` (in bytes).  Both are positive in every build and a cache
line holds at least one `float`. -/
structure MGConfig where
  VECLEN : Int
  MG_DEFAULT_CACHE_LINE_SIZE : Int
  veclen_pos : 0 < VECLEN
  cache_line_ge : 4 ≤ MG_DEFAULT_CACHE_LINE_SIZE

/-- A build with 8-float vectors and 64-byte cache lines. -/
def cfg8x64 : MGConfig :=
  { VECLEN := 8, MG_DEFAULT_CACHE_LINE_SIZE := 64,
    veclen_pos := by decide, cache_line_ge := by decide }

/-- Modelled from the spec: `MinInt` (declared outside `coarse_op.cpp`) is the smaller
of its two `int` arguments; it clips the last range of the ceiling-division split. -/
def MinInt (a b : Int) : Int := if a < b then a else b

/-- Iteration bounds of one thread (`ThreadLimits` of `lattice/coarse/thread_limits.h`,
with the four members the constructor writes). -/
structure ThreadLimits where
  min_vrow : Int
  max_vrow : Int
  min_site : Int
  max_site : Int
deriving DecidableEq, Repr, Inhabited

/-! ## Thread work partition (constructor, lines 43-90) -/

/-- Line 54: `core_id = tid/_n_smt`. -/
def coreId (n_smt tid : Int) : Int := Int.tdiv tid n_smt

/-- Line 55: `smt_id = tid - _n_smt*core_id`. -/
def smtId (n_smt tid : Int) : Int := tid - n_smt * coreId n_smt tid

/-- Lines 85-86: `sites_per_core = n_sites_cb/n_cores`, incremented when the division
leaves a remainder. -/
def sitesPerCore (n_sites_cb n_cores : Int) : Int :=
  let sites_per_core := Int.tdiv n_sites_cb n_cores
  if Int.tmod n_sites_cb n_cores ≠ 0 then sites_per_core + 1 else sites_per_core

/-- Body of the parallel region of the constructor for thread `tid`, given the team
size `n_threads = omp_get_num_threads()`.  An integer division by zero (undefined in
C++) is reported as `none`. -/
def threadLimits (cfg : MGConfig) (n_threads n_smt n_vrows n_sites_cb tid : Int) :
    Option ThreadLimits :=
  if n_smt = 0 then none
  else
    let n_cores := Int.tdiv n_threads n_smt
    let core_id := coreId n_smt tid
    let smt_id := smtId n_smt tid
    let n_floats_per_cacheline := Int.tdiv cfg.MG_DEFAULT_CACHE_LINE_SIZE 4
    let n_cachelines := Int.tdiv (n_vrows * cfg.VECLEN) n_floats_per_cacheline
    let cl_per_smt0 := Int.tdiv n_cachelines n_smt
    let cl_per_smt := if Int.tmod n_cachelines n_smt ≠ 0 then cl_per_smt0 + 1 else cl_per_smt0
    let min_cl := smt_id * cl_per_smt
    let max_cl := MinInt ((smt_id + 1) * cl_per_smt) n_cachelines
    let min_vrow := Int.tdiv (min_cl * n_floats_per_cacheline) cfg.VECLEN
    let max_vrow := Int.tdiv (max_cl * n_floats_per_cacheline) cfg.VECLEN
    if n_cores = 0 then none
    else
      let sites_per_core := sitesPerCore n_sites_cb n_cores
      let min_site := core_id * sites_per_core
      let max_site := MinInt ((core_id + 1) * sites_per_core) n_sites_cb
      some { min_vrow := min_vrow, max_vrow := max_vrow,
             min_site := min_site, max_site := max_site }

/-- Site `site` lies in the half-open site range `[min_site, max_site)` stored for a
thread (the bounds of the site loop of `operator()` and `Dslash`). -/
def ThreadLimits.ownsSite (l : ThreadLimits) (site : Int) : Prop :=
  l.min_site ≤ site ∧ site < l.max_site

instance (l : ThreadLimits) (site : Int) : Decidable (l.ownsSite site) := by
  unfold ThreadLimits.ownsSite; infer_instance

/-- The coarse Dirac operator object: the members set by the constructor's
initialiser list and the per-thread table `_thread_limits`. -/
structure CoarseDiracOp where
  n_color : Int
  n_spin : Int
  n_smt : Int
  n_vrows : Int
  n_threads : Int
  thread_limits : Int → ThreadLimits
  n_xh : Int
  n_x : Int
  n_y : Int
  n_z : Int
  n_t : Int

/-- Accessor `GetNumColor()`. -/
def CoarseDiracOp.GetNumColor (op : CoarseDiracOp) : Int := op.n_color

/-- Accessor `GetNumColorSpin()`: the const member `_n_colorspin`, initialised to
`_n_color*_n_spin` (line 19). -/
def CoarseDiracOp.GetNumColorSpin (op : CoarseDiracOp) : Int := op.n_color * op.n_spin

/-- The object `CoarseDiracOp::CoarseDiracOp(l_info, n_smt)` leaves behind when run by
a team of `n_threads` OpenMP threads: the initialiser list (lines 16-26) and the table
entries written at lines 66-67 and 89-90. -/
def CoarseDiracOp.build (cfg : MGConfig) (l_info : LatticeInfo) (n_smt n_threads : Int) :
    CoarseDiracOp :=
  let n_colorspin := l_info.n_color * l_info.n_spin
  let n_vrows := Int.tdiv (2 * n_colorspin) cfg.VECLEN
  { n_color := l_info.n_color, n_spin := l_info.n_spin,
    n_smt := n_smt, n_vrows := n_vrows, n_threads := n_threads,
    thread_limits := fun tid =>
      (threadLimits cfg n_threads n_smt n_vrows l_info.n_cb_sites tid).getD default,
    n_xh := l_info.n_xh, n_x := l_info.n_x, n_y := l_info.n_y,
    n_z := l_info.n_z, n_t := l_info.n_t }

/-- The constructor as a fallible operation: `none` when some thread of the team divides
by zero in the parallel region, the built object otherwise. -/
def CoarseDiracOp.create (cfg : MGConfig) (l_info : LatticeInfo) (n_smt n_threads : Int) :
    Option CoarseDiracOp :=
  let n_vrows := Int.tdiv (2 * (l_info.n_color * l_info.n_spin)) cfg.VECLEN
  if (List.range n_threads.toNat).all (fun t =>
      (threadLimits cfg n_threads n_smt n_vrows l_info.n_cb_sites (t : Int)).isSome) then
    some (CoarseDiracOp.build cfg l_info n_smt n_threads)
  else none

/-! ## Site decoding and neighbour table (lines 115-123 and 142-172) -/

/-- Coordinates of a checkerboard site. -/
structure SiteCoords where
  xcb : Int
  y : Int
  z : Int
  t : Int
deriving DecidableEq, Repr

/-- Lines 118-123: turn `site` into `(xcb, y, z, t)`. -/
def decodeSite (n_xh n_y n_z site : Int) : SiteCoords :=
  let tmp_yzt := Int.tdiv site n_xh
  let xcb := site - n_xh * tmp_yzt
  let tmp_zt := Int.tdiv tmp_yzt n_y
  let y := tmp_yzt - n_y * tmp_zt
  let t := Int.tdiv tmp_zt n_z
  let z := tmp_zt - n_z * t
  { xcb := xcb, y := y, z := z, t := t }

/-- Line 143: global x coordinate, `2*xcb + ((target_cb+y+z+t)&0x1)`.  On a
two's-complement `int` the mask `& 0x1` is the lowest bit, which is the remainder in
`{0, 1}` of the division by 2 for either sign of the argument. -/
def globalX (target_cb : Int) (c : SiteCoords) : Int :=
  2 * c.xcb + (target_cb + c.y + c.z + c.t) % 2

/-- Lines 147-171: the eight neighbour site indices on the source checkerboard, in the
order X forward, X backward, Y forward, Y backward, Z forward, Z backward, T forward,
T backward. -/
def neighSites (op : CoarseDiracOp) (target_cb site : Int) : Fin 8 → Int :=
  let c := decodeSite op.n_xh op.n_y op.n_z site
  let xcb := c.xcb
  let y := c.y
  let z := c.z
  let t := c.t
  let x := globalX target_cb c
  let x_plus0 := if x < op.n_x - 1 then x + 1 else 0
  let x_minus0 := if x > 0 then x - 1 else op.n_x - 1
  let x_plus := Int.tdiv x_plus0 2
  let x_minus := Int.tdiv x_minus0 2
  let y_plus := if y < op.n_y - 1 then y + 1 else 0
  let y_minus := if y > 0 then y - 1 else op.n_y - 1
  let z_plus := if z < op.n_z - 1 then z + 1 else 0
  let z_minus := if z > 0 then z - 1 else op.n_z - 1
  let t_plus := if t < op.n_t - 1 then t + 1 else 0
  let t_minus := if t > 0 then t - 1 else op.n_t - 1
  ![ x_plus + op.n_xh * (y + op.n_y * (z + op.n_z * t)),
     x_minus + op.n_xh * (y + op.n_y * (z + op.n_z * t)),
     xcb + op.n_xh * (y_plus + op.n_y * (z + op.n_z * t)),
     xcb + op.n_xh * (y_minus + op.n_y * (z + op.n_z * t)),
     xcb + op.n_xh * (y + op.n_y * (z_plus + op.n_z * t)),
     xcb + op.n_xh * (y + op.n_y * (z_minus + op.n_z * t)),
     xcb + op.n_xh * (y + op.n_y * (z + op.n_z * t_plus)),
     xcb + op.n_xh * (y + op.n_y * (z + op.n_z * t_minus)) ]

/-! ## Buffers, loops and field containers -/

/-- A buffer of `float`s addressed by a signed offset. -/
abbrev Buf (R : Type) := Int → R

/-- The assignment `p[i] = v`. -/
def Buf.store {R : Type} (m : Buf R) (i : Int) (v : R) : Buf R :=
  fun j => if j = i then v else m j

/-- Pointer arithmetic on a read-only pointer: the view from `p + k`. -/
def Buf.shift {R : Type} (p : Buf R) (k : Int) : Buf R := fun i => p (k + i)

/-- The first `n` iterations of a counted loop starting at `lo`. -/
def loopN {σ : Type} (lo : Int) (body : Int → σ → σ) : Nat → σ → σ
  | 0, s => s
  | n + 1, s => body (lo + (n : Int)) (loopN lo body n s)

/-- The loop `for (i = lo; i < hi; ++i) body`. -/
def forLoop {σ : Type} (lo hi : Int) (body : Int → σ → σ) (s : σ) : σ :=
  loopN lo body (hi - lo).toNat s

/-- The accumulation `acc = 0; for (i = 0; i < n; ++i) acc += f i`. -/
def sumN {R : Type} [CommRing R] (f : Int → R) : Nat → R
  | 0 => 0
  | n + 1 => sumN f n + f (n : Int)

/-- Element `a[i]` of a C array of eight entries. -/
def arr8 {α : Type} (a : Fin 8 → α) (i : Int) : α :=
  a ⟨i.toNat % 8, Nat.mod_lt _ (by decide)⟩

/-- Modelled from the spec: `CoarseSpinor` (declared in `lattice/coarse/coarse_types.h`)
is a dense buffer indexed by (checkerboard, site, colorspin, re/im) with colorspin
count `num_colors * num_spins`; `data cb` is the buffer of checkerboard `cb`. -/
structure CoarseSpinor (R : Type) where
  info : LatticeInfo
  data : Int → Buf R

/-- Accessor `CoarseSpinor::GetNumColorSpin()`. -/
def CoarseSpinor.GetNumColorSpin {R : Type} (s : CoarseSpinor R) : Int :=
  s.info.n_color * s.info.n_spin

/-- Offset of the first float of `site` inside a checkerboard buffer: the fixed
per-site stride is `n_complex * num_colorspin`. -/
def CoarseSpinor.siteOffset {R : Type} (s : CoarseSpinor R) (site : Int) : Int :=
  site * (n_complex * s.GetNumColorSpin)

/-- Accessor `CoarseSpinor::GetSiteDataPtr(cb, site)` as a read-only pointer. -/
def CoarseSpinor.GetSiteDataPtr {R : Type} (s : CoarseSpinor R) (cb site : Int) : Buf R :=
  (s.data cb).shift (s.siteOffset site)

/-- Modelled from the spec: `CoarseGauge` is laid out like a spinor with an extra
direction axis of size 9 (8 stencil directions and the local term), each direction a
colorspin x colorspin complex block stored `[row][col][re,im]`. -/
structure CoarseGauge (R : Type) where
  info : LatticeInfo
  data : Int → Buf R

/-- Accessor `CoarseGauge::GetLinkOffset()`: floats per direction block. -/
def CoarseGauge.GetLinkOffset {R : Type} (g : CoarseGauge R) : Int :=
  n_complex * (g.info.n_color * g.info.n_spin) * (g.info.n_color * g.info.n_spin)

/-- Accessor `CoarseGauge::GetSiteDataPtr(cb, site)`. -/
def CoarseGauge.GetSiteDataPtr {R : Type} (g : CoarseGauge R) (cb site : Int) : Buf R :=
  (g.data cb).shift (site * (9 * g.GetLinkOffset))

/-- Modelled from the spec: `CoarseGauge::GetSiteDirDataPtr(cb, site, dir)` (declared in
`lattice/coarse/coarse_types.h`) points at direction block `dir` of the site, one of the
9 consecutive blocks of `GetLinkOffset()` floats each that the site holds: the float
offset of the block in the buffer of its checkerboard. -/
def CoarseGauge.siteDirOffset {R : Type} (g : CoarseGauge R) (site dir : Int) : Int :=
  site * (9 * g.GetLinkOffset) + dir * g.GetLinkOffset

/-- Read-only view `GetSiteDirDataPtr(cb, site, dir)`. -/
def CoarseGauge.GetSiteDirDataPtr {R : Type} (g : CoarseGauge R) (cb site dir : Int) :
    Buf R :=
  (g.data cb).shift (g.siteDirOffset site dir)

/-- Modelled from the spec: `CoarseClover` holds two chiral blocks per site, each a
half-colorspin x half-colorspin complex block stored `[row][col][re,im]`. -/
structure CoarseClover (R : Type) where
  info : LatticeInfo
  data : Int → Buf R

/-- Floats per chiral block of a `CoarseClover`. -/
def CoarseClover.chiralOffset {R : Type} (c : CoarseClover R) : Int :=
  n_complex * Int.tdiv (c.info.n_color * c.info.n_spin) 2
    * Int.tdiv (c.info.n_color * c.info.n_spin) 2

/-- Accessor `CoarseClover::GetSiteChiralDataPtr(cb, site, chiral)`. -/
def CoarseClover.GetSiteChiralDataPtr {R : Type} (c : CoarseClover R)
    (cb site chiral : Int) : Buf R :=
  (c.data cb).shift (site * (2 * c.chiralOffset) + chiral * c.chiralOffset)

/-! ## Dense block matrix-vector kernel -/

/-- Real part of the complex product `(ar + i ai) (br + i bi)`. -/
def cmulRe {R : Type} [CommRing R] (ar ai br bi : R) : R := ar * br - ai * bi

/-- Imaginary part of the complex product `(ar + i ai) (br + i bi)`. -/
def cmulIm {R : Type} [CommRing R] (ar ai br bi : R) : R := ar * bi + ai * br

/-- Real part of row `row` of `M v` for an `N x N` row-major complex matrix `A` and a
complex vector `x`, both interleaved re/im. -/
def rowDotRe {R : Type} [CommRing R] (A x : Buf R) (N row : Int) : R :=
  sumN (fun col => cmulRe (A (RE + n_complex * (col + N * row)))
                          (A (IM + n_complex * (col + N * row)))
                          (x (RE + n_complex * col)) (x (IM + n_complex * col))) N.toNat

/-- Imaginary part of row `row` of `M v`. -/
def rowDotIm {R : Type} [CommRing R] (A x : Buf R) (N row : Int) : R :=
  sumN (fun col => cmulIm (A (RE + n_complex * (col + N * row)))
                          (A (IM + n_complex * (col + N * row)))
                          (x (RE + n_complex * col)) (x (IM + n_complex * col))) N.toNat

/-- Modelled from the spec: `CMatMultNaive(y, A, x, N)` of `lattice/cmat_mult.h`
computes `y = A x` for an `N x N` dense complex matrix stored row-major as interleaved
re/im floats and a length-`N` complex vector; `y` is the offset of the output inside
the buffer `mem`. -/
def CMatMultNaive {R : Type} [CommRing R] (mem : Buf R) (y : Int) (A x : Buf R) (N : Int) :
    Buf R :=
  forLoop 0 N (fun row m =>
    (m.store (y + (RE + n_complex * row)) (rowDotRe A x N row)).store
      (y + (IM + n_complex * row)) (rowDotIm A x N row)) mem

/-- Modelled from the spec: `CMatMultNaiveAdd(y, A, x, N)` computes `y += A x` instead
of overwriting. -/
def CMatMultNaiveAdd {R : Type} [CommRing R] (mem : Buf R) (y : Int) (A x : Buf R)
    (N : Int) : Buf R :=
  forLoop 0 N (fun row m =>
    (m.store (y + (RE + n_complex * row))
        (m (y + (RE + n_complex * row)) + rowDotRe A x N row)).store
      (y + (IM + n_complex * row))
        (m (y + (IM + n_complex * row)) + rowDotIm A x N row)) mem

/-! ## Site kernels and the operator (lines 102-301) -/

/-- Kernel `CoarseDiracOp::siteApply` (lines 280-301); `output` is the offset of the site in
the output buffer `mem`. -/
def siteApply {R : Type} [CommRing R] (op : CoarseDiracOp) (mem : Buf R) (output : Int)
    (gauge_links : Int → Buf R) (clover_cb_0 clover_cb_1 spinor_cb : Buf R)
    (neigh_spinors : Int → Buf R) : Buf R :=
  let N_color := op.GetNumColor
  let N_colorspin := op.GetNumColorSpin
  let m1 := CMatMultNaive mem output clover_cb_0 spinor_cb N_color
  let m2 := CMatMultNaive m1 (output + 2 * N_color) clover_cb_1
              (spinor_cb.shift (2 * N_color)) N_color
  forLoop 0 8 (fun mu m =>
    CMatMultNaiveAdd m output (gauge_links mu) (neigh_spinors mu) N_colorspin) m2

/-- Kernel `CoarseDiracOp::siteApplyDslash` (lines 256-278). -/
def siteApplyDslash {R : Type} [CommRing R] (op : CoarseDiracOp) (mem : Buf R)
    (output : Int) (gauge_links : Int → Buf R) (_spinor_cb : Buf R)
    (neigh_spinors : Int → Buf R) : Buf R :=
  let N_colorspin := op.GetNumColorSpin
  let m1 := forLoop 0 (N_colorspin * n_complex) (fun i m => m.store (output + i) 0) mem
  forLoop 0 8 (fun mu m =>
    CMatMultNaiveAdd m output (gauge_links mu) (neigh_spinors mu) N_colorspin) m1

/-- The array `gauge_links[8]` of lines 132-140 (and, identically, 207-215 in
`Dslash`): entry `mu` is `gauge_base + mu*gdir_offset`. -/
def gaugeLinks {R : Type} (gauge_in : CoarseGauge R) (target_cb site : Int) :
    Int → Buf R :=
  let gauge_base := gauge_in.GetSiteDataPtr target_cb site
  let gdir_offset := gauge_in.GetLinkOffset
  arr8 ![ gauge_base,
          gauge_base.shift gdir_offset,
          gauge_base.shift (2 * gdir_offset),
          gauge_base.shift (3 * gdir_offset),
          gauge_base.shift (4 * gdir_offset),
          gauge_base.shift (5 * gdir_offset),
          gauge_base.shift (6 * gdir_offset),
          gauge_base.shift (7 * gdir_offset) ]

/-- The array `neigh_spinors[8]` of lines 162-172, read on `source_cb = 1 - target_cb`. -/
def neighSpinors {R : Type} (op : CoarseDiracOp) (spinor_in : CoarseSpinor R)
    (target_cb site : Int) : Int → Buf R :=
  let source_cb := 1 - target_cb
  arr8 (fun mu => spinor_in.GetSiteDataPtr source_cb (neighSites op target_cb site mu))

/-- One iteration of the site loop of `operator()` (lines 113-176) on the buffer of
the target checkerboard of `spinor_out`. -/
def applySite {R : Type} [CommRing R] (op : CoarseDiracOp) (spinor_out : CoarseSpinor R)
    (gauge_in : CoarseGauge R) (clover_in : CoarseClover R) (spinor_in : CoarseSpinor R)
    (target_cb site : Int) (mem : Buf R) : Buf R :=
  siteApply op mem (spinor_out.siteOffset site)
    (gaugeLinks gauge_in target_cb site)
    (clover_in.GetSiteChiralDataPtr target_cb site 0)
    (clover_in.GetSiteChiralDataPtr target_cb site 1)
    (spinor_in.GetSiteDataPtr target_cb site)
    (neighSpinors op spinor_in target_cb site)

/-- Method `CoarseDiracOp::operator()` (lines 102-178), called by thread `tid`.  The output
spinor is a different object from the input spinor. -/
def Apply {R : Type} [CommRing R] (op : CoarseDiracOp) (spinor_out : CoarseSpinor R)
    (gauge_in : CoarseGauge R) (clover_in : CoarseClover R) (spinor_in : CoarseSpinor R)
    (target_cb tid : Int) : CoarseSpinor R :=
  let min_site := (op.thread_limits tid).min_site
  let max_site := (op.thread_limits tid).max_site
  { spinor_out with
    data := Function.update spinor_out.data target_cb
      (forLoop min_site max_site
        (applySite op spinor_out gauge_in clover_in spinor_in target_cb)
        (spinor_out.data target_cb)) }

/-- One iteration of the site loop of `Dslash` (lines 190-251). -/
def dslashSite {R : Type} [CommRing R] (op : CoarseDiracOp) (spinor_out : CoarseSpinor R)
    (gauge_in : CoarseGauge R) (spinor_in : CoarseSpinor R)
    (target_cb site : Int) (mem : Buf R) : Buf R :=
  siteApplyDslash op mem (spinor_out.siteOffset site)
    (gaugeLinks gauge_in target_cb site)
    (spinor_in.GetSiteDataPtr target_cb site)
    (neighSpinors op spinor_in target_cb site)

/-- Method `CoarseDiracOp::Dslash` (lines 181-253), called by thread `tid`. -/
def Dslash {R : Type} [CommRing R] (op : CoarseDiracOp) (spinor_out : CoarseSpinor R)
    (gauge_in : CoarseGauge R) (spinor_in : CoarseSpinor R)
    (target_cb tid : Int) : CoarseSpinor R :=
  let min_site := (op.thread_limits tid).min_site
  let max_site := (op.thread_limits tid).max_site
  { spinor_out with
    data := Function.update spinor_out.data target_cb
      (forLoop min_site max_site
        (dslashSite op spinor_out gauge_in spinor_in target_cb)
        (spinor_out.data target_cb)) }

/-- Float `k` of the interleaved complex vector `A x`: the real part of row `k/2` for
even `k`, its imaginary part for odd `k`. -/
def rowDotAt {R : Type} [CommRing R] (A x : Buf R) (N k : Int) : R :=
  if k % 2 = 0 then rowDotRe A x N (k / 2) else rowDotIm A x N (k / 2)

/-- The stencil sum of the claims: float `k` of `Σ_{mu=0..7} U_mu ψ_mu` at `site`, with
`U_mu` the direction block `mu` of the gauge field at the site
(`GetSiteDirDataPtr(target_cb, site, mu)`) and `ψ_mu` the site data of the input spinor
at entry `mu` of the neighbour table, on the opposite checkerboard.  The sum is written
without the arrays `gauge_links` and `neigh_spinors` the method builds. -/
def stencilSpec {R : Type} [CommRing R] (op : CoarseDiracOp) (gauge_in : CoarseGauge R)
    (spinor_in : CoarseSpinor R) (target_cb site k : Int) : R :=
  sumN (fun mu => rowDotAt (gauge_in.GetSiteDirDataPtr target_cb site mu)
    (spinor_in.GetSiteDataPtr (1 - target_cb) (arr8 (neighSites op target_cb site) mu))
    op.GetNumColorSpin k) 8

/-- The local term of the claims: float `k` of `[C0 in_lo ; C1 in_hi]`, where `in_lo`
and `in_hi` are the first and the second half of the `N_colorspin` complex components
of the input spinor at `site` and `C0`, `C1` are the chiral clover blocks of the site,
each `(N_colorspin/2) x (N_colorspin/2)`. -/
def cloverSpec {R : Type} [CommRing R] (op : CoarseDiracOp) (clover_in : CoarseClover R)
    (spinor_in : CoarseSpinor R) (target_cb site k : Int) : R :=
  let half := Int.tdiv op.GetNumColorSpin 2
  if k < 2 * half then
    rowDotAt (clover_in.GetSiteChiralDataPtr target_cb site 0)
      (spinor_in.GetSiteDataPtr target_cb site) half k
  else
    rowDotAt (clover_in.GetSiteChiralDataPtr target_cb site 1)
      ((spinor_in.GetSiteDataPtr target_cb site).shift (2 * half)) half (k - 2 * half)

/-- What the claims say `Apply` leaves at float `k` of `site`:
`[C0 in_lo ; C1 in_hi] + Σ_mu U_mu ψ_mu`. -/
def applySpec {R : Type} [CommRing R] (op : CoarseDiracOp) (gauge_in : CoarseGauge R)
    (clover_in : CoarseClover R) (spinor_in : CoarseSpinor R)
    (target_cb site k : Int) : R :=
  cloverSpec op clover_in spinor_in target_cb site k +
    stencilSpec op gauge_in spinor_in target_cb site k

/-- The floats of site `s` in a checkerboard buffer with `ncs` colorspins per site. -/
def siteRegion (ncs s j : Int) : Prop := s * (2 * ncs) ≤ j ∧ j < s * (2 * ncs) + 2 * ncs

/-- The interleaved complex vector `c x + y` for the complex scalar `c = c_re + i c_im`:
an even float holds a real part, the following odd float the imaginary part. -/
def caxpyBuf {R : Type} [CommRing R] (c_re c_im : R) (x y : Buf R) : Buf R :=
  fun j =>
    if j % 2 = 0 then cmulRe c_re c_im (x j) (x (j + 1)) + y j
    else cmulIm c_re c_im (x (j - 1)) (x j) + y j

/-- The coarse spinor `c a + b` on the lattice of `a`. -/
def CoarseSpinor.caxpy {R : Type} [CommRing R] (c_re c_im : R) (a b : CoarseSpinor R) :
    CoarseSpinor R :=
  { info := a.info, data := fun cb => caxpyBuf c_re c_im (a.data cb) (b.data cb) }

/-! ## Level-1 BLAS kernels (`src/lib/lattice/coarse_l1_blas.cpp`)

`float` and `double` values are both elements of the ring `R`.  The `omp parallel for`
loop nests are run in sequential order; the reductions are sums in a commutative ring,
so the order of the iterations does not change the result. -/

/-- Modelled from the spec: two `LatticeInfo` are compatible iff the four global
extents, the per-checkerboard site count, the number of colours and the number of spins
match.  `AssertCompatible` (declared in `lattice/lattice_info.h`) aborts the process when
they are not. -/
def LatticeInfo.compatible (a b : LatticeInfo) : Prop :=
  a.n_x = b.n_x ∧ a.n_y = b.n_y ∧ a.n_z = b.n_z ∧ a.n_t = b.n_t ∧
  a.n_cb_sites = b.n_cb_sites ∧ a.n_color = b.n_color ∧ a.n_spin = b.n_spin

instance (a b : LatticeInfo) : Decidable (LatticeInfo.compatible a b) := by
  unfold LatticeInfo.compatible; infer_instance

/-- Lines 20-24: `GlobalComm::GlobalSum(double&)` returns the summand unchanged. -/
def GlobalSum {R : Type} (my_summand : R) : R := my_summand

/-- Lines 25-27: `GlobalComm::GlobalSum(double*, int)` on an array of two entries
returns the array unchanged. -/
def GlobalSumArray {R : Type} (array : R × R) : R × R := array

/-- The loop nest of a kernel that writes a spinor and carries a reduction variable:
`for cb < 2`, `for cbsite < num_cbsites`, `for cspin < num_colorspin`.  The body sees
the buffer of checkerboard `cb` and the reduction variable. -/
def blasLoop {R α : Type} (num_cbsites num_colorspin : Int)
    (body : Int → Int → Int → Buf R × α → Buf R × α) (data : Int → Buf R) (acc : α) :
    (Int → Buf R) × α :=
  forLoop 0 2 (fun cb st =>
    let r := forLoop 0 num_cbsites (fun cbsite sb =>
      forLoop 0 num_colorspin (fun cspin s => body cb cbsite cspin s) sb) (st.1 cb, st.2)
    (Function.update st.1 cb r.1, r.2)) (data, acc)

/-- The loop nest of a kernel that only writes a spinor. -/
def blasData {R : Type} (num_cbsites num_colorspin : Int)
    (body : Int → Int → Int → Buf R → Buf R) (data : Int → Buf R) : Int → Buf R :=
  forLoop 0 2 (fun cb d =>
    Function.update d cb
      (forLoop 0 num_cbsites (fun cbsite m =>
        forLoop 0 num_colorspin (fun cspin m => body cb cbsite cspin m) m) (d cb))) data

/-- The loop nest of a kernel that only reduces: the body adds a term to the reduction
variable. -/
def blasReduce {α : Type} (num_cbsites num_colorspin : Int)
    (body : Int → Int → Int → α → α) (acc : α) : α :=
  forLoop 0 2 (fun cb a =>
    forLoop 0 num_cbsites (fun cbsite a =>
      forLoop 0 num_colorspin (fun cspin a => body cb cbsite cspin a) a) a) acc

/-- Lines 42-84: `XmyNorm2Vec(x, y)`; the result is the updated `x` and the returned
norm, or `none` when `AssertCompatible` aborts. -/
def XmyNorm2Vec {R : Type} [CommRing R] (x y : CoarseSpinor R) :
    Option (CoarseSpinor R × R) :=
  if LatticeInfo.compatible x.info y.info then
    let num_cbsites := x.info.n_cb_sites
    let num_colorspin := x.GetNumColorSpin
    let r := blasLoop num_cbsites num_colorspin (fun cb cbsite cspin s =>
      let x_site_data := x.siteOffset cbsite
      let y_site_data := y.GetSiteDataPtr cb cbsite
      let diff_re := s.1 (x_site_data + (RE + n_complex * cspin))
        - y_site_data (RE + n_complex * cspin)
      let diff_im := s.1 (x_site_data + (IM + n_complex * cspin))
        - y_site_data (IM + n_complex * cspin)
      let m1 := s.1.store (x_site_data + (RE + n_complex * cspin)) diff_re
      let m2 := m1.store (x_site_data + (IM + n_complex * cspin)) diff_im
      (m2, s.2 + (diff_re * diff_re + diff_im * diff_im))) x.data 0
    some ({ x with data := r.1 }, GlobalSum r.2)
  else none

/-- Lines 91-126: `Norm2Vec(x)`. -/
def Norm2Vec {R : Type} [CommRing R] (x : CoarseSpinor R) : R :=
  let num_cbsites := x.info.n_cb_sites
  let num_colorspin := x.GetNumColorSpin
  let norm_sq := blasReduce num_cbsites num_colorspin (fun cb cbsite cspin norm_sq =>
    let x_site_data := x.GetSiteDataPtr cb cbsite
    let x_re := x_site_data (RE + n_complex * cspin)
    let x_im := x_site_data (IM + n_complex * cspin)
    norm_sq + (x_re * x_re + x_im * x_im)) 0
  GlobalSum norm_sq

/-- Lines 134-179: `InnerProductVec(x, y)`; the result is the pair (real part, imaginary
part) of the returned complex number, or `none` when `AssertCompatible` aborts. -/
def InnerProductVec {R : Type} [CommRing R] (x y : CoarseSpinor R) : Option (R × R) :=
  if LatticeInfo.compatible x.info y.info then
    let num_cbsites := x.info.n_cb_sites
    let num_colorspin := x.GetNumColorSpin
    let r := blasReduce num_cbsites num_colorspin (fun cb cbsite cspin (iprod : R × R) =>
      let x_site_data := x.GetSiteDataPtr cb cbsite
      let y_site_data := y.GetSiteDataPtr cb cbsite
      let iprod_re := iprod.1
        + (x_site_data (RE + n_complex * cspin) * y_site_data (RE + n_complex * cspin)
          + x_site_data (IM + n_complex * cspin) * y_site_data (IM + n_complex * cspin))
      let iprod_im := iprod.2
        + (x_site_data (RE + n_complex * cspin) * y_site_data (IM + n_complex * cspin)
          - x_site_data (IM + n_complex * cspin) * y_site_data (RE + n_complex * cspin))
      (iprod_re, iprod_im)) (0, 0)
    some (GlobalSumArray r)
  else none

/-- Lines 181-207: `ZeroVec(x)`. -/
def ZeroVec {R : Type} [CommRing R] (x : CoarseSpinor R) : CoarseSpinor R :=
  let num_cbsites := x.info.n_cb_sites
  let num_colorspin := x.GetNumColorSpin
  { x with data := blasData num_cbsites num_colorspin (fun _cb cbsite cspin m =>
      let x_site_data := x.siteOffset cbsite
      let m1 := m.store (x_site_data + (RE + n_complex * cspin)) 0
      m1.store (x_site_data + (IM + n_complex * cspin)) 0) x.data }

/-- Lines 209-240: `CopyVec(x, y)`; `none` when `AssertCompatible` aborts. -/
def CopyVec {R : Type} [CommRing R] (x y : CoarseSpinor R) : Option (CoarseSpinor R) :=
  if LatticeInfo.compatible x.info y.info then
    let num_cbsites := x.info.n_cb_sites
    let num_colorspin := x.GetNumColorSpin
    some { x with data := blasData num_cbsites num_colorspin (fun cb cbsite cspin m =>
      let x_site_data := x.siteOffset cbsite
      let y_site_data := y.GetSiteDataPtr cb cbsite
      let m1 := m.store (x_site_data + (RE + n_complex * cspin))
        (y_site_data (RE + n_complex * cspin))
      m1.store (x_site_data + (IM + n_complex * cspin))
        (y_site_data (IM + n_complex * cspin))) x.data }
  else none

/-- Lines 242-268: `ScaleVec(const float alpha, x)`. -/
def ScaleVecReal {R : Type} [CommRing R] (alpha : R) (x : CoarseSpinor R) : CoarseSpinor R :=
  let num_cbsites := x.info.n_cb_sites
  let num_colorspin := x.GetNumColorSpin
  { x with data := blasData num_cbsites num_colorspin (fun _cb cbsite cspin m =>
      let x_site_data := x.siteOffset cbsite
      let m1 := m.store (x_site_data + (RE + n_complex * cspin))
        (m (x_site_data + (RE + n_complex * cspin)) * alpha)
      m1.store (x_site_data + (IM + n_complex * cspin))
        (m1 (x_site_data + (IM + n_complex * cspin)) * alpha)) x.data }

/-- Lines 270-298: `ScaleVec(const std::complex<float>& alpha, x)` with
`alpha = alpha_re + i alpha_im`; `t *= alpha` is the complex product `t * alpha`. -/
def ScaleVecComplex {R : Type} [CommRing R] (alpha_re alpha_im : R) (x : CoarseSpinor R) :
    CoarseSpinor R :=
  let num_cbsites := x.info.n_cb_sites
  let num_colorspin := x.GetNumColorSpin
  { x with data := blasData num_cbsites num_colorspin (fun _cb cbsite cspin m =>
      let x_site_data := x.siteOffset cbsite
      let t_re := m (x_site_data + (RE + n_complex * cspin))
      let t_im := m (x_site_data + (IM + n_complex * cspin))
      let t2_re := cmulRe t_re t_im alpha_re alpha_im
      let t2_im := cmulIm t_re t_im alpha_re alpha_im
      let m1 := m.store (x_site_data + (RE + n_complex * cspin)) t2_re
      m1.store (x_site_data + (IM + n_complex * cspin)) t2_im) x.data }

/-- Lines 300-340: `AxpyVec(const std::complex<float>& alpha, x, y)`; the result is the
updated `y`, or `none` when `AssertCompatible` aborts. -/
def AxpyVecComplex {R : Type} [CommRing R] (alpha_re alpha_im : R) (x y : CoarseSpinor R) :
    Option (CoarseSpinor R) :=
  if LatticeInfo.compatible x.info y.info then
    let num_cbsites := x.info.n_cb_sites
    let num_colorspin := x.GetNumColorSpin
    some { y with data := blasData num_cbsites num_colorspin (fun cb cbsite cspin m =>
      let x_site_data := x.GetSiteDataPtr cb cbsite
      let y_site_data := y.siteOffset cbsite
      let c_x_re := x_site_data (RE + n_complex * cspin)
      let c_x_im := x_site_data (IM + n_complex * cspin)
      let c_y_re := m (y_site_data + (RE + n_complex * cspin))
      let c_y_im := m (y_site_data + (IM + n_complex * cspin))
      let c_y2_re := c_y_re + cmulRe alpha_re alpha_im c_x_re c_x_im
      let c_y2_im := c_y_im + cmulIm alpha_re alpha_im c_x_re c_x_im
      let m1 := m.store (y_site_data + (RE + n_complex * cspin)) c_y2_re
      m1.store (y_site_data + (IM + n_complex * cspin)) c_y2_im) y.data }
  else none

/-- Lines 342-372: `AxpyVec(const float& alpha, x, y)`. -/
def AxpyVecReal {R : Type} [CommRing R] (alpha : R) (x y : CoarseSpinor R) :
    Option (CoarseSpinor R) :=
  if LatticeInfo.compatible x.info y.info then
    let num_cbsites := x.info.n_cb_sites
    let num_colorspin := x.GetNumColorSpin
    some { y with data := blasData num_cbsites num_colorspin (fun cb cbsite cspin m =>
      let x_site_data := x.GetSiteDataPtr cb cbsite
      let y_site_data := y.siteOffset cbsite
      let m1 := m.store (y_site_data + (RE + n_complex * cspin))
        (m (y_site_data + (RE + n_complex * cspin))
          + alpha * x_site_data (RE + n_complex * cspin))
      m1.store (y_site_data + (IM + n_complex * cspin))
        (m1 (y_site_data + (IM + n_complex * cspin))
          + alpha * x_site_data (IM + n_complex * cspin))) y.data }
  else none

/-- Real part of component `cspin` of `site` on checkerboard `cb`. -/
def CoarseSpinor.compRe {R : Type} (x : CoarseSpinor R) (cb site cspin : Int) : R :=
  x.GetSiteDataPtr cb site (RE + n_complex * cspin)

/-- Imaginary part of component `cspin` of `site` on checkerboard `cb`. -/
def CoarseSpinor.compIm {R : Type} (x : CoarseSpinor R) (cb site cspin : Int) : R :=
  x.GetSiteDataPtr cb site (IM + n_complex * cspin)

/-- The index triples of a coarse spinor: both checkerboards, all sites per
checkerboard, all colorspin components. -/
def CoarseSpinor.isComp {R : Type} (x : CoarseSpinor R) (cb site cspin : Int) : Prop :=
  (cb = 0 ∨ cb = 1) ∧ (0 ≤ site ∧ site < x.info.n_cb_sites) ∧
  (0 ≤ cspin ∧ cspin < x.GetNumColorSpin)

/-- The sum `Σ_i f i` over both checkerboards, all `num_cbsites` sites and all
`num_colorspin` components. -/
def sumComp {R : Type} [CommRing R] (num_cbsites num_colorspin : Int)
    (f : Int → Int → Int → R) : R :=
  sumN (fun cb => sumN (fun site => sumN (fun cspin => f cb site cspin)
    num_colorspin.toNat) num_cbsites.toNat) 2

/-- One component update in normal form: the pair at component `c` of the site at
offset `o` is replaced by `(Fre c re im, Fim c re im)` computed from its old value. -/
def compData {R : Type} (o : Int) (Fre Fim : Int → R → R → R) (c : Int) (m : Buf R) :
    Buf R :=
  (m.store (o + (RE + n_complex * c))
      (Fre c (m (o + (RE + n_complex * c))) (m (o + (IM + n_complex * c))))).store
    (o + (IM + n_complex * c))
      (Fim c (m (o + (RE + n_complex * c))) (m (o + (IM + n_complex * c))))

/-! ## Concrete lattices and fields used to evaluate the kernels -/

/-- A 2 x 1 x 1 x 1 lattice (one site per checkerboard) with the given colour and spin
counts. -/
def latt2 (n_color n_spin : Int) : LatticeInfo :=
  { n_x := 2, n_y := 1, n_z := 1, n_t := 1, n_xh := 1, n_cb_sites := 1,
    n_color := n_color, n_spin := n_spin }

/-- The operator the constructor builds on `latt2 n_color n_spin` for one thread and SMT
factor 1 in the build `cfg8x64`. -/
def op2 (n_color n_spin : Int) : CoarseDiracOp :=
  CoarseDiracOp.build cfg8x64 (latt2 n_color n_spin) 1 1

/-- A 4 x 1 x 1 x 1 lattice (two sites per checkerboard). -/
def latt4 (n_color n_spin : Int) : LatticeInfo :=
  { n_x := 4, n_y := 1, n_z := 1, n_t := 1, n_xh := 2, n_cb_sites := 2,
    n_color := n_color, n_spin := n_spin }

/-- The operator the constructor builds on `latt4 n_color n_spin` for two threads and SMT
factor 1: thread 0 owns site 0 and thread 1 owns site 1. -/
def op4 (n_color n_spin : Int) : CoarseDiracOp :=
  CoarseDiracOp.build cfg8x64 (latt4 n_color n_spin) 1 2

/-- A spinor on `latt4` whose floats all hold `v`. -/
def constSpinor4 (n_color n_spin v : Int) : CoarseSpinor Int :=
  { info := latt4 n_color n_spin, data := fun _ _ => v }

/-- A gauge field on `latt4` whose floats all hold `v`. -/
def constGauge4 (n_color n_spin v : Int) : CoarseGauge Int :=
  { info := latt4 n_color n_spin, data := fun _ _ => v }

/-- A clover field on `latt4` whose floats all hold `v`. -/
def constClover4 (n_color n_spin v : Int) : CoarseClover Int :=
  { info := latt4 n_color n_spin, data := fun _ _ => v }

/-- A spinor on `latt2` whose floats all hold `v`. -/
def constSpinor (n_color n_spin v : Int) : CoarseSpinor Int :=
  { info := latt2 n_color n_spin, data := fun _ _ => v }

/-- A gauge field on `latt2` whose floats all hold `v`. -/
def constGauge (n_color n_spin v : Int) : CoarseGauge Int :=
  { info := latt2 n_color n_spin, data := fun _ _ => v }

/-- A clover field on `latt2` whose floats all hold `v`. -/
def constClover (n_color n_spin v : Int) : CoarseClover Int :=
  { info := latt2 n_color n_spin, data := fun _ _ => v }

/-- A 4 x 2 x 2 x 2 lattice with 16 sites per checkerboard, one colour and two spins. -/
def latt4222 : LatticeInfo :=
  { n_x := 4, n_y := 2, n_z := 2, n_t := 2, n_xh := 2, n_cb_sites := 16,
    n_color := 1, n_spin := 2 }

/-- The operator the constructor builds on `latt4222` for one thread. -/
def op4222 : CoarseDiracOp := CoarseDiracOp.build cfg8x64 latt4222 1 1

/-- A spinor on `latt2` whose even floats (real parts) hold `re` and whose odd floats
(imaginary parts) hold `im`. -/
def reimSpinor (n_color n_spin re im : Int) : CoarseSpinor Int :=
  { info := latt2 n_color n_spin, data := fun _ j => if j % 2 = 0 then re else im }

/-! ## Aggregation (`src/include/lattice/aggregation.h`) -/

/-- Modelled from the spec: `n_dim` (declared in `lattice/constants.h`) is the number of
lattice axes, 4. -/
abbrev n_dim : Int := 4

/-- Modelled from the spec: `IndexArray` (declared in `lattice/constants.h`) is an array
of `n_dim` indices. -/
abbrev IndexArray := Fin 4 → Int

/-- Element `a[mu]` of an `IndexArray`. -/
def idx4 (a : IndexArray) (mu : Int) : Int :=
  a ⟨mu.toNat % 4, Nat.mod_lt _ (by decide)⟩

/-- The assignment `a[mu] = v` on an `IndexArray`. -/
def set4 (a : IndexArray) (mu : Int) (v : Int) : IndexArray :=
  Function.update a ⟨mu.toNat % 4, Nat.mod_lt _ (by decide)⟩ v

/-- Modelled from the spec: `AssertVectorsDivideEachOther` (declared in
`lattice/geometry_utils.h`) passes iff the lattice dimension is exactly divisible by the
block dimension on every axis, and aborts the process otherwise.  A block dimension 0
divides nothing (the remainder of a division by 0 is not defined). -/
def AssertVectorsDivideEachOther (lat_dims block_dims : IndexArray) : Prop :=
  ∀ mu : Fin 4, block_dims mu ≠ 0 ∧ Int.tmod (lat_dims mu) (block_dims mu) = 0

instance (lat_dims block_dims : IndexArray) :
    Decidable (AssertVectorsDivideEachOther lat_dims block_dims) := by
  unfold AssertVectorsDivideEachOther; infer_instance

/-- Lines 41-52 of the `FullSpinAggregation` constructor, repeated verbatim as lines
117-128 of the `StandardAggregation` constructor: the result is
`(_blocks_per_dim, _num_blocks, _block_volume)`.  The array `_blocks_per_dim` starts
uninitialised (here: zero) and all its entries are assigned. -/
def blockGeometry (lat_dims block_dims : IndexArray) : IndexArray × Int × Int :=
  let blocks_per_dim := set4 (fun _ => 0) 0 (Int.tdiv (idx4 lat_dims 0) (idx4 block_dims 0))
  let num_blocks := idx4 blocks_per_dim 0
  let s := forLoop 1 n_dim (fun mu (s : IndexArray × Int) =>
    let bpd := set4 s.1 mu (Int.tdiv (idx4 lat_dims mu) (idx4 block_dims mu))
    (bpd, s.2 * idx4 bpd mu)) (blocks_per_dim, num_blocks)
  let block_volume := forLoop 1 n_dim (fun mu v => v * idx4 block_dims mu)
    (idx4 block_dims 0)
  (s.1, s.2, block_volume)

/-- Class `FullSpinAggregation` (lines 32-104): its private members. -/
structure FullSpinAggregation where
  block_dims : IndexArray
  num_aggregates : Int
  source_spins : List Int
  source_colors : List Int
  num_blocks : Int
  blocks_per_dim : IndexArray
  block_volume : Int

/-- Lines 34-56: the constructor of `FullSpinAggregation`; `none` when
`AssertVectorsDivideEachOther` aborts. -/
def FullSpinAggregation.create (lat_dims block_dims : IndexArray) :
    Option FullSpinAggregation :=
  if AssertVectorsDivideEachOther lat_dims block_dims then
    let g := blockGeometry lat_dims block_dims
    some { block_dims := block_dims, num_aggregates := 1, source_spins := [0, 1, 2, 3],
           source_colors := [0, 1, 2], num_blocks := g.2.1, blocks_per_dim := g.1,
           block_volume := g.2.2 }
  else none

/-- Lines 61-63. -/
def FullSpinAggregation.GetBlockVolume (a : FullSpinAggregation) : Int := a.block_volume

/-- Lines 66-68. -/
def FullSpinAggregation.GetBlockDimensions (a : FullSpinAggregation) : IndexArray :=
  a.block_dims

/-- Lines 71-73. -/
def FullSpinAggregation.GetNumAggregates (a : FullSpinAggregation) : Int :=
  a.num_aggregates

/-- Lines 76-78: the argument is not used. -/
def FullSpinAggregation.GetSourceSpins (a : FullSpinAggregation) (_aggregate : Int) :
    List Int := a.source_spins

/-- Lines 81-83: the argument is not used. -/
def FullSpinAggregation.GetSourceColors (a : FullSpinAggregation) (_aggregate : Int) :
    List Int := a.source_colors

/-- Lines 86-88. -/
def FullSpinAggregation.GetNumBlocks (a : FullSpinAggregation) : Int := a.num_blocks

/-- Lines 91-93. -/
def FullSpinAggregation.GetNumBlocksPerDim (a : FullSpinAggregation) : IndexArray :=
  a.blocks_per_dim

/-- Class `StandardAggregation` (lines 107-180): its private members. -/
structure StandardAggregation where
  block_dims : IndexArray
  num_aggregates : Int
  source_spins : List (List Int)
  source_colors : List (List Int)
  num_blocks : Int
  blocks_per_dim : IndexArray
  block_volume : Int

/-- Lines 109-132: the constructor of `StandardAggregation`; `none` when
`AssertVectorsDivideEachOther` aborts. -/
def StandardAggregation.create (lat_dims block_dims : IndexArray) :
    Option StandardAggregation :=
  if AssertVectorsDivideEachOther lat_dims block_dims then
    let g := blockGeometry lat_dims block_dims
    some { block_dims := block_dims, num_aggregates := 2,
           source_spins := [[0, 1], [2, 3]],
           source_colors := [[0, 1, 2], [0, 1, 2]], num_blocks := g.2.1,
           blocks_per_dim := g.1, block_volume := g.2.2 }
  else none

/-- Element `v[i]` of a `std::vector`; `none` outside the vector (undefined in C++). -/
def vecAt {α : Type} (v : List α) (i : Int) : Option α :=
  if 0 ≤ i then v.get? i.toNat else none

/-- Lines 137-139. -/
def StandardAggregation.GetBlockVolume (a : StandardAggregation) : Int := a.block_volume

/-- Lines 143-145. -/
def StandardAggregation.GetBlockDimensions (a : StandardAggregation) : IndexArray :=
  a.block_dims

/-- Lines 148-150. -/
def StandardAggregation.GetNumAggregates (a : StandardAggregation) : Int :=
  a.num_aggregates

/-- Lines 153-155: `_source_spins[aggregate]`. -/
def StandardAggregation.GetSourceSpins (a : StandardAggregation) (aggregate : Int) :
    Option (List Int) := vecAt a.source_spins aggregate

/-- Lines 158-160: `_source_colors[aggregate]`. -/
def StandardAggregation.GetSourceColors (a : StandardAggregation) (aggregate : Int) :
    Option (List Int) := vecAt a.source_colors aggregate

/-- Lines 163-165. -/
def StandardAggregation.GetNumBlocks (a : StandardAggregation) : Int := a.num_blocks

/-- Lines 168-170. -/
def StandardAggregation.GetNumBlocksPerDim (a : StandardAggregation) : IndexArray :=
  a.blocks_per_dim

/-! ## Zeroing a gauge field (`src/lib/lattice/coarse_l1_blas.cpp`, lines 417-435) -/

/-- Accessor `CoarseGauge::GetNumColorSpin()`. -/
def CoarseGauge.GetNumColorSpin {R : Type} (g : CoarseGauge R) : Int :=
  g.info.n_color * g.info.n_spin

/-- Lines 417-435: `ZeroGauge(gauge)`.  The loops over `cb`, `cbsite` and `dir` are the
three levels of `blasData`; its body is the loop over `cs`. -/
def ZeroGauge {R : Type} [CommRing R] (gauge : CoarseGauge R) : CoarseGauge R :=
  let num_cbsites := gauge.info.n_cb_sites
  let num_colorspins := gauge.GetNumColorSpin
  { gauge with data := blasData num_cbsites 9 (fun _cb cbsite dir m =>
      let gauge_data := gauge.siteDirOffset cbsite dir
      forLoop 0 (num_colorspins * num_colorspins) (fun cs m =>
        let m1 := m.store (gauge_data + (RE + n_complex * cs)) 0
        m1.store (gauge_data + (IM + n_complex * cs)) 0) m) gauge.data }

/-! ## Blocks (`src/test/qdpxx/aggregate_block_qdpxx.h`)

The header declares `Block::create` and `CreateBlockList`; their bodies are not part of
the sources, so both are modelled from the specification. -/

/-- Modelled from the spec: the linear index of the site with coordinates `coords` on a
lattice of dimensions `dims`, row-major with x fastest (the site-index convention of the
lattice geometry). -/
def CoordsToIndex (coords dims : IndexArray) : Int :=
  coords 0 + dims 0 * (coords 1 + dims 1 * (coords 2 + dims 2 * coords 3))

/-- Class `Block` (lines 23-60): its private members. -/
structure Block where
  origin : IndexArray
  dimensions : IndexArray
  num_sites : Int
  created : Bool
  site_list : List Int

/-- Lines 28-31: the argument-free constructor (`_created = false`, `_num_sites = 0`);
the arrays are uninitialised (here: zero) and the site list is empty. -/
def Block.init : Block :=
  { origin := fun _ => 0, dimensions := fun _ => 0, num_sites := 0, created := false,
    site_list := [] }

/-- Modelled from the spec: `Block::create(local_lattice_dimensions, block_origin,
block_dimensions)` (declared at lines 33-35, body absent) enumerates every site whose
coordinates fall within `[origin, origin + dims)` on every axis, without periodic
wraparound, row-major over the block's local coordinates (x fastest), and appends its
index to the site list. -/
def Block.create (local_lattice_dimensions block_origin block_dimensions : IndexArray) :
    Block :=
  let site_list := forLoop 0 (block_dimensions 3) (fun t l =>
    forLoop 0 (block_dimensions 2) (fun z l =>
      forLoop 0 (block_dimensions 1) (fun y l =>
        forLoop 0 (block_dimensions 0) (fun x l =>
          l ++ [CoordsToIndex
            ![block_origin 0 + x, block_origin 1 + y, block_origin 2 + z, block_origin 3 + t]
            local_lattice_dimensions]) l) l) l) []
  { origin := block_origin, dimensions := block_dimensions,
    num_sites := (site_list.length : Int), created := true, site_list := site_list }

/-- Lines 37-40. -/
def Block.getSiteList (b : Block) : List Int := b.site_list

/-- Lines 42-45. -/
def Block.isCreated (b : Block) : Bool := b.created

/-- Lines 47-50. -/
def Block.getNumSites (b : Block) : Int := b.num_sites

/-- Modelled from the spec: `CreateBlockList(blocklist, blocked_lattice_dimensions,
local_lattice_dimensions, block_dimensions)` (declared at lines 64-67, body absent) sets
the blocked lattice dimensions to the quotients of the lattice by the block dimensions
and builds one `Block` per block coordinate, row-major with x fastest, with origin
`block coordinate * block dimension`.  Block dimensions that do not divide the lattice
dimensions are a fatal configuration error (`none`).  The result is
`(blocklist, blocked_lattice_dimensions)`. -/
def CreateBlockList (local_lattice_dimensions block_dimensions : IndexArray) :
    Option (List Block × IndexArray) :=
  if AssertVectorsDivideEachOther local_lattice_dimensions block_dimensions then
    let blocked_lattice_dimensions : IndexArray := fun mu =>
      Int.tdiv (local_lattice_dimensions mu) (block_dimensions mu)
    let blocklist := forLoop 0 (blocked_lattice_dimensions 3) (fun ct l =>
      forLoop 0 (blocked_lattice_dimensions 2) (fun cz l =>
        forLoop 0 (blocked_lattice_dimensions 1) (fun cy l =>
          forLoop 0 (blocked_lattice_dimensions 0) (fun cx l =>
            l ++ [Block.create local_lattice_dimensions
              ![cx * block_dimensions 0, cy * block_dimensions 1, cz * block_dimensions 2,
                ct * block_dimensions 3]
              block_dimensions]) l) l) l) []
    some (blocklist, blocked_lattice_dimensions)
  else none

/-- A gauge field on `latt4` whose float at offset `j` of either checkerboard holds `j`:
all entries of all direction blocks of all sites differ. -/
def rampGauge (n_color n_spin : Int) : CoarseGauge Int :=
  { info := latt4 n_color n_spin, data := fun _ j => j }

/-- A clover field on `latt4` whose float at offset `j` holds `j + 1`. -/
def rampClover (n_color n_spin : Int) : CoarseClover Int :=
  { info := latt4 n_color n_spin, data := fun _ j => j + 1 }

/-- A spinor on `latt4` whose float at offset `j` of checkerboard `cb` holds
`100 * cb + j`: all components of all sites differ. -/
def rampSpinor (n_color n_spin : Int) : CoarseSpinor Int :=
  { info := latt4 n_color n_spin, data := fun cb j => 100 * cb + j }

/-! ## Integer division facts -/

theorem tdiv_nonneg_eq (a b : Int) (ha : 0 ≤ a) (hb : 0 < b) : Int.tdiv a b = a / b :=
  Int.tdiv_eq_ediv ha (le_of_lt hb)

theorem tmod_nonneg_eq (a b : Int) (ha : 0 ≤ a) (hb : 0 < b) : Int.tmod a b = a % b :=
  Int.tmod_eq_emod ha (le_of_lt hb)

theorem sub_mul_ediv_eq_emod (a b : Int) : a - b * (a / b) = a % b := by
  have := Int.emod_add_ediv a b
  linarith

theorem ediv_lt_of_lt_mul_pos (a b c : Int) (hb : 0 < b) (h : a < b * c) : a / b < c := by
  apply Int.ediv_lt_of_lt_mul hb
  linarith [mul_comm b c]

theorem wrap_plus (y n : Int) (h0 : 0 ≤ y) (h1 : y < n) :
    (if y < n - 1 then y + 1 else 0) = (y + 1) % n := by
  split_ifs with h
  · rw [Int.emod_eq_of_lt (by omega) (by omega)]
  · have : y + 1 = n := by omega
    rw [this, Int.emod_self]

theorem wrap_minus (y n : Int) (h0 : 0 ≤ y) (h1 : y < n) :
    (if y > 0 then y - 1 else n - 1) = (y - 1) % n := by
  split_ifs with h
  · rw [Int.emod_eq_of_lt (by omega) (by omega)]
  · have : y = 0 := by omega
    subst this
    have h2 : (0 - 1 : Int) = (n - 1) + n * (-1) := by ring
    rw [h2, Int.add_mul_emod_self_left, Int.emod_eq_of_lt (by omega) (by omega)]

/-! ## Site decoding -/

theorem decodeSite_bounds (n_xh n_y n_z n_t site : Int)
    (hx : 1 ≤ n_xh) (hy : 1 ≤ n_y) (hz : 1 ≤ n_z) (_ht : 1 ≤ n_t)
    (h0 : 0 ≤ site) (h1 : site < n_xh * n_y * n_z * n_t) :
    0 ≤ (decodeSite n_xh n_y n_z site).xcb ∧ (decodeSite n_xh n_y n_z site).xcb < n_xh ∧
    0 ≤ (decodeSite n_xh n_y n_z site).y ∧ (decodeSite n_xh n_y n_z site).y < n_y ∧
    0 ≤ (decodeSite n_xh n_y n_z site).z ∧ (decodeSite n_xh n_y n_z site).z < n_z ∧
    0 ≤ (decodeSite n_xh n_y n_z site).t ∧ (decodeSite n_xh n_y n_z site).t < n_t := by
  have q1 : 0 ≤ site / n_xh := Int.ediv_nonneg h0 (by omega)
  have q2 : 0 ≤ site / n_xh / n_y := Int.ediv_nonneg q1 (by omega)
  have q3 : 0 ≤ site / n_xh / n_y / n_z := Int.ediv_nonneg q2 (by omega)
  have b1 : site / n_xh < n_y * (n_z * n_t) :=
    ediv_lt_of_lt_mul_pos _ _ _ (by omega) (by nlinarith)
  have b2 : site / n_xh / n_y < n_z * n_t := ediv_lt_of_lt_mul_pos _ _ _ (by omega) b1
  have b3 : site / n_xh / n_y / n_z < n_t := ediv_lt_of_lt_mul_pos _ _ _ (by omega) b2
  simp only [decodeSite]
  rw [tdiv_nonneg_eq site n_xh h0 (by omega), tdiv_nonneg_eq _ n_y q1 (by omega),
    tdiv_nonneg_eq _ n_z q2 (by omega)]
  simp only [sub_mul_ediv_eq_emod]
  exact ⟨Int.emod_nonneg _ (by omega), Int.emod_lt_of_pos _ (by omega),
    Int.emod_nonneg _ (by omega), Int.emod_lt_of_pos _ (by omega),
    Int.emod_nonneg _ (by omega), Int.emod_lt_of_pos _ (by omega), q3, b3⟩

theorem decodeSite_encode (n_xh n_y n_z site : Int) :
    site = (decodeSite n_xh n_y n_z site).xcb + n_xh *
      ((decodeSite n_xh n_y n_z site).y + n_y *
        ((decodeSite n_xh n_y n_z site).z + n_z * (decodeSite n_xh n_y n_z site).t)) := by
  simp only [decodeSite]
  ring

/-- C8: site decoding inverts the row-major encoding.  For extents `n_xh, n_y, n_z,
n_t ≥ 1` and `0 ≤ site < n_xh*n_y*n_z*n_t` the coordinates computed at lines 118-123
lie in their extents and `site = xcb + n_xh*(y + n_y*(z + n_z*t))`. -/
theorem C8_decode_inverts_encoding (n_xh n_y n_z n_t site : Int)
    (hx : 1 ≤ n_xh) (hy : 1 ≤ n_y) (hz : 1 ≤ n_z) (ht : 1 ≤ n_t)
    (h0 : 0 ≤ site) (h1 : site < n_xh * n_y * n_z * n_t) :
    (0 ≤ (decodeSite n_xh n_y n_z site).xcb ∧ (decodeSite n_xh n_y n_z site).xcb < n_xh ∧
     0 ≤ (decodeSite n_xh n_y n_z site).y ∧ (decodeSite n_xh n_y n_z site).y < n_y ∧
     0 ≤ (decodeSite n_xh n_y n_z site).z ∧ (decodeSite n_xh n_y n_z site).z < n_z ∧
     0 ≤ (decodeSite n_xh n_y n_z site).t ∧ (decodeSite n_xh n_y n_z site).t < n_t) ∧
    site = (decodeSite n_xh n_y n_z site).xcb + n_xh *
      ((decodeSite n_xh n_y n_z site).y + n_y *
        ((decodeSite n_xh n_y n_z site).z + n_z * (decodeSite n_xh n_y n_z site).t)) :=
  ⟨decodeSite_bounds n_xh n_y n_z n_t site hx hy hz ht h0 h1,
   decodeSite_encode n_xh n_y n_z site⟩

/-- Witness of C8 on a 2 x 3 x 4 x 5 half lattice at site 119 = 1 + 2*(2 + 3*(3 + 4*4)). -/
theorem C8_decode_inverts_encoding_witness :
    decodeSite 2 3 4 119 = ⟨1, 2, 3, 4⟩ ∧
    ((0 ≤ (decodeSite 2 3 4 119).xcb ∧ (decodeSite 2 3 4 119).xcb < 2 ∧
     0 ≤ (decodeSite 2 3 4 119).y ∧ (decodeSite 2 3 4 119).y < 3 ∧
     0 ≤ (decodeSite 2 3 4 119).z ∧ (decodeSite 2 3 4 119).z < 4 ∧
     0 ≤ (decodeSite 2 3 4 119).t ∧ (decodeSite 2 3 4 119).t < 5) ∧
    (119 : Int) = (decodeSite 2 3 4 119).xcb + 2 *
      ((decodeSite 2 3 4 119).y + 3 *
        ((decodeSite 2 3 4 119).z + 4 * (decodeSite 2 3 4 119).t))) :=
  ⟨by decide, C8_decode_inverts_encoding 2 3 4 5 119 (by decide) (by decide) (by decide)
    (by decide) (by decide) (by decide)⟩

/-! ## Periodic neighbours -/

theorem globalX_bounds (target_cb : Int) (c : SiteCoords) (n_xh : Int)
    (h0 : 0 ≤ c.xcb) (h1 : c.xcb < n_xh) :
    0 ≤ globalX target_cb c ∧ globalX target_cb c < 2 * n_xh := by
  unfold globalX
  omega

/-- C9: neighbours are periodic.  For an in-range site with decoded coordinates
`(xcb, y, z, t)` and global `x = 2*xcb + ((cb+y+z+t) mod 2)` on a lattice whose x extent
holds the two checkerboard halves (`2*n_xh ≤ n_x`), the eight entries of the neighbour
table are `xh' + n_xh*(y' + n_y*(z' + n_z*t'))` with exactly one axis shifted by one
modulo its extent, the x neighbour being halved. -/
theorem C9_neighbours_periodic (op : CoarseDiracOp) (cb site : Int)
    (hx : 1 ≤ op.n_xh) (hy : 1 ≤ op.n_y) (hz : 1 ≤ op.n_z) (ht : 1 ≤ op.n_t)
    (hxx : 2 * op.n_xh ≤ op.n_x)
    (h0 : 0 ≤ site) (h1 : site < op.n_xh * op.n_y * op.n_z * op.n_t) :
    let c := decodeSite op.n_xh op.n_y op.n_z site
    let x := globalX cb c
    neighSites op cb site 0 =
      ((x + 1) % op.n_x) / 2 + op.n_xh * (c.y + op.n_y * (c.z + op.n_z * c.t)) ∧
    neighSites op cb site 1 =
      ((x - 1) % op.n_x) / 2 + op.n_xh * (c.y + op.n_y * (c.z + op.n_z * c.t)) ∧
    neighSites op cb site 2 =
      c.xcb + op.n_xh * ((c.y + 1) % op.n_y + op.n_y * (c.z + op.n_z * c.t)) ∧
    neighSites op cb site 3 =
      c.xcb + op.n_xh * ((c.y - 1) % op.n_y + op.n_y * (c.z + op.n_z * c.t)) ∧
    neighSites op cb site 4 =
      c.xcb + op.n_xh * (c.y + op.n_y * ((c.z + 1) % op.n_z + op.n_z * c.t)) ∧
    neighSites op cb site 5 =
      c.xcb + op.n_xh * (c.y + op.n_y * ((c.z - 1) % op.n_z + op.n_z * c.t)) ∧
    neighSites op cb site 6 =
      c.xcb + op.n_xh * (c.y + op.n_y * (c.z + op.n_z * ((c.t + 1) % op.n_t))) ∧
    neighSites op cb site 7 =
      c.xcb + op.n_xh * (c.y + op.n_y * (c.z + op.n_z * ((c.t - 1) % op.n_t))) := by
  intro c x
  obtain ⟨cx0, cx1, cy0, cy1, cz0, cz1, ct0, ct1⟩ :=
    decodeSite_bounds op.n_xh op.n_y op.n_z op.n_t site hx hy hz ht h0 h1
  obtain ⟨gx0, gx1⟩ := globalX_bounds cb c op.n_xh cx0 cx1
  have hxp := wrap_plus x op.n_x gx0 (by omega)
  have hxm := wrap_minus x op.n_x gx0 (by omega)
  have hxp0 : 0 ≤ (x + 1) % op.n_x := Int.emod_nonneg _ (by omega)
  have hxm0 : 0 ≤ (x - 1) % op.n_x := Int.emod_nonneg _ (by omega)
  refine ⟨?_, ?_, ?_, ?_, ?_, ?_, ?_, ?_⟩
  · show Int.tdiv (if x < op.n_x - 1 then x + 1 else 0) 2 + _ = _
    rw [hxp, tdiv_nonneg_eq _ 2 hxp0 (by decide)]
  · show Int.tdiv (if x > 0 then x - 1 else op.n_x - 1) 2 + _ = _
    rw [hxm, tdiv_nonneg_eq _ 2 hxm0 (by decide)]
  · show c.xcb + op.n_xh * ((if c.y < op.n_y - 1 then c.y + 1 else 0) + _) = _
    rw [wrap_plus c.y op.n_y cy0 cy1]
  · show c.xcb + op.n_xh * ((if c.y > 0 then c.y - 1 else op.n_y - 1) + _) = _
    rw [wrap_minus c.y op.n_y cy0 cy1]
  · show c.xcb + op.n_xh * (c.y + op.n_y * ((if c.z < op.n_z - 1 then c.z + 1 else 0) + _)) = _
    rw [wrap_plus c.z op.n_z cz0 cz1]
  · show c.xcb + op.n_xh * (c.y + op.n_y * ((if c.z > 0 then c.z - 1 else op.n_z - 1) + _)) = _
    rw [wrap_minus c.z op.n_z cz0 cz1]
  · show c.xcb + op.n_xh * (c.y + op.n_y * (c.z + op.n_z *
      (if c.t < op.n_t - 1 then c.t + 1 else 0))) = _
    rw [wrap_plus c.t op.n_t ct0 ct1]
  · show c.xcb + op.n_xh * (c.y + op.n_y * (c.z + op.n_z *
      (if c.t > 0 then c.t - 1 else op.n_t - 1))) = _
    rw [wrap_minus c.t op.n_t ct0 ct1]

/-- Witness of C9: the last site (15, coordinates (1,1,1,1), global x = 3) of
checkerboard 0 of a 4 x 2 x 2 x 2 lattice; every forward neighbour wraps to coordinate 0. -/
theorem C9_neighbours_periodic_witness :
    (neighSites op4222 0 15 0 = 14 ∧ neighSites op4222 0 15 2 = 13 ∧
     neighSites op4222 0 15 4 = 11 ∧ neighSites op4222 0 15 6 = 7) ∧
    (let c := decodeSite op4222.n_xh op4222.n_y op4222.n_z 15
    let x := globalX 0 c
    neighSites op4222 0 15 0 =
      ((x + 1) % op4222.n_x) / 2 +
        op4222.n_xh * (c.y + op4222.n_y * (c.z + op4222.n_z * c.t)) ∧
    neighSites op4222 0 15 1 =
      ((x - 1) % op4222.n_x) / 2 +
        op4222.n_xh * (c.y + op4222.n_y * (c.z + op4222.n_z * c.t)) ∧
    neighSites op4222 0 15 2 =
      c.xcb + op4222.n_xh * ((c.y + 1) % op4222.n_y + op4222.n_y * (c.z + op4222.n_z * c.t)) ∧
    neighSites op4222 0 15 3 =
      c.xcb + op4222.n_xh * ((c.y - 1) % op4222.n_y + op4222.n_y * (c.z + op4222.n_z * c.t)) ∧
    neighSites op4222 0 15 4 =
      c.xcb + op4222.n_xh * (c.y + op4222.n_y * ((c.z + 1) % op4222.n_z + op4222.n_z * c.t)) ∧
    neighSites op4222 0 15 5 =
      c.xcb + op4222.n_xh * (c.y + op4222.n_y * ((c.z - 1) % op4222.n_z + op4222.n_z * c.t)) ∧
    neighSites op4222 0 15 6 =
      c.xcb + op4222.n_xh * (c.y + op4222.n_y * (c.z + op4222.n_z * ((c.t + 1) % op4222.n_t))) ∧
    neighSites op4222 0 15 7 =
      c.xcb + op4222.n_xh *
        (c.y + op4222.n_y * (c.z + op4222.n_z * ((c.t - 1) % op4222.n_t)))) :=
  ⟨by decide,
   C9_neighbours_periodic op4222 0 15 (by decide) (by decide) (by decide) (by decide)
    (by decide) (by decide) (by decide)⟩

/-! ## Thread partition -/

theorem MinInt_lt_iff (a b c : Int) : c < MinInt a b ↔ c < a ∧ c < b := by
  unfold MinInt
  split_ifs <;> omega

theorem sitesPerCore_spec (n k : Int) (hn : 0 ≤ n) (hk : 1 ≤ k) :
    n ≤ k * sitesPerCore n k ∧ 0 ≤ sitesPerCore n k ∧ (1 ≤ n → 1 ≤ sitesPerCore n k) ∧
    k * (sitesPerCore n k - 1) < n := by
  have hq : 0 ≤ n / k := Int.ediv_nonneg hn (by omega)
  have hm := Int.emod_add_ediv n k
  have hm0 : 0 ≤ n % k := Int.emod_nonneg _ (by omega)
  have hm1 : n % k < k := Int.emod_lt_of_pos _ (by omega)
  unfold sitesPerCore
  simp only [tdiv_nonneg_eq n k hn (by omega), tmod_nonneg_eq n k hn (by omega)]
  split_ifs with h
  · refine ⟨by linarith, by omega, fun _ => by omega, by linarith [lt_of_le_of_ne hm0 (Ne.symm h)]⟩
  · have h2 : n % k = 0 := by simpa using h
    refine ⟨by linarith, by omega, fun h1 => ?_, by linarith⟩
    by_contra hc
    have h3 : n / k = 0 := by omega
    rw [h3] at hm
    omega

theorem nCores_pos (n_threads n_smt : Int) (hs : 1 ≤ n_smt) (hN : n_smt ≤ n_threads) :
    1 ≤ Int.tdiv n_threads n_smt ∧ Int.tdiv n_threads n_smt * n_smt ≤ n_threads := by
  rw [tdiv_nonneg_eq n_threads n_smt (by omega) (by omega)]
  exact ⟨Int.le_ediv_of_mul_le (by omega) (by omega), Int.ediv_mul_le _ (by omega)⟩

theorem threadLimits_some (cfg : MGConfig) (n_threads n_smt n_vrows n_sites_cb tid : Int)
    (hs : n_smt ≠ 0) (hc : Int.tdiv n_threads n_smt ≠ 0) :
    ∃ l, threadLimits cfg n_threads n_smt n_vrows n_sites_cb tid = some l ∧
      l.min_site = coreId n_smt tid * sitesPerCore n_sites_cb (Int.tdiv n_threads n_smt) ∧
      l.max_site = MinInt ((coreId n_smt tid + 1) *
        sitesPerCore n_sites_cb (Int.tdiv n_threads n_smt)) n_sites_cb := by
  unfold threadLimits
  rw [if_neg hs]
  simp only [if_neg hc]
  exact ⟨_, rfl, rfl, rfl⟩

theorem threadLimits_none (cfg : MGConfig) (n_threads n_smt n_vrows n_sites_cb tid : Int)
    (h : n_smt = 0 ∨ Int.tdiv n_threads n_smt = 0) :
    threadLimits cfg n_threads n_smt n_vrows n_sites_cb tid = none := by
  unfold threadLimits
  by_cases hs : n_smt = 0
  · rw [if_pos hs]
  · rw [if_neg hs]
    have hc : Int.tdiv n_threads n_smt = 0 := by tauto
    simp only [if_pos hc]

theorem threadLimits_site_eq (cfg : MGConfig) (n_threads n_smt n_vrows n_sites_cb tid : Int)
    (l : ThreadLimits) (h : threadLimits cfg n_threads n_smt n_vrows n_sites_cb tid = some l) :
    l.min_site = coreId n_smt tid * sitesPerCore n_sites_cb (Int.tdiv n_threads n_smt) ∧
    l.max_site = MinInt ((coreId n_smt tid + 1) *
        sitesPerCore n_sites_cb (Int.tdiv n_threads n_smt)) n_sites_cb := by
  by_cases hs : n_smt = 0
  · rw [threadLimits_none cfg _ _ _ _ _ (Or.inl hs)] at h
    cases h
  · by_cases hc : Int.tdiv n_threads n_smt = 0
    · rw [threadLimits_none cfg _ _ _ _ _ (Or.inr hc)] at h
      cases h
    · obtain ⟨l', e, a, b⟩ := threadLimits_some cfg n_threads n_smt n_vrows n_sites_cb tid hs hc
      rw [h] at e
      cases e
      exact ⟨a, b⟩

theorem core_unique (c1 c2 spc site : Int)
    (a1 : c1 * spc ≤ site) (b1 : site < (c1 + 1) * spc)
    (a2 : c2 * spc ≤ site) (b2 : site < (c2 + 1) * spc) : c1 = c2 := by
  have hspc : 0 < spc := by nlinarith
  by_contra hne
  rcases lt_or_gt_of_ne hne with h | h
  · have : (c1 + 1) * spc ≤ c2 * spc := by nlinarith
    omega
  · have : (c2 + 1) * spc ≤ c1 * spc := by nlinarith
    omega

/-- C2 (as stated) fails: with 2 threads and SMT factor 2 both threads receive the site
range `[0, 4)` of a 4-site checkerboard, so site 0 lies in the range of two threads;
and with 1 thread and SMT factor 2 the constructor divides by `n_cores = 0`. -/
theorem C2_exactly_one_thread_counterexample :
    ¬ (∀ site : Int, 0 ≤ site → site < 4 →
        ∃! tid : Int, (0 ≤ tid ∧ tid < 2) ∧
          ∃ l, threadLimits cfg8x64 2 2 6 4 tid = some l ∧ l.ownsSite site) ∧
    threadLimits cfg8x64 1 2 6 4 0 = none := by
  refine ⟨fun h => ?_, by decide⟩
  obtain ⟨t, _, huniq⟩ := h 0 (by decide) (by decide)
  have e0 : (0 : Int) = t :=
    huniq 0 ⟨⟨by decide, by decide⟩, ⟨0, 4, 0, 4⟩, by decide, by decide⟩
  have e1 : (1 : Int) = t :=
    huniq 1 ⟨⟨by decide, by decide⟩, ⟨4, 6, 0, 4⟩, by decide, by decide⟩
  omega

/-- C2 (amended): for `1 ≤ n_smt ≤ N` every site of `[0, num_cb_sites)` lies in the site
range of some thread `0..N-1` (no gaps), all threads whose range holds the site have the
same `core_id` (ranges of different cores do not overlap), and with `n_smt = 1` the site
lies in the range of exactly one thread. -/
theorem C2_site_ranges_cover (cfg : MGConfig) (n_threads n_smt n_vrows n_sites_cb site : Int)
    (hs : 1 ≤ n_smt) (hN : n_smt ≤ n_threads) (h0 : 0 ≤ site) (h1 : site < n_sites_cb) :
    (∃ tid l, (0 ≤ tid ∧ tid < n_threads) ∧
      threadLimits cfg n_threads n_smt n_vrows n_sites_cb tid = some l ∧ l.ownsSite site) ∧
    (∀ t1 t2 l1 l2,
      threadLimits cfg n_threads n_smt n_vrows n_sites_cb t1 = some l1 →
      threadLimits cfg n_threads n_smt n_vrows n_sites_cb t2 = some l2 →
      l1.ownsSite site → l2.ownsSite site → coreId n_smt t1 = coreId n_smt t2) ∧
    (n_smt = 1 → ∃! tid : Int, (0 ≤ tid ∧ tid < n_threads) ∧
      ∃ l, threadLimits cfg n_threads n_smt n_vrows n_sites_cb tid = some l ∧
        l.ownsSite site) := by
  obtain ⟨hk, hkN⟩ := nCores_pos n_threads n_smt hs hN
  obtain ⟨hcov, _, hpos, _⟩ :=
    sitesPerCore_spec n_sites_cb (Int.tdiv n_threads n_smt) (by omega) hk
  have hspc := hpos (by omega)
  have hsame : ∀ t1 t2 l1 l2,
      threadLimits cfg n_threads n_smt n_vrows n_sites_cb t1 = some l1 →
      threadLimits cfg n_threads n_smt n_vrows n_sites_cb t2 = some l2 →
      l1.ownsSite site → l2.ownsSite site → coreId n_smt t1 = coreId n_smt t2 := by
    intro t1 t2 l1 l2 e1 e2 o1 o2
    obtain ⟨a1, b1⟩ := threadLimits_site_eq cfg _ _ _ _ _ _ e1
    obtain ⟨a2, b2⟩ := threadLimits_site_eq cfg _ _ _ _ _ _ e2
    unfold ThreadLimits.ownsSite at o1 o2
    rw [a1, b1, MinInt_lt_iff] at o1
    rw [a2, b2, MinInt_lt_iff] at o2
    exact core_unique _ _ _ site o1.1 o1.2.1 o2.1 o2.2.1
  have hex : ∃ tid l, (0 ≤ tid ∧ tid < n_threads) ∧
      threadLimits cfg n_threads n_smt n_vrows n_sites_cb tid = some l ∧ l.ownsSite site := by
    set spc := sitesPerCore n_sites_cb (Int.tdiv n_threads n_smt) with hspcdef
    have hc0 : 0 ≤ site / spc := Int.ediv_nonneg h0 (by omega)
    have hc1 : site / spc < Int.tdiv n_threads n_smt :=
      ediv_lt_of_lt_mul_pos _ _ _ (by omega) (by nlinarith)
    have hlo : site / spc * spc ≤ site := Int.ediv_mul_le _ (by omega)
    have hhi : site < (site / spc + 1) * spc := Int.lt_ediv_add_one_mul_self _ (by omega)
    obtain ⟨l, e, a, b⟩ := threadLimits_some cfg n_threads n_smt n_vrows n_sites_cb
      (site / spc * n_smt) (by omega) (by omega)
    have hcore : coreId n_smt (site / spc * n_smt) = site / spc := by
      unfold coreId
      rw [tdiv_nonneg_eq _ _ (by positivity) (by omega)]
      exact Int.mul_ediv_cancel _ (by omega)
    refine ⟨site / spc * n_smt, l, ⟨by positivity, by nlinarith⟩, e, ?_⟩
    unfold ThreadLimits.ownsSite
    rw [a, b, MinInt_lt_iff, hcore]
    exact ⟨hlo, hhi, h1⟩
  refine ⟨hex, hsame, fun hone => ?_⟩
  obtain ⟨tid, l, hr, e, o⟩ := hex
  refine ⟨tid, ⟨hr, l, e, o⟩, ?_⟩
  rintro t ⟨_, l', e', o'⟩
  have := hsame t tid l' l e' e o' o
  subst hone
  simpa [coreId] using this

/-- Witness of C2 (amended): 4 threads, SMT factor 2, 16 sites, site 9. -/
theorem C2_site_ranges_cover_witness :
    (∃ tid l, (0 ≤ tid ∧ tid < (4 : Int)) ∧
      threadLimits cfg8x64 4 2 6 16 tid = some l ∧ l.ownsSite 9) ∧
    (∀ t1 t2 l1 l2,
      threadLimits cfg8x64 4 2 6 16 t1 = some l1 →
      threadLimits cfg8x64 4 2 6 16 t2 = some l2 →
      l1.ownsSite 9 → l2.ownsSite 9 → coreId 2 t1 = coreId 2 t2) ∧
    ((2 : Int) = 1 → ∃! tid : Int, (0 ≤ tid ∧ tid < 4) ∧
      ∃ l, threadLimits cfg8x64 4 2 6 16 tid = some l ∧ l.ownsSite 9) :=
  C2_site_ranges_cover cfg8x64 4 2 6 16 9 (by decide) (by decide) (by decide) (by decide)

/-- C10: for `n_smt ≥ 1` a thread id `tid ≥ 0` decomposes as
`tid = smt_id + n_smt*core_id` with `core_id = tid div n_smt`, `smt_id = tid mod n_smt`,
`0 ≤ smt_id < n_smt`; any thread with the same `core_id` gets the identical `min_site`
and the identical `max_site`; and the limits exist whenever `n_smt ≤ n_threads`. -/
theorem C10_smt_siblings_share_site_range (cfg : MGConfig)
    (n_threads n_smt n_vrows n_sites_cb tid : Int) (hs : 1 ≤ n_smt) (ht : 0 ≤ tid) :
    tid = smtId n_smt tid + n_smt * coreId n_smt tid ∧
    coreId n_smt tid = tid / n_smt ∧
    smtId n_smt tid = tid % n_smt ∧
    (0 ≤ smtId n_smt tid ∧ smtId n_smt tid < n_smt) ∧
    (∀ tid2 : Int, coreId n_smt tid2 = coreId n_smt tid →
      (threadLimits cfg n_threads n_smt n_vrows n_sites_cb tid2).map ThreadLimits.min_site =
        (threadLimits cfg n_threads n_smt n_vrows n_sites_cb tid).map ThreadLimits.min_site ∧
      (threadLimits cfg n_threads n_smt n_vrows n_sites_cb tid2).map ThreadLimits.max_site =
        (threadLimits cfg n_threads n_smt n_vrows n_sites_cb tid).map ThreadLimits.max_site) ∧
    (n_smt ≤ n_threads →
      (threadLimits cfg n_threads n_smt n_vrows n_sites_cb tid).isSome = true) := by
  have hcore : coreId n_smt tid = tid / n_smt := tdiv_nonneg_eq tid n_smt ht (by omega)
  have hsmt : smtId n_smt tid = tid % n_smt := by
    unfold smtId
    rw [hcore, sub_mul_ediv_eq_emod]
  refine ⟨by unfold smtId; ring, hcore, hsmt, ?_, ?_, ?_⟩
  · rw [hsmt]
    exact ⟨Int.emod_nonneg _ (by omega), Int.emod_lt_of_pos _ (by omega)⟩
  · intro tid2 hsame
    by_cases hc : Int.tdiv n_threads n_smt = 0
    · rw [threadLimits_none cfg _ _ _ _ tid2 (Or.inr hc),
        threadLimits_none cfg _ _ _ _ tid (Or.inr hc)]
      exact ⟨rfl, rfl⟩
    · obtain ⟨l, e, a, b⟩ := threadLimits_some cfg n_threads n_smt n_vrows n_sites_cb tid
        (by omega) hc
      obtain ⟨l2, e2, a2, b2⟩ := threadLimits_some cfg n_threads n_smt n_vrows n_sites_cb tid2
        (by omega) hc
      rw [e, e2]
      simp only [Option.map_some', Option.some.injEq]
      rw [a, b, a2, b2, hsame]
      exact ⟨rfl, rfl⟩
  · intro hN
    obtain ⟨hk, _⟩ := nCores_pos n_threads n_smt hs hN
    obtain ⟨l, e, _⟩ := threadLimits_some cfg n_threads n_smt n_vrows n_sites_cb tid
      (by omega) (by omega)
    rw [e]
    rfl

/-- Witness of C10: threads 2 and 3 of a 4-thread team with SMT factor 2 both get the
site range `[8, 16)` of a 16-site checkerboard. -/
theorem C10_smt_siblings_share_site_range_witness :
    (threadLimits cfg8x64 4 2 6 16 2).map ThreadLimits.min_site = some 8 ∧
    (threadLimits cfg8x64 4 2 6 16 2).map ThreadLimits.max_site = some 16 ∧
    ((3 : Int) = smtId 2 3 + 2 * coreId 2 3 ∧
    coreId 2 3 = 3 / 2 ∧
    smtId 2 3 = 3 % 2 ∧
    (0 ≤ smtId 2 3 ∧ smtId 2 3 < 2) ∧
    (∀ tid2 : Int, coreId 2 tid2 = coreId 2 3 →
      (threadLimits cfg8x64 4 2 6 16 tid2).map ThreadLimits.min_site =
        (threadLimits cfg8x64 4 2 6 16 3).map ThreadLimits.min_site ∧
      (threadLimits cfg8x64 4 2 6 16 tid2).map ThreadLimits.max_site =
        (threadLimits cfg8x64 4 2 6 16 3).map ThreadLimits.max_site) ∧
    ((2 : Int) ≤ 4 → (threadLimits cfg8x64 4 2 6 16 3).isSome = true)) :=
  ⟨by decide, by decide,
   C10_smt_siblings_share_site_range cfg8x64 4 2 6 16 3 (by decide) (by decide)⟩

/-! ## Buffers and loops -/

theorem forLoop_zero {σ : Type} (N : Int) (body : Int → σ → σ) (s : σ) :
    forLoop 0 N body s = loopN 0 body N.toNat s := by
  simp [forLoop]

/-- A row loop that rewrites the complex entry `row` at offset `y` from its old value. -/
theorem loopN_rows {R : Type} (F G : Int → R → R) (y : Int) (mem : Buf R) (n : Nat) :
    ∀ j : Int, loopN 0 (fun row m =>
      (m.store (y + (0 + 2 * row)) (F row (m (y + (0 + 2 * row))))).store
        (y + (1 + 2 * row)) (G row (m (y + (1 + 2 * row))))) n mem j =
    if 0 ≤ j - y ∧ j - y < 2 * (n : Int) then
      (if (j - y) % 2 = 0 then F ((j - y) / 2) (mem j) else G ((j - y) / 2) (mem j))
    else mem j := by
  induction n with
  | zero =>
    intro j
    have : ¬ (0 ≤ j - y ∧ j - y < 2 * ((0 : Nat) : Int)) := by omega
    simp only [loopN, if_neg this]
  | succ n ih =>
    intro j
    simp only [loopN, Buf.store, ih]
    have hA : ¬ (0 ≤ y + (1 + 2 * (0 + (n : Int))) - y ∧
        y + (1 + 2 * (0 + (n : Int))) - y < 2 * (n : Int)) := by omega
    have hB : ¬ (0 ≤ y + (0 + 2 * (0 + (n : Int))) - y ∧
        y + (0 + 2 * (0 + (n : Int))) - y < 2 * (n : Int)) := by omega
    rw [if_neg hA, if_neg hB]
    by_cases h1 : j = y + (1 + 2 * (0 + (n : Int)))
    · have hr : 0 ≤ j - y ∧ j - y < 2 * ((n + 1 : Nat) : Int) := by push_cast; omega
      have hodd : ¬ ((j - y) % 2 = 0) := by omega
      have hdiv : (j - y) / 2 = 0 + (n : Int) := by omega
      rw [if_pos h1, if_pos hr, if_neg hodd, hdiv, h1]
    · rw [if_neg h1]
      by_cases h2 : j = y + (0 + 2 * (0 + (n : Int)))
      · have hr : 0 ≤ j - y ∧ j - y < 2 * ((n + 1 : Nat) : Int) := by push_cast; omega
        have hev : (j - y) % 2 = 0 := by omega
        have hdiv : (j - y) / 2 = 0 + (n : Int) := by omega
        rw [if_pos h2, if_pos hr, if_pos hev, hdiv, h2]
      · rw [if_neg h2]
        by_cases h3 : 0 ≤ j - y ∧ j - y < 2 * (n : Int)
        · have hr : 0 ≤ j - y ∧ j - y < 2 * ((n + 1 : Nat) : Int) := by push_cast; omega
          rw [if_pos h3, if_pos hr]
        · have hr : ¬ (0 ≤ j - y ∧ j - y < 2 * ((n + 1 : Nat) : Int)) := by push_cast; omega
          rw [if_neg h3, if_neg hr]

/-- Membership of buffer index `j` in the `2*N` floats starting at offset `y`. -/
theorem range_toNat_iff (j y N : Int) :
    (0 ≤ j - y ∧ j - y < 2 * (N.toNat : Int)) ↔ (y ≤ j ∧ j < y + 2 * N) := by
  omega

theorem CMatMultNaive_apply {R : Type} [CommRing R] (mem : Buf R) (y : Int) (A x : Buf R) (N j : Int) :
    CMatMultNaive mem y A x N j =
    if y ≤ j ∧ j < y + 2 * N then rowDotAt A x N (j - y) else mem j := by
  unfold CMatMultNaive rowDotAt
  rw [forLoop_zero]
  simp only [RE, IM, n_complex]
  rw [loopN_rows (fun row _ => rowDotRe A x N row) (fun row _ => rowDotIm A x N row)]
  simp only [range_toNat_iff]

theorem CMatMultNaiveAdd_apply {R : Type} [CommRing R] (mem : Buf R) (y : Int) (A x : Buf R) (N j : Int) :
    CMatMultNaiveAdd mem y A x N j =
    if y ≤ j ∧ j < y + 2 * N then mem j + rowDotAt A x N (j - y) else mem j := by
  unfold CMatMultNaiveAdd rowDotAt
  rw [forLoop_zero]
  simp only [RE, IM, n_complex]
  rw [loopN_rows (fun row v => v + rowDotRe A x N row) (fun row v => v + rowDotIm A x N row)]
  simp only [range_toNat_iff]
  split_ifs <;> rfl

/-- The zero-initialisation loop `for (i = 0; i < n; ++i) output[i] = 0`. -/
theorem loopN_zero_fill {R : Type} [CommRing R] (y : Int) (mem : Buf R) (n : Nat) :
    ∀ j : Int, loopN 0 (fun i m => Buf.store m (y + i) (0 : R)) n mem j =
      if 0 ≤ j - y ∧ j - y < (n : Int) then 0 else mem j := by
  induction n with
  | zero =>
    intro j
    have : ¬ (0 ≤ j - y ∧ j - y < ((0 : Nat) : Int)) := by omega
    simp only [loopN, if_neg this]
  | succ n ih =>
    intro j
    simp only [loopN, Buf.store, ih]
    by_cases h1 : j = y + (0 + (n : Int))
    · have hr : 0 ≤ j - y ∧ j - y < ((n + 1 : Nat) : Int) := by push_cast; omega
      rw [if_pos h1, if_pos hr]
    · rw [if_neg h1]
      by_cases h3 : 0 ≤ j - y ∧ j - y < (n : Int)
      · have hr : 0 ≤ j - y ∧ j - y < ((n + 1 : Nat) : Int) := by push_cast; omega
        rw [if_pos h3, if_pos hr]
      · have hr : ¬ (0 ≤ j - y ∧ j - y < ((n + 1 : Nat) : Int)) := by push_cast; omega
        rw [if_neg h3, if_neg hr]

/-- A loop whose body adds `h mu j` to every entry `j` of a fixed index set. -/
theorem loopN_accumulate {R : Type} [CommRing R] (P : Int → Prop) [DecidablePred P] (h : Int → Int → R)
    (body : Int → Buf R → Buf R)
    (hbody : ∀ mu m j, body mu m j = if P j then m j + h mu j else m j)
    (mem : Buf R) (n : Nat) :
    ∀ j : Int, loopN 0 body n mem j =
      if P j then mem j + sumN (fun mu => h mu j) n else mem j := by
  induction n with
  | zero =>
    intro j
    simp [loopN, sumN]
  | succ n ih =>
    intro j
    simp only [loopN, hbody, ih, sumN, zero_add]
    split_ifs
    · ring
    · rfl

/-! ## Site kernels -/

theorem sumN_congr {R : Type} [CommRing R] (f g : Int → R) (k : Nat)
    (h : ∀ i : Nat, i < k → f (i : Int) = g (i : Int)) : sumN f k = sumN g k := by
  induction k with
  | zero => rfl
  | succ k ih =>
    simp only [sumN]
    rw [ih (fun i hi => h i (by omega)), h k (by omega)]

/-- Entry `mu` of the array `gauge_links` the method builds (lines 132-140) is direction
block `mu` of the gauge field at the site, for each of the eight stencil directions. -/
theorem gaugeLinks_eq {R : Type} (g : CoarseGauge R) (cb site mu : Int)
    (h0 : 0 ≤ mu) (h1 : mu < 8) :
    gaugeLinks g cb site mu = g.GetSiteDirDataPtr cb site mu := by
  interval_cases mu
  · funext i
    show g.data cb (site * (9 * g.GetLinkOffset) + i) =
      g.data cb (site * (9 * g.GetLinkOffset) + 0 * g.GetLinkOffset + i)
    congr 1
    ring
  · funext i
    show g.data cb (site * (9 * g.GetLinkOffset) + (g.GetLinkOffset + i)) =
      g.data cb (site * (9 * g.GetLinkOffset) + 1 * g.GetLinkOffset + i)
    congr 1
    ring
  · funext i
    show g.data cb (site * (9 * g.GetLinkOffset) + (2 * g.GetLinkOffset + i)) =
      g.data cb (site * (9 * g.GetLinkOffset) + 2 * g.GetLinkOffset + i)
    congr 1
    ring
  · funext i
    show g.data cb (site * (9 * g.GetLinkOffset) + (3 * g.GetLinkOffset + i)) =
      g.data cb (site * (9 * g.GetLinkOffset) + 3 * g.GetLinkOffset + i)
    congr 1
    ring
  · funext i
    show g.data cb (site * (9 * g.GetLinkOffset) + (4 * g.GetLinkOffset + i)) =
      g.data cb (site * (9 * g.GetLinkOffset) + 4 * g.GetLinkOffset + i)
    congr 1
    ring
  · funext i
    show g.data cb (site * (9 * g.GetLinkOffset) + (5 * g.GetLinkOffset + i)) =
      g.data cb (site * (9 * g.GetLinkOffset) + 5 * g.GetLinkOffset + i)
    congr 1
    ring
  · funext i
    show g.data cb (site * (9 * g.GetLinkOffset) + (6 * g.GetLinkOffset + i)) =
      g.data cb (site * (9 * g.GetLinkOffset) + 6 * g.GetLinkOffset + i)
    congr 1
    ring
  · funext i
    show g.data cb (site * (9 * g.GetLinkOffset) + (7 * g.GetLinkOffset + i)) =
      g.data cb (site * (9 * g.GetLinkOffset) + 7 * g.GetLinkOffset + i)
    congr 1
    ring

/-- Entry `mu` of the array `neigh_spinors` the method builds (lines 162-172) is the site
data, on the source checkerboard, of entry `mu` of the neighbour table. -/
theorem neighSpinors_eq {R : Type} (op : CoarseDiracOp) (spinor_in : CoarseSpinor R)
    (target_cb site mu : Int) :
    neighSpinors op spinor_in target_cb site mu =
      spinor_in.GetSiteDataPtr (1 - target_cb) (arr8 (neighSites op target_cb site) mu) :=
  rfl

/-- The stencil sum of the claims is the sum over the arrays `gauge_links` and
`neigh_spinors` the method hands to the site kernel. -/
theorem stencilSpec_code {R : Type} [CommRing R] (op : CoarseDiracOp)
    (gauge_in : CoarseGauge R) (spinor_in : CoarseSpinor R) (target_cb site : Int) :
    stencilSpec op gauge_in spinor_in target_cb site =
      fun k => sumN (fun mu => rowDotAt (gaugeLinks gauge_in target_cb site mu)
        (neighSpinors op spinor_in target_cb site mu) op.GetNumColorSpin k) 8 := by
  funext k
  unfold stencilSpec
  apply sumN_congr
  intro i hi
  rw [gaugeLinks_eq gauge_in target_cb site (i : Int) (by omega) (by omega), neighSpinors_eq]

theorem siteApply_apply {R : Type} [CommRing R] (op : CoarseDiracOp) (mem : Buf R)
    (o : Int) (gl : Int → Buf R) (c0 c1 sp : Buf R) (ns : Int → Buf R) (j : Int) :
    siteApply op mem o gl c0 c1 sp ns j =
    (if o + 2 * op.n_color ≤ j ∧ j < o + 2 * op.n_color + 2 * op.n_color then
        rowDotAt c1 (sp.shift (2 * op.n_color)) op.n_color (j - (o + 2 * op.n_color))
      else if o ≤ j ∧ j < o + 2 * op.n_color then rowDotAt c0 sp op.n_color (j - o)
      else mem j) +
    (if o ≤ j ∧ j < o + 2 * op.GetNumColorSpin then
        sumN (fun mu => rowDotAt (gl mu) (ns mu) op.GetNumColorSpin (j - o)) 8
      else 0) := by
  unfold siteApply
  simp only [CoarseDiracOp.GetNumColor]
  rw [forLoop_zero]
  rw [loopN_accumulate (fun j => o ≤ j ∧ j < o + 2 * op.GetNumColorSpin)
    (fun mu j => rowDotAt (gl mu) (ns mu) op.GetNumColorSpin (j - o)) _
    (fun mu m j => CMatMultNaiveAdd_apply m o (gl mu) (ns mu) op.GetNumColorSpin j)]
  simp only [CMatMultNaive_apply]
  have e : (8 : Int).toNat = 8 := rfl
  rw [e]
  split_ifs <;> simp

theorem siteApplyDslash_apply {R : Type} [CommRing R] (op : CoarseDiracOp) (mem : Buf R)
    (o : Int) (gl : Int → Buf R) (sp : Buf R) (ns : Int → Buf R) (j : Int) :
    siteApplyDslash op mem o gl sp ns j =
    if o ≤ j ∧ j < o + 2 * op.GetNumColorSpin then
      sumN (fun mu => rowDotAt (gl mu) (ns mu) op.GetNumColorSpin (j - o)) 8
    else mem j := by
  unfold siteApplyDslash
  rw [forLoop_zero 8]
  rw [loopN_accumulate (fun j => o ≤ j ∧ j < o + 2 * op.GetNumColorSpin)
    (fun mu j => rowDotAt (gl mu) (ns mu) op.GetNumColorSpin (j - o)) _
    (fun mu m j => CMatMultNaiveAdd_apply m o (gl mu) (ns mu) op.GetNumColorSpin j)]
  rw [forLoop_zero, loopN_zero_fill]
  have e : (8 : Int).toNat = 8 := rfl
  rw [e]
  have hr : (0 ≤ j - o ∧ j - o < ((op.GetNumColorSpin * n_complex).toNat : Int)) ↔
      (o ≤ j ∧ j < o + 2 * op.GetNumColorSpin) := by
    simp only [n_complex]
    omega
  simp only [hr]
  split_ifs <;> simp

/-- The value at an entry of the region of site `s` after a site loop whose body writes
only inside the region of its own site, regions of different sites being disjoint. -/
theorem loopN_sites_value {R : Type} (body : Int → Buf R → Buf R) (reg : Int → Int → Prop)
    (V : Int → Int → R)
    (frame : ∀ s m j, ¬ reg s j → body s m j = m j)
    (val : ∀ s m j, reg s j → body s m j = V s j)
    (disj : ∀ s s2 j, reg s j → reg s2 j → s = s2) (lo : Int) (m : Buf R) :
    ∀ (n : Nat) (s j : Int), lo ≤ s → s < lo + n → reg s j →
      loopN lo body n m j = V s j := by
  intro n
  induction n with
  | zero => intro s j h1 h2; simp at h2; omega
  | succ n ih =>
    intro s j h1 h2 hr
    simp only [loopN]
    by_cases hs : s = lo + (n : Int)
    · rw [← hs]
      exact val s _ j hr
    · have hne : ¬ reg (lo + (n : Int)) j := fun h => hs (disj _ _ j hr h)
      rw [frame _ _ _ hne]
      exact ih s j h1 (by push_cast at h2; omega) hr

theorem loopN_sites_frame {R : Type} (body : Int → Buf R → Buf R) (reg : Int → Int → Prop)
    (frame : ∀ s m j, ¬ reg s j → body s m j = m j) (lo : Int) (m : Buf R) :
    ∀ (n : Nat) (j : Int), (∀ s, lo ≤ s → s < lo + n → ¬ reg s j) →
      loopN lo body n m j = m j := by
  intro n
  induction n with
  | zero => intro j _; rfl
  | succ n ih =>
    intro j h
    simp only [loopN]
    rw [frame _ _ _ (h _ (by omega) (by push_cast; omega))]
    exact ih j (fun s h1 h2 => h s h1 (by push_cast; omega))

theorem siteRegion_disjoint (ncs s s2 j : Int) (h1 : siteRegion ncs s j)
    (h2 : siteRegion ncs s2 j) : s = s2 := by
  unfold siteRegion at h1 h2
  exact core_unique s s2 (2 * ncs) j h1.1 (by linarith [h1.2]) h2.1 (by linarith [h2.2])

theorem siteOffset_eq {R : Type} (spinor_out : CoarseSpinor R) (ncs site : Int)
    (hc : spinor_out.GetNumColorSpin = ncs) :
    spinor_out.siteOffset site = site * (2 * ncs) := by
  unfold CoarseSpinor.siteOffset
  rw [hc]

theorem applySite_frame {R : Type} [CommRing R] (op : CoarseDiracOp)
    (spinor_out : CoarseSpinor R) (gauge_in : CoarseGauge R) (clover_in : CoarseClover R)
    (spinor_in : CoarseSpinor R) (target_cb : Int)
    (hc : spinor_out.GetNumColorSpin = op.GetNumColorSpin) (hs : 2 ≤ op.n_spin)
    (s : Int) (m : Buf R) (j : Int) (hj : ¬ siteRegion op.GetNumColorSpin s j) :
    applySite op spinor_out gauge_in clover_in spinor_in target_cb s m j = m j := by
  unfold applySite
  rw [siteApply_apply, siteOffset_eq spinor_out _ s hc]
  unfold siteRegion at hj
  have hW : op.n_color ≤ 0 ∨ 4 * op.n_color ≤ 2 * op.GetNumColorSpin := by
    unfold CoarseDiracOp.GetNumColorSpin
    by_cases h : op.n_color ≤ 0
    · exact Or.inl h
    · exact Or.inr (by nlinarith)
  split_ifs <;> first | omega | simp

theorem applySite_value {R : Type} [CommRing R] (op : CoarseDiracOp)
    (spinor_out : CoarseSpinor R) (gauge_in : CoarseGauge R) (clover_in : CoarseClover R)
    (spinor_in : CoarseSpinor R) (target_cb : Int)
    (hc : spinor_out.GetNumColorSpin = op.GetNumColorSpin) (hs : op.n_spin = 2)
    (s : Int) (m : Buf R) (j : Int) (hj : siteRegion op.GetNumColorSpin s j) :
    applySite op spinor_out gauge_in clover_in spinor_in target_cb s m j =
      applySpec op gauge_in clover_in spinor_in target_cb s
        (j - s * (2 * op.GetNumColorSpin)) := by
  unfold applySite applySpec cloverSpec
  rw [stencilSpec_code, siteApply_apply, siteOffset_eq spinor_out _ s hc]
  unfold siteRegion at hj
  have hN : op.GetNumColorSpin = op.n_color * 2 := by
    unfold CoarseDiracOp.GetNumColorSpin
    rw [hs]
  have hh : Int.tdiv op.GetNumColorSpin 2 = op.n_color := by
    rw [hN]
    exact Int.mul_tdiv_cancel _ (by decide)
  simp only [hh]
  rw [if_pos hj]
  congr 1
  by_cases hk : j - s * (2 * op.GetNumColorSpin) < 2 * op.n_color
  · have h1 : ¬ (s * (2 * op.GetNumColorSpin) + 2 * op.n_color ≤ j ∧
        j < s * (2 * op.GetNumColorSpin) + 2 * op.n_color + 2 * op.n_color) := by omega
    have h2 : s * (2 * op.GetNumColorSpin) ≤ j ∧
        j < s * (2 * op.GetNumColorSpin) + 2 * op.n_color := by omega
    rw [if_neg h1, if_pos h2, if_pos hk]
  · have h1 : s * (2 * op.GetNumColorSpin) + 2 * op.n_color ≤ j ∧
        j < s * (2 * op.GetNumColorSpin) + 2 * op.n_color + 2 * op.n_color := by omega
    rw [if_pos h1, if_neg hk]
    congr 1
    ring

theorem Apply_data_target {R : Type} [CommRing R] (op : CoarseDiracOp)
    (spinor_out : CoarseSpinor R) (gauge_in : CoarseGauge R) (clover_in : CoarseClover R)
    (spinor_in : CoarseSpinor R) (target_cb tid : Int) :
    (Apply op spinor_out gauge_in clover_in spinor_in target_cb tid).data target_cb =
      loopN (op.thread_limits tid).min_site
        (applySite op spinor_out gauge_in clover_in spinor_in target_cb)
        ((op.thread_limits tid).max_site - (op.thread_limits tid).min_site).toNat
        (spinor_out.data target_cb) := by
  simp [Apply, forLoop]

/-- With two spins, `Apply` leaves `applySpec` at every float of every site of the
calling thread's range. -/
theorem Apply_value {R : Type} [CommRing R] (op : CoarseDiracOp)
    (spinor_out : CoarseSpinor R) (gauge_in : CoarseGauge R) (clover_in : CoarseClover R)
    (spinor_in : CoarseSpinor R) (target_cb tid site k : Int)
    (hc : spinor_out.GetNumColorSpin = op.GetNumColorSpin) (hs : op.n_spin = 2)
    (hsite : (op.thread_limits tid).ownsSite site)
    (hk0 : 0 ≤ k) (hk1 : k < 2 * op.GetNumColorSpin) :
    (Apply op spinor_out gauge_in clover_in spinor_in target_cb tid).data target_cb
        (spinor_out.siteOffset site + k) =
      applySpec op gauge_in clover_in spinor_in target_cb site k := by
  rw [Apply_data_target, siteOffset_eq spinor_out _ site hc]
  unfold ThreadLimits.ownsSite at hsite
  have hreg : siteRegion op.GetNumColorSpin site (site * (2 * op.GetNumColorSpin) + k) := by
    unfold siteRegion
    omega
  rw [loopN_sites_value _ (siteRegion op.GetNumColorSpin)
    (fun s j => applySpec op gauge_in clover_in spinor_in target_cb s
      (j - s * (2 * op.GetNumColorSpin)))
    (fun s m j h => applySite_frame op spinor_out gauge_in clover_in spinor_in target_cb
      hc (by omega) s m j h)
    (fun s m j h => applySite_value op spinor_out gauge_in clover_in spinor_in target_cb
      hc hs s m j h)
    (siteRegion_disjoint op.GetNumColorSpin) _ _ _ site _ hsite.1 (by omega) hreg]
  congr 1
  ring

/-! ## The operator: value left by `Apply` -/

/-- C1 (as stated) fails: with one colour and four spins (`N_colorspin = 4`) the clover
blocks read by `siteApply` are 1 x 1 (`N_color`), not 2 x 2 (`N_colorspin/2`).  With all
clover and input floats 1 and a zero gauge field the imaginary part of component 0 is
`Im((1+i)(1+i)) = 2`, whereas `[C0 in_lo ; C1 in_hi] + Σ U ψ` gives `2 Im((1+i)(1+i)) = 4`. -/
theorem C1_apply_value_counterexample :
    (Apply (op2 1 4) (constSpinor 1 4 0) (constGauge 1 4 0) (constClover 1 4 1)
      (constSpinor 1 4 1) 0 0).data 0 ((constSpinor 1 4 0).siteOffset 0 + 1) = 2 ∧
    applySpec (op2 1 4) (constGauge 1 4 0) (constClover 1 4 1) (constSpinor 1 4 1) 0 0 1 = 4 ∧
    ((op2 1 4).thread_limits 0).ownsSite 0 := by
  decide

/-- C1 (amended): on a lattice with two spins (`N_colorspin = 2 N_color`), for every
site of the calling thread's range and every float `k` of the site (real part of
component `k/2` for even `k`, imaginary part for odd `k`), `Apply` leaves in an output
spinor of the operator's colorspin count the value
`[C0 in_lo ; C1 in_hi] + Σ_{mu=0..7} U_mu ψ_mu` (`applySpec`), where `U_mu` is direction
block `mu` of the gauge field at the site, `GetSiteDirDataPtr(target_cb, site, mu)`, and
`ψ_mu` is the input spinor at entry `mu` of the neighbour table on the opposite
checkerboard. -/
theorem C1_apply_clover_plus_stencil {R : Type} [CommRing R] (op : CoarseDiracOp)
    (spinor_out : CoarseSpinor R) (gauge_in : CoarseGauge R) (clover_in : CoarseClover R)
    (spinor_in : CoarseSpinor R) (target_cb tid site k : Int)
    (hc : spinor_out.GetNumColorSpin = op.GetNumColorSpin) (hs : op.n_spin = 2)
    (hsite : (op.thread_limits tid).ownsSite site)
    (hk0 : 0 ≤ k) (hk1 : k < 2 * op.GetNumColorSpin) :
    (Apply op spinor_out gauge_in clover_in spinor_in target_cb tid).data target_cb
        (spinor_out.siteOffset site + k) =
      applySpec op gauge_in clover_in spinor_in target_cb site k :=
  Apply_value op spinor_out gauge_in clover_in spinor_in target_cb tid site k hc hs hsite
    hk0 hk1

/-- Witness of C1 (amended): one colour, two spins on the 4 x 1 x 1 x 1 lattice, with
gauge, clover and input fields whose floats all differ (`rampGauge`, `rampClover`,
`rampSpinor`); thread 1 owns site 1, and float 3 of that site is `97` from the clover
term plus `354824` from the eight direction blocks, each with its own neighbour. -/
theorem C1_apply_clover_plus_stencil_witness :
    cloverSpec (op4 1 2) (rampClover 1 2) (rampSpinor 1 2) 0 1 3 = 97 ∧
    sumN (fun mu => rowDotAt ((rampGauge 1 2).GetSiteDirDataPtr 0 1 mu)
      ((rampSpinor 1 2).GetSiteDataPtr (1 - 0) (arr8 (neighSites (op4 1 2) 0 1) mu))
      (op4 1 2).GetNumColorSpin 3) 8 = 354824 ∧
    (Apply (op4 1 2) (constSpinor4 1 2 7) (rampGauge 1 2) (rampClover 1 2)
      (rampSpinor 1 2) 0 1).data 0 ((constSpinor4 1 2 7).siteOffset 1 + 3) = 354921 ∧
    (Apply (op4 1 2) (constSpinor4 1 2 7) (rampGauge 1 2) (rampClover 1 2)
      (rampSpinor 1 2) 0 1).data 0 ((constSpinor4 1 2 7).siteOffset 1 + 3) =
    applySpec (op4 1 2) (rampGauge 1 2) (rampClover 1 2) (rampSpinor 1 2) 0 1 3 :=
  ⟨by decide, by decide, by decide,
   C1_apply_clover_plus_stencil (op4 1 2) (constSpinor4 1 2 7) (rampGauge 1 2)
    (rampClover 1 2) (rampSpinor 1 2) 0 1 1 3 (by decide) (by decide) (by decide)
    (by decide) (by decide)⟩

/-- C3 (as stated) fails: with one colour and four spins components 2 and 3 of the site
are not written by the clover multiplies and the stencil accumulates onto the old
content, so two different prior contents of `spinor_out` give different results. -/
theorem C3_overwrite_counterexample :
    (Apply (op2 1 4) (constSpinor 1 4 0) (constGauge 1 4 0) (constClover 1 4 1)
      (constSpinor 1 4 1) 0 0).data 0 ((constSpinor 1 4 0).siteOffset 0 + 4) ≠
    (Apply (op2 1 4) (constSpinor 1 4 7) (constGauge 1 4 0) (constClover 1 4 1)
      (constSpinor 1 4 1) 0 0).data 0 ((constSpinor 1 4 7).siteOffset 0 + 4) ∧
    ((op2 1 4).thread_limits 0).ownsSite 0 := by
  decide

/-- C3 (amended): on a lattice with two spins, for every site of the calling thread's
range the value `Apply` leaves at each of the `2 N_colorspin` floats of the site does not
depend on what `spinor_out` held before the call. -/
theorem C3_apply_overwrites {R : Type} [CommRing R] (op : CoarseDiracOp)
    (out1 out2 : CoarseSpinor R) (gauge_in : CoarseGauge R) (clover_in : CoarseClover R)
    (spinor_in : CoarseSpinor R) (target_cb tid site k : Int)
    (hc1 : out1.GetNumColorSpin = op.GetNumColorSpin)
    (hc2 : out2.GetNumColorSpin = op.GetNumColorSpin) (hs : op.n_spin = 2)
    (hsite : (op.thread_limits tid).ownsSite site)
    (hk0 : 0 ≤ k) (hk1 : k < 2 * op.GetNumColorSpin) :
    (Apply op out1 gauge_in clover_in spinor_in target_cb tid).data target_cb
        (out1.siteOffset site + k) =
    (Apply op out2 gauge_in clover_in spinor_in target_cb tid).data target_cb
        (out2.siteOffset site + k) := by
  rw [Apply_value op out1 gauge_in clover_in spinor_in target_cb tid site k hc1 hs hsite
      hk0 hk1,
    Apply_value op out2 gauge_in clover_in spinor_in target_cb tid site k hc2 hs hsite
      hk0 hk1]

/-- Witness of C3 (amended): prior contents 0 and 7 on a two-spin lattice. -/
theorem C3_apply_overwrites_witness :
    (Apply (op2 1 2) (constSpinor 1 2 0) (constGauge 1 2 2) (constClover 1 2 1)
      (constSpinor 1 2 3) 0 0).data 0 ((constSpinor 1 2 0).siteOffset 0 + 2) =
    (Apply (op2 1 2) (constSpinor 1 2 7) (constGauge 1 2 2) (constClover 1 2 1)
      (constSpinor 1 2 3) 0 0).data 0 ((constSpinor 1 2 7).siteOffset 0 + 2) :=
  C3_apply_overwrites (op2 1 2) (constSpinor 1 2 0) (constSpinor 1 2 7) (constGauge 1 2 2)
    (constClover 1 2 1) (constSpinor 1 2 3) 0 0 0 2 (by decide) (by decide) (by decide)
    (by decide) (by decide) (by decide)

/-! ## Zero input and linearity -/

theorem sumN_zero {R : Type} [CommRing R] (f : Int → R) (hf : ∀ i, f i = 0) (n : Nat) :
    sumN f n = 0 := by
  induction n with
  | zero => rfl
  | succ n ih => simp [sumN, ih, hf]

theorem sumN_lin {R : Type} [CommRing R] (a b : R) (f g h : Int → R) (n : Nat) :
    sumN (fun i => a * f i + b * g i + h i) n = a * sumN f n + b * sumN g n + sumN h n := by
  induction n with
  | zero => simp [sumN]
  | succ n ih => simp only [sumN, ih]; ring

theorem rowDotAt_zero {R : Type} [CommRing R] (A x : Buf R) (N k : Int)
    (hx : ∀ j, x j = 0) : rowDotAt A x N k = 0 := by
  unfold rowDotAt rowDotRe rowDotIm
  split_ifs <;> exact sumN_zero _ (fun i => by simp [cmulRe, cmulIm, hx]) _

theorem neighSpinors_apply {R : Type} (op : CoarseDiracOp) (spinor_in : CoarseSpinor R)
    (target_cb site mu j : Int) :
    ∃ off, neighSpinors op spinor_in target_cb site mu j =
      spinor_in.data (1 - target_cb) (spinor_in.siteOffset off + j) :=
  ⟨_, rfl⟩

theorem stencilSpec_zero {R : Type} [CommRing R] (op : CoarseDiracOp)
    (gauge_in : CoarseGauge R) (spinor_in : CoarseSpinor R) (target_cb site k : Int)
    (hz : ∀ cb j, spinor_in.data cb j = 0) :
    stencilSpec op gauge_in spinor_in target_cb site k = 0 := by
  rw [stencilSpec_code]
  refine sumN_zero _ (fun mu => rowDotAt_zero _ _ _ _ (fun j => ?_)) _
  obtain ⟨off, e⟩ := neighSpinors_apply op spinor_in target_cb site mu j
  rw [e, hz]

theorem applySpec_zero {R : Type} [CommRing R] (op : CoarseDiracOp)
    (gauge_in : CoarseGauge R) (clover_in : CoarseClover R) (spinor_in : CoarseSpinor R)
    (target_cb site k : Int) (hz : ∀ cb j, spinor_in.data cb j = 0) :
    applySpec op gauge_in clover_in spinor_in target_cb site k = 0 := by
  unfold applySpec
  rw [stencilSpec_zero op gauge_in spinor_in target_cb site k hz]
  unfold cloverSpec
  simp only []
  split_ifs
  · rw [rowDotAt_zero _ (spinor_in.GetSiteDataPtr target_cb site) _ _ (fun j => hz _ _),
      add_zero]
  · rw [rowDotAt_zero _ ((spinor_in.GetSiteDataPtr target_cb site).shift _) _ _
      (fun j => hz _ _), add_zero]

/-- C5 (as stated) fails: with one colour and four spins, a zero input spinor and a
prior output content of 7, the real part of component 2 is still 7 after `Apply`. -/
theorem C5_zero_input_counterexample :
    (∀ cb j, (constSpinor 1 4 0).data cb j = 0) ∧
    ((op2 1 4).thread_limits 0).ownsSite 0 ∧
    (Apply (op2 1 4) (constSpinor 1 4 7) (constGauge 1 4 5) (constClover 1 4 3)
      (constSpinor 1 4 0) 0 0).data 0 ((constSpinor 1 4 7).siteOffset 0 + 4) = 7 :=
  ⟨fun _ _ => rfl, by decide, by decide⟩

/-- C5 (amended): on a lattice with two spins, for every gauge field, clover field and
prior content of `spinor_out`, if `spinor_in` is zero at every float of both
checkerboards then after `Apply` every float of every site of the thread's range on the
target checkerboard is zero. -/
theorem C5_zero_input_zero_output {R : Type} [CommRing R] (op : CoarseDiracOp)
    (spinor_out : CoarseSpinor R) (gauge_in : CoarseGauge R) (clover_in : CoarseClover R)
    (spinor_in : CoarseSpinor R) (target_cb tid site k : Int)
    (hc : spinor_out.GetNumColorSpin = op.GetNumColorSpin) (hs : op.n_spin = 2)
    (hz : ∀ cb j, spinor_in.data cb j = 0)
    (hsite : (op.thread_limits tid).ownsSite site)
    (hk0 : 0 ≤ k) (hk1 : k < 2 * op.GetNumColorSpin) :
    (Apply op spinor_out gauge_in clover_in spinor_in target_cb tid).data target_cb
        (spinor_out.siteOffset site + k) = 0 := by
  rw [Apply_value op spinor_out gauge_in clover_in spinor_in target_cb tid site k hc hs
    hsite hk0 hk1]
  exact applySpec_zero op gauge_in clover_in spinor_in target_cb site k hz

/-- Witness of C5 (amended): two spins, zero input, prior output content 7. -/
theorem C5_zero_input_zero_output_witness :
    (Apply (op2 1 2) (constSpinor 1 2 7) (constGauge 1 2 5) (constClover 1 2 3)
      (constSpinor 1 2 0) 0 0).data 0 ((constSpinor 1 2 7).siteOffset 0 + 3) = 0 :=
  C5_zero_input_zero_output (op2 1 2) (constSpinor 1 2 7) (constGauge 1 2 5)
    (constClover 1 2 3) (constSpinor 1 2 0) 0 0 0 3 (by decide) (by decide)
    (fun _ _ => rfl) (by decide) (by decide) (by decide)

theorem caxpyBuf_even {R : Type} [CommRing R] (c_re c_im : R) (x y : Buf R) (col : Int) :
    caxpyBuf c_re c_im x y (RE + n_complex * col) =
      cmulRe c_re c_im (x (RE + n_complex * col)) (x (IM + n_complex * col)) +
        y (RE + n_complex * col) := by
  unfold caxpyBuf
  have h : (RE + n_complex * col) % 2 = 0 := by simp only [RE, n_complex]; omega
  have e : RE + n_complex * col + 1 = IM + n_complex * col := by
    simp only [RE, IM, n_complex]; ring
  rw [if_pos h, e]

theorem caxpyBuf_odd {R : Type} [CommRing R] (c_re c_im : R) (x y : Buf R) (col : Int) :
    caxpyBuf c_re c_im x y (IM + n_complex * col) =
      cmulIm c_re c_im (x (RE + n_complex * col)) (x (IM + n_complex * col)) +
        y (IM + n_complex * col) := by
  unfold caxpyBuf
  have h : ¬ ((IM + n_complex * col) % 2 = 0) := by simp only [IM, n_complex]; omega
  have e : IM + n_complex * col - 1 = RE + n_complex * col := by
    simp only [RE, IM, n_complex]; ring
  rw [if_neg h, e]

theorem rowDotRe_caxpy {R : Type} [CommRing R] (c_re c_im : R) (A x y : Buf R)
    (N row : Int) :
    rowDotRe A (caxpyBuf c_re c_im x y) N row =
      c_re * rowDotRe A x N row + (-c_im) * rowDotIm A x N row + rowDotRe A y N row := by
  unfold rowDotRe rowDotIm
  rw [← sumN_lin]
  congr 1
  funext col
  rw [caxpyBuf_even, caxpyBuf_odd]
  simp only [cmulRe, cmulIm]
  ring

theorem rowDotIm_caxpy {R : Type} [CommRing R] (c_re c_im : R) (A x y : Buf R)
    (N row : Int) :
    rowDotIm A (caxpyBuf c_re c_im x y) N row =
      c_re * rowDotIm A x N row + c_im * rowDotRe A x N row + rowDotIm A y N row := by
  unfold rowDotRe rowDotIm
  rw [← sumN_lin]
  congr 1
  funext col
  rw [caxpyBuf_even, caxpyBuf_odd]
  simp only [cmulRe, cmulIm]
  ring

theorem caxpyBuf_of_even {R : Type} [CommRing R] (c_re c_im : R) (f g : Buf R) (k : Int)
    (hk : k % 2 = 0) :
    caxpyBuf c_re c_im f g k = c_re * f k - c_im * f (k + 1) + g k := by
  unfold caxpyBuf cmulRe
  rw [if_pos hk]

theorem caxpyBuf_of_odd {R : Type} [CommRing R] (c_re c_im : R) (f g : Buf R) (k : Int)
    (hk : ¬ k % 2 = 0) :
    caxpyBuf c_re c_im f g k = c_re * f k + c_im * f (k - 1) + g k := by
  unfold caxpyBuf cmulIm
  rw [if_neg hk]

/-- The kernel `A x` is complex-linear in `x`, float by float. -/
theorem rowDotAt_caxpy {R : Type} [CommRing R] (c_re c_im : R) (A x y : Buf R)
    (N k : Int) :
    rowDotAt A (caxpyBuf c_re c_im x y) N k =
      caxpyBuf c_re c_im (rowDotAt A x N) (rowDotAt A y N) k := by
  by_cases hk : k % 2 = 0
  · have h1 : ¬ ((k + 1) % 2 = 0) := by omega
    have h2 : (k + 1) / 2 = k / 2 := by omega
    rw [caxpyBuf_of_even _ _ _ _ _ hk]
    simp only [rowDotAt, if_pos hk, if_neg h1, h2, rowDotRe_caxpy]
    ring
  · have h1 : (k - 1) % 2 = 0 := by omega
    have h2 : (k - 1) / 2 = k / 2 := by omega
    rw [caxpyBuf_of_odd _ _ _ _ _ hk]
    simp only [rowDotAt, if_neg hk, if_pos h1, h2, rowDotIm_caxpy]

theorem caxpyBuf_shift_even {R : Type} [CommRing R] (c_re c_im : R) (x y : Buf R)
    (e : Int) (he : e % 2 = 0) :
    (caxpyBuf c_re c_im x y).shift e = caxpyBuf c_re c_im (x.shift e) (y.shift e) := by
  funext j
  unfold Buf.shift caxpyBuf
  have h : (e + j) % 2 = j % 2 := by omega
  have e1 : e + j + 1 = e + (j + 1) := by ring
  have e2 : e + j - 1 = e + (j - 1) := by ring
  simp only [h, e1, e2]

theorem caxpy_GetSiteDataPtr {R : Type} [CommRing R] (c_re c_im : R)
    (a b : CoarseSpinor R) (hab : a.info = b.info) (cb site : Int) :
    (CoarseSpinor.caxpy c_re c_im a b).GetSiteDataPtr cb site =
      caxpyBuf c_re c_im (a.GetSiteDataPtr cb site) (b.GetSiteDataPtr cb site) := by
  unfold CoarseSpinor.GetSiteDataPtr
  have h1 : (CoarseSpinor.caxpy c_re c_im a b).siteOffset site = a.siteOffset site := rfl
  have h2 : b.siteOffset site = a.siteOffset site := by
    unfold CoarseSpinor.siteOffset CoarseSpinor.GetNumColorSpin
    rw [hab]
  have h3 : (a.siteOffset site) % 2 = 0 := by
    unfold CoarseSpinor.siteOffset
    simp only [n_complex]
    rw [← mul_assoc, mul_comm site 2, mul_assoc]
    exact Int.mul_emod_right _ _
  rw [h1, h2]
  exact caxpyBuf_shift_even c_re c_im _ _ _ h3

theorem caxpy_neighSpinors {R : Type} [CommRing R] (c_re c_im : R)
    (op : CoarseDiracOp) (a b : CoarseSpinor R) (hab : a.info = b.info)
    (target_cb site mu : Int) :
    neighSpinors op (CoarseSpinor.caxpy c_re c_im a b) target_cb site mu =
      caxpyBuf c_re c_im (neighSpinors op a target_cb site mu)
        (neighSpinors op b target_cb site mu) := by
  unfold neighSpinors arr8
  exact caxpy_GetSiteDataPtr c_re c_im a b hab _ _

theorem caxpyBuf_sumN {R : Type} [CommRing R] (c_re c_im : R) (f g : Int → Buf R)
    (n : Nat) (k : Int) :
    sumN (fun mu => caxpyBuf c_re c_im (f mu) (g mu) k) n =
      caxpyBuf c_re c_im (fun k => sumN (fun mu => f mu k) n)
        (fun k => sumN (fun mu => g mu k) n) k := by
  by_cases hk : k % 2 = 0
  · rw [caxpyBuf_of_even _ _ _ _ _ hk]
    have e : (fun mu => caxpyBuf c_re c_im (f mu) (g mu) k) =
        (fun mu => c_re * f mu k + (-c_im) * f mu (k + 1) + g mu k) := by
      funext mu
      rw [caxpyBuf_of_even _ _ _ _ _ hk]
      ring
    rw [e, sumN_lin]
    ring
  · rw [caxpyBuf_of_odd _ _ _ _ _ hk]
    have e : (fun mu => caxpyBuf c_re c_im (f mu) (g mu) k) =
        (fun mu => c_re * f mu k + c_im * f mu (k - 1) + g mu k) := by
      funext mu
      rw [caxpyBuf_of_odd _ _ _ _ _ hk]
    rw [e, sumN_lin]

theorem stencilSpec_caxpy {R : Type} [CommRing R] (c_re c_im : R) (op : CoarseDiracOp)
    (gauge_in : CoarseGauge R) (a b : CoarseSpinor R) (hab : a.info = b.info)
    (target_cb site k : Int) :
    stencilSpec op gauge_in (CoarseSpinor.caxpy c_re c_im a b) target_cb site k =
      caxpyBuf c_re c_im (stencilSpec op gauge_in a target_cb site)
        (stencilSpec op gauge_in b target_cb site) k := by
  simp only [stencilSpec_code, caxpy_neighSpinors c_re c_im op a b hab, rowDotAt_caxpy]
  exact caxpyBuf_sumN c_re c_im
    (fun mu => rowDotAt (gaugeLinks gauge_in target_cb site mu)
      (neighSpinors op a target_cb site mu) op.GetNumColorSpin)
    (fun mu => rowDotAt (gaugeLinks gauge_in target_cb site mu)
      (neighSpinors op b target_cb site mu) op.GetNumColorSpin) 8 k

theorem cloverSpec_caxpy {R : Type} [CommRing R] (c_re c_im : R) (op : CoarseDiracOp)
    (clover_in : CoarseClover R) (a b : CoarseSpinor R) (hab : a.info = b.info)
    (target_cb site k : Int) :
    cloverSpec op clover_in (CoarseSpinor.caxpy c_re c_im a b) target_cb site k =
      caxpyBuf c_re c_im (cloverSpec op clover_in a target_cb site)
        (cloverSpec op clover_in b target_cb site) k := by
  have he : (2 * Int.tdiv op.GetNumColorSpin 2) % 2 = 0 := Int.mul_emod_right _ _
  by_cases hk : k % 2 = 0
  · rw [caxpyBuf_of_even _ _ _ _ _ hk]
    unfold cloverSpec
    simp only [caxpy_GetSiteDataPtr c_re c_im a b hab,
      caxpyBuf_shift_even c_re c_im _ _ _ he, rowDotAt_caxpy]
    by_cases h : k < 2 * Int.tdiv op.GetNumColorSpin 2
    · have h' : k + 1 < 2 * Int.tdiv op.GetNumColorSpin 2 := by omega
      rw [if_pos h, if_pos h, if_pos h, if_pos h', caxpyBuf_of_even _ _ _ _ _ hk]
    · have h' : ¬ (k + 1 < 2 * Int.tdiv op.GetNumColorSpin 2) := by omega
      have hk' : (k - 2 * Int.tdiv op.GetNumColorSpin 2) % 2 = 0 := by omega
      have e : k - 2 * Int.tdiv op.GetNumColorSpin 2 + 1 =
          k + 1 - 2 * Int.tdiv op.GetNumColorSpin 2 := by ring
      rw [if_neg h, if_neg h, if_neg h, if_neg h', caxpyBuf_of_even _ _ _ _ _ hk', e]
  · rw [caxpyBuf_of_odd _ _ _ _ _ hk]
    unfold cloverSpec
    simp only [caxpy_GetSiteDataPtr c_re c_im a b hab,
      caxpyBuf_shift_even c_re c_im _ _ _ he, rowDotAt_caxpy]
    by_cases h : k < 2 * Int.tdiv op.GetNumColorSpin 2
    · have h' : k - 1 < 2 * Int.tdiv op.GetNumColorSpin 2 := by omega
      rw [if_pos h, if_pos h, if_pos h, if_pos h', caxpyBuf_of_odd _ _ _ _ _ hk]
    · have h' : ¬ (k - 1 < 2 * Int.tdiv op.GetNumColorSpin 2) := by omega
      have hk' : ¬ (k - 2 * Int.tdiv op.GetNumColorSpin 2) % 2 = 0 := by omega
      have e : k - 2 * Int.tdiv op.GetNumColorSpin 2 - 1 =
          k - 1 - 2 * Int.tdiv op.GetNumColorSpin 2 := by ring
      rw [if_neg h, if_neg h, if_neg h, if_neg h', caxpyBuf_of_odd _ _ _ _ _ hk', e]

theorem caxpyBuf_add {R : Type} [CommRing R] (c_re c_im : R) (f1 g1 f2 g2 : Buf R)
    (k : Int) :
    caxpyBuf c_re c_im f1 g1 k + caxpyBuf c_re c_im f2 g2 k =
      caxpyBuf c_re c_im (fun k => f1 k + f2 k) (fun k => g1 k + g2 k) k := by
  by_cases hk : k % 2 = 0
  · simp only [caxpyBuf_of_even _ _ _ _ _ hk]
    ring
  · simp only [caxpyBuf_of_odd _ _ _ _ _ hk]
    ring

/-- The value `applySpec` is complex-linear in the input spinor. -/
theorem applySpec_caxpy {R : Type} [CommRing R] (c_re c_im : R) (op : CoarseDiracOp)
    (gauge_in : CoarseGauge R) (clover_in : CoarseClover R) (a b : CoarseSpinor R)
    (hab : a.info = b.info) (target_cb site k : Int) :
    applySpec op gauge_in clover_in (CoarseSpinor.caxpy c_re c_im a b) target_cb site k =
      caxpyBuf c_re c_im (applySpec op gauge_in clover_in a target_cb site)
        (applySpec op gauge_in clover_in b target_cb site) k := by
  unfold applySpec
  rw [cloverSpec_caxpy c_re c_im op clover_in a b hab,
    stencilSpec_caxpy c_re c_im op gauge_in a b hab, caxpyBuf_add]

/-- C6 (as stated) fails: with one colour and four spins and a prior output content of 1,
`Apply` on the input `1*a + b` (with `a = b = 0`) leaves 1 in the real part of component
2, whereas `1*Apply(a) + Apply(b)` is `1 + 1 = 2` there. -/
theorem C6_linearity_counterexample :
    ((op2 1 4).thread_limits 0).ownsSite 0 ∧
    (Apply (op2 1 4) (constSpinor 1 4 1) (constGauge 1 4 5) (constClover 1 4 3)
      (CoarseSpinor.caxpy 1 0 (constSpinor 1 4 0) (constSpinor 1 4 0)) 0 0).data 0
        ((constSpinor 1 4 1).siteOffset 0 + 4) ≠
    1 * (Apply (op2 1 4) (constSpinor 1 4 1) (constGauge 1 4 5) (constClover 1 4 3)
      (constSpinor 1 4 0) 0 0).data 0 ((constSpinor 1 4 1).siteOffset 0 + 4)
    - 0 * (Apply (op2 1 4) (constSpinor 1 4 1) (constGauge 1 4 5) (constClover 1 4 3)
      (constSpinor 1 4 0) 0 0).data 0 ((constSpinor 1 4 1).siteOffset 0 + 5)
    + (Apply (op2 1 4) (constSpinor 1 4 1) (constGauge 1 4 5) (constClover 1 4 3)
      (constSpinor 1 4 0) 0 0).data 0 ((constSpinor 1 4 1).siteOffset 0 + 4) := by
  decide

/-- C6 (amended): on a lattice with two spins `Apply` is linear in its input spinor.  For
spinors `a`, `b` on the same lattice and a complex scalar `c = c_re + i c_im`, at every
component `i` of every site of the calling thread's range the output on `c a + b` is
`c Apply(a) + Apply(b)` (real and imaginary parts). -/
theorem C6_apply_linear {R : Type} [CommRing R] (c_re c_im : R) (op : CoarseDiracOp)
    (spinor_out : CoarseSpinor R) (gauge_in : CoarseGauge R) (clover_in : CoarseClover R)
    (a b : CoarseSpinor R) (target_cb tid site i : Int)
    (hc : spinor_out.GetNumColorSpin = op.GetNumColorSpin) (hs : op.n_spin = 2)
    (hab : a.info = b.info)
    (hsite : (op.thread_limits tid).ownsSite site)
    (hi0 : 0 ≤ i) (hi1 : i < op.GetNumColorSpin) :
    (Apply op spinor_out gauge_in clover_in (CoarseSpinor.caxpy c_re c_im a b) target_cb
        tid).data target_cb (spinor_out.siteOffset site + 2 * i) =
      c_re * (Apply op spinor_out gauge_in clover_in a target_cb tid).data target_cb
          (spinor_out.siteOffset site + 2 * i)
      - c_im * (Apply op spinor_out gauge_in clover_in a target_cb tid).data target_cb
          (spinor_out.siteOffset site + (2 * i + 1))
      + (Apply op spinor_out gauge_in clover_in b target_cb tid).data target_cb
          (spinor_out.siteOffset site + 2 * i) ∧
    (Apply op spinor_out gauge_in clover_in (CoarseSpinor.caxpy c_re c_im a b) target_cb
        tid).data target_cb (spinor_out.siteOffset site + (2 * i + 1)) =
      c_re * (Apply op spinor_out gauge_in clover_in a target_cb tid).data target_cb
          (spinor_out.siteOffset site + (2 * i + 1))
      + c_im * (Apply op spinor_out gauge_in clover_in a target_cb tid).data target_cb
          (spinor_out.siteOffset site + 2 * i)
      + (Apply op spinor_out gauge_in clover_in b target_cb tid).data target_cb
          (spinor_out.siteOffset site + (2 * i + 1)) := by
  have v := fun (x : CoarseSpinor R) (k : Int) (h0 : 0 ≤ k)
      (h1 : k < 2 * op.GetNumColorSpin) =>
    Apply_value op spinor_out gauge_in clover_in x target_cb tid site k hc hs hsite h0 h1
  rw [v _ (2 * i) (by omega) (by omega), v _ (2 * i) (by omega) (by omega),
    v _ (2 * i) (by omega) (by omega), v _ (2 * i + 1) (by omega) (by omega),
    v _ (2 * i + 1) (by omega) (by omega), v _ (2 * i + 1) (by omega) (by omega),
    applySpec_caxpy c_re c_im op gauge_in clover_in a b hab,
    applySpec_caxpy c_re c_im op gauge_in clover_in a b hab,
    caxpyBuf_of_even _ _ _ _ _ (by omega), caxpyBuf_of_odd _ _ _ _ _ (by omega)]
  have e : 2 * i + 1 - 1 = 2 * i := by ring
  rw [e]
  exact ⟨rfl, rfl⟩

/-- Witness of C6 (amended): `c = 2 + i`, `a` with floats 3, `b` with floats 5, component
1 of site 0 on a two-spin lattice. -/
theorem C6_apply_linear_witness :
    (Apply (op2 1 2) (constSpinor 1 2 7) (constGauge 1 2 2) (constClover 1 2 1)
        (CoarseSpinor.caxpy 2 1 (constSpinor 1 2 3) (constSpinor 1 2 5)) 0
        0).data 0 ((constSpinor 1 2 7).siteOffset 0 + 2 * 1) =
      2 * (Apply (op2 1 2) (constSpinor 1 2 7) (constGauge 1 2 2) (constClover 1 2 1)
          (constSpinor 1 2 3) 0 0).data 0 ((constSpinor 1 2 7).siteOffset 0 + 2 * 1)
      - 1 * (Apply (op2 1 2) (constSpinor 1 2 7) (constGauge 1 2 2) (constClover 1 2 1)
          (constSpinor 1 2 3) 0 0).data 0 ((constSpinor 1 2 7).siteOffset 0 + (2 * 1 + 1))
      + (Apply (op2 1 2) (constSpinor 1 2 7) (constGauge 1 2 2) (constClover 1 2 1)
          (constSpinor 1 2 5) 0 0).data 0 ((constSpinor 1 2 7).siteOffset 0 + 2 * 1) ∧
    (Apply (op2 1 2) (constSpinor 1 2 7) (constGauge 1 2 2) (constClover 1 2 1)
        (CoarseSpinor.caxpy 2 1 (constSpinor 1 2 3) (constSpinor 1 2 5)) 0
        0).data 0 ((constSpinor 1 2 7).siteOffset 0 + (2 * 1 + 1)) =
      2 * (Apply (op2 1 2) (constSpinor 1 2 7) (constGauge 1 2 2) (constClover 1 2 1)
          (constSpinor 1 2 3) 0 0).data 0 ((constSpinor 1 2 7).siteOffset 0 + (2 * 1 + 1))
      + 1 * (Apply (op2 1 2) (constSpinor 1 2 7) (constGauge 1 2 2) (constClover 1 2 1)
          (constSpinor 1 2 3) 0 0).data 0 ((constSpinor 1 2 7).siteOffset 0 + 2 * 1)
      + (Apply (op2 1 2) (constSpinor 1 2 7) (constGauge 1 2 2) (constClover 1 2 1)
          (constSpinor 1 2 5) 0 0).data 0 ((constSpinor 1 2 7).siteOffset 0 + (2 * 1 + 1)) :=
  C6_apply_linear 2 1 (op2 1 2) (constSpinor 1 2 7) (constGauge 1 2 2) (constClover 1 2 1)
    (constSpinor 1 2 3) (constSpinor 1 2 5) 0 0 0 1 (by decide) (by decide) (by decide)
    (by decide) (by decide) (by decide)

/-! ## The hopping term: `Dslash` -/

theorem dslashSite_frame {R : Type} [CommRing R] (op : CoarseDiracOp)
    (spinor_out : CoarseSpinor R) (gauge_in : CoarseGauge R)
    (spinor_in : CoarseSpinor R) (target_cb : Int)
    (hc : spinor_out.GetNumColorSpin = op.GetNumColorSpin)
    (s : Int) (m : Buf R) (j : Int) (hj : ¬ siteRegion op.GetNumColorSpin s j) :
    dslashSite op spinor_out gauge_in spinor_in target_cb s m j = m j := by
  unfold dslashSite
  rw [siteApplyDslash_apply, siteOffset_eq spinor_out _ s hc]
  unfold siteRegion at hj
  rw [if_neg hj]

theorem dslashSite_value {R : Type} [CommRing R] (op : CoarseDiracOp)
    (spinor_out : CoarseSpinor R) (gauge_in : CoarseGauge R)
    (spinor_in : CoarseSpinor R) (target_cb : Int)
    (hc : spinor_out.GetNumColorSpin = op.GetNumColorSpin)
    (s : Int) (m : Buf R) (j : Int) (hj : siteRegion op.GetNumColorSpin s j) :
    dslashSite op spinor_out gauge_in spinor_in target_cb s m j =
      stencilSpec op gauge_in spinor_in target_cb s (j - s * (2 * op.GetNumColorSpin)) := by
  unfold dslashSite
  rw [stencilSpec_code, siteApplyDslash_apply, siteOffset_eq spinor_out _ s hc]
  unfold siteRegion at hj
  rw [if_pos hj]

theorem Dslash_data_target {R : Type} [CommRing R] (op : CoarseDiracOp)
    (spinor_out : CoarseSpinor R) (gauge_in : CoarseGauge R)
    (spinor_in : CoarseSpinor R) (target_cb tid : Int) :
    (Dslash op spinor_out gauge_in spinor_in target_cb tid).data target_cb =
      loopN (op.thread_limits tid).min_site
        (dslashSite op spinor_out gauge_in spinor_in target_cb)
        ((op.thread_limits tid).max_site - (op.thread_limits tid).min_site).toNat
        (spinor_out.data target_cb) := by
  simp [Dslash, forLoop]

/-- The value `Dslash` leaves at every float of every site of the thread's range. -/
theorem Dslash_value {R : Type} [CommRing R] (op : CoarseDiracOp)
    (spinor_out : CoarseSpinor R) (gauge_in : CoarseGauge R)
    (spinor_in : CoarseSpinor R) (target_cb tid site k : Int)
    (hc : spinor_out.GetNumColorSpin = op.GetNumColorSpin)
    (hsite : (op.thread_limits tid).ownsSite site)
    (hk0 : 0 ≤ k) (hk1 : k < 2 * op.GetNumColorSpin) :
    (Dslash op spinor_out gauge_in spinor_in target_cb tid).data target_cb
        (spinor_out.siteOffset site + k) =
      stencilSpec op gauge_in spinor_in target_cb site k := by
  rw [Dslash_data_target, siteOffset_eq spinor_out _ site hc]
  unfold ThreadLimits.ownsSite at hsite
  have hreg : siteRegion op.GetNumColorSpin site (site * (2 * op.GetNumColorSpin) + k) := by
    unfold siteRegion
    omega
  rw [loopN_sites_value _ (siteRegion op.GetNumColorSpin)
    (fun s j => stencilSpec op gauge_in spinor_in target_cb s
      (j - s * (2 * op.GetNumColorSpin)))
    (fun s m j h => dslashSite_frame op spinor_out gauge_in spinor_in target_cb hc s m j h)
    (fun s m j h => dslashSite_value op spinor_out gauge_in spinor_in target_cb hc s m j h)
    (siteRegion_disjoint op.GetNumColorSpin) _ _ _ site _ hsite.1 (by omega) hreg]
  congr 1
  ring

/-- The stencil sum reads the input spinor on the source checkerboard only. -/
theorem stencilSpec_congr {R : Type} [CommRing R] (op : CoarseDiracOp)
    (gauge_in : CoarseGauge R) (in1 in2 : CoarseSpinor R) (target_cb site k : Int)
    (hinfo : in1.info = in2.info)
    (hdata : in1.data (1 - target_cb) = in2.data (1 - target_cb)) :
    stencilSpec op gauge_in in1 target_cb site k =
      stencilSpec op gauge_in in2 target_cb site k := by
  have h : neighSpinors op in1 target_cb site = neighSpinors op in2 target_cb site := by
    unfold neighSpinors CoarseSpinor.GetSiteDataPtr CoarseSpinor.siteOffset
      CoarseSpinor.GetNumColorSpin
    simp only [hinfo, hdata]
  rw [stencilSpec_code, stencilSpec_code, h]

/-- C7: for every site of the calling thread's range and every float `k` of the site,
`Dslash` leaves in an output spinor of the operator's colorspin count exactly
`Σ_{mu=0..7} U_mu ψ_mu`, with `U_mu` direction block `mu` of the gauge field at the site
(`GetSiteDirDataPtr(target_cb, site, mu)`) paired with the input spinor at entry `mu` of
the neighbour table (order x+, x-, y+, y-, z+, z-, t+, t-) on the opposite checkerboard,
accumulated from zero: there is no clover term, and the result is the same for any prior
content of the output and for any input spinor that agrees with `spinor_in` on the
opposite checkerboard. -/
theorem C7_dslash_stencil_only {R : Type} [CommRing R] (op : CoarseDiracOp)
    (spinor_out : CoarseSpinor R) (gauge_in : CoarseGauge R)
    (spinor_in : CoarseSpinor R) (target_cb tid site k : Int)
    (hc : spinor_out.GetNumColorSpin = op.GetNumColorSpin)
    (hsite : (op.thread_limits tid).ownsSite site)
    (hk0 : 0 ≤ k) (hk1 : k < 2 * op.GetNumColorSpin) :
    (Dslash op spinor_out gauge_in spinor_in target_cb tid).data target_cb
        (spinor_out.siteOffset site + k) =
      sumN (fun mu => rowDotAt (gauge_in.GetSiteDirDataPtr target_cb site mu)
        (spinor_in.GetSiteDataPtr (1 - target_cb) (arr8 (neighSites op target_cb site) mu))
        op.GetNumColorSpin k) 8 ∧
    (∀ (out2 in2 : CoarseSpinor R), out2.GetNumColorSpin = op.GetNumColorSpin →
      in2.info = spinor_in.info →
      in2.data (1 - target_cb) = spinor_in.data (1 - target_cb) →
      (Dslash op out2 gauge_in in2 target_cb tid).data target_cb
          (out2.siteOffset site + k) =
        (Dslash op spinor_out gauge_in spinor_in target_cb tid).data target_cb
          (spinor_out.siteOffset site + k)) := by
  have h1 := Dslash_value op spinor_out gauge_in spinor_in target_cb tid site k hc hsite
    hk0 hk1
  refine ⟨h1, fun out2 in2 hc2 hinfo hdata => ?_⟩
  rw [h1, Dslash_value op out2 gauge_in in2 target_cb tid site k hc2 hsite hk0 hk1]
  exact stencilSpec_congr op gauge_in in2 spinor_in target_cb site k hinfo hdata

/-- Witness of C7: one colour, two spins on the 4 x 1 x 1 x 1 lattice, with a gauge
field and an input spinor whose floats all differ (`rampGauge`, `rampSpinor`) and prior
output content 7; thread 1 owns site 1, whose x neighbours are the sites 1 and 0 of
checkerboard 1.  Float 1 of the site is 341384; reading direction block 0 for all
eight directions would give 246984. -/
theorem C7_dslash_stencil_only_witness :
    (∀ mu : Fin 8, neighSites (op4 1 2) 0 1 mu = ![1, 0, 1, 1, 1, 1, 1, 1] mu) ∧
    sumN (fun mu => rowDotAt ((rampGauge 1 2).GetSiteDirDataPtr 0 1 0)
      ((rampSpinor 1 2).GetSiteDataPtr (1 - 0) (arr8 (neighSites (op4 1 2) 0 1) mu))
      (op4 1 2).GetNumColorSpin 1) 8 = 246984 ∧
    (Dslash (op4 1 2) (constSpinor4 1 2 7) (rampGauge 1 2) (rampSpinor 1 2) 0 1).data 0
        ((constSpinor4 1 2 7).siteOffset 1 + 1) = 341384 ∧
    (Dslash (op4 1 2) (constSpinor4 1 2 7) (rampGauge 1 2) (rampSpinor 1 2) 0 1).data 0
        ((constSpinor4 1 2 7).siteOffset 1 + 1) =
      sumN (fun mu => rowDotAt ((rampGauge 1 2).GetSiteDirDataPtr 0 1 mu)
        ((rampSpinor 1 2).GetSiteDataPtr (1 - 0) (arr8 (neighSites (op4 1 2) 0 1) mu))
        (op4 1 2).GetNumColorSpin 1) 8 :=
  ⟨by decide, by decide, by decide,
   (C7_dslash_stencil_only (op4 1 2) (constSpinor4 1 2 7) (rampGauge 1 2)
    (rampSpinor 1 2) 0 1 1 1 (by decide) (by decide) (by decide) (by decide)).1⟩

/-! ## Frame: what a call leaves untouched -/

theorem loop_frame_site {R : Type} (body : Int → Buf R → Buf R) (ncs : Int)
    (frame : ∀ s m j, ¬ siteRegion ncs s j → body s m j = m j)
    (l : ThreadLimits) (m : Buf R) (s k : Int)
    (hs : ¬ l.ownsSite s) (hk0 : 0 ≤ k) (hk1 : k < 2 * ncs) :
    loopN l.min_site body (l.max_site - l.min_site).toNat m (s * (2 * ncs) + k) =
      m (s * (2 * ncs) + k) := by
  apply loopN_sites_frame body (siteRegion ncs) frame
  intro s2 h1 h2 hreg
  have hreg2 : siteRegion ncs s (s * (2 * ncs) + k) := by
    unfold siteRegion
    omega
  have := siteRegion_disjoint ncs s2 s _ hreg hreg2
  subst this
  exact hs ⟨h1, by omega⟩

/-- C4 (as stated) fails for `Apply`: with one colour and one spin (`N_colorspin = 1`,
two floats per site) the second clover multiply of site 0 writes at `&output[2*N_color]`,
the floats of site 1.  Thread 0 owns site 0 only, yet its call changes the imaginary
part of component 0 of site 1 from 0 to `Im((1+i)(1+i)) = 2`. -/
theorem C4_frame_counterexample :
    (constSpinor4 1 1 0).GetNumColorSpin = (op4 1 1).GetNumColorSpin ∧
    ((op4 1 1).thread_limits 0).ownsSite 0 ∧
    ¬ ((op4 1 1).thread_limits 0).ownsSite 1 ∧
    (constSpinor4 1 1 0).data 0 ((constSpinor4 1 1 0).siteOffset 1 + 1) = 0 ∧
    (Apply (op4 1 1) (constSpinor4 1 1 0) (constGauge4 1 1 0) (constClover4 1 1 1)
      (constSpinor4 1 1 1) 0 0).data 0 ((constSpinor4 1 1 0).siteOffset 1 + 1) = 2 := by
  decide

/-- C4 (amended): a call of `Dslash`, and a call of `Apply` on a lattice with at least
two spins, with thread id `tid` and target checkerboard `cb` on an output spinor of the
operator's colorspin count changes `spinor_out` only at sites of the thread's range on
checkerboard `cb`: the lattice description, every float of every other checkerboard
buffer and every float of every site outside `[min_site, max_site)` are unchanged.  (The
gauge, clover and input spinor are read-only arguments of both calls.) -/
theorem C4_frame {R : Type} [CommRing R] (op : CoarseDiracOp)
    (spinor_out : CoarseSpinor R) (gauge_in : CoarseGauge R) (clover_in : CoarseClover R)
    (spinor_in : CoarseSpinor R) (target_cb tid : Int)
    (hc : spinor_out.GetNumColorSpin = op.GetNumColorSpin) :
    (2 ≤ op.n_spin →
      (Apply op spinor_out gauge_in clover_in spinor_in target_cb tid).info =
        spinor_out.info ∧
      (∀ cb2 j, cb2 ≠ target_cb →
        (Apply op spinor_out gauge_in clover_in spinor_in target_cb tid).data cb2 j =
          spinor_out.data cb2 j) ∧
      (∀ s k, ¬ (op.thread_limits tid).ownsSite s → 0 ≤ k → k < 2 * op.GetNumColorSpin →
        (Apply op spinor_out gauge_in clover_in spinor_in target_cb tid).data target_cb
            (spinor_out.siteOffset s + k) =
          spinor_out.data target_cb (spinor_out.siteOffset s + k))) ∧
    ((Dslash op spinor_out gauge_in spinor_in target_cb tid).info = spinor_out.info ∧
      (∀ cb2 j, cb2 ≠ target_cb →
        (Dslash op spinor_out gauge_in spinor_in target_cb tid).data cb2 j =
          spinor_out.data cb2 j) ∧
      (∀ s k, ¬ (op.thread_limits tid).ownsSite s → 0 ≤ k → k < 2 * op.GetNumColorSpin →
        (Dslash op spinor_out gauge_in spinor_in target_cb tid).data target_cb
            (spinor_out.siteOffset s + k) =
          spinor_out.data target_cb (spinor_out.siteOffset s + k))) := by
  refine ⟨fun hs => ⟨rfl, fun cb2 j hcb => ?_, fun s k hown hk0 hk1 => ?_⟩,
    rfl, fun cb2 j hcb => ?_, fun s k hown hk0 hk1 => ?_⟩
  · simp [Apply, Function.update_noteq hcb]
  · rw [Apply_data_target, siteOffset_eq spinor_out _ s hc]
    exact loop_frame_site _ _
      (fun s m j h => applySite_frame op spinor_out gauge_in clover_in spinor_in target_cb
        hc hs s m j h) _ _ s k hown hk0 hk1
  · simp [Dslash, Function.update_noteq hcb]
  · rw [Dslash_data_target, siteOffset_eq spinor_out _ s hc]
    exact loop_frame_site _ _
      (fun s m j h => dslashSite_frame op spinor_out gauge_in spinor_in target_cb
        hc s m j h) _ _ s k hown hk0 hk1

/-- Witness of C4 (amended): two spins, thread 0 owns site 0 of the two-site
checkerboard; float 1 of site 1 keeps its prior content 7 under both calls. -/
theorem C4_frame_witness :
    (Apply (op4 1 2) (constSpinor4 1 2 7) (constGauge4 1 2 2) (constClover4 1 2 1)
      (constSpinor4 1 2 3) 0 0).data 0 ((constSpinor4 1 2 7).siteOffset 1 + 1) =
        (constSpinor4 1 2 7).data 0 ((constSpinor4 1 2 7).siteOffset 1 + 1) ∧
    (Dslash (op4 1 2) (constSpinor4 1 2 7) (constGauge4 1 2 2)
      (constSpinor4 1 2 3) 0 0).data 0 ((constSpinor4 1 2 7).siteOffset 1 + 1) =
        (constSpinor4 1 2 7).data 0 ((constSpinor4 1 2 7).siteOffset 1 + 1) :=
  ⟨((C4_frame (op4 1 2) (constSpinor4 1 2 7) (constGauge4 1 2 2) (constClover4 1 2 1)
      (constSpinor4 1 2 3) 0 0 (by decide)).1 (by decide)).2.2 1 1 (by decide) (by decide)
      (by decide),
   (C4_frame (op4 1 2) (constSpinor4 1 2 7) (constGauge4 1 2 2) (constClover4 1 2 1)
      (constSpinor4 1 2 3) 0 0 (by decide)).2.2.2 1 1 (by decide) (by decide) (by decide)⟩

/-! ## Level-1 BLAS: the loop nests -/

/-- Closed form of the colorspin loop of a component-wise kernel at the site of offset
`o`: every pair below `2 k` is rewritten from its own old value. -/
theorem compData_loop {R : Type} (o : Int) (Fre Fim : Int → R → R → R) (m : Buf R)
    (k : Nat) :
    ∀ j : Int, loopN 0 (compData o Fre Fim) k m j =
      if 0 ≤ j - o ∧ j - o < 2 * (k : Int) then
        (if (j - o) % 2 = 0 then Fre ((j - o) / 2) (m j) (m (j + 1))
         else Fim ((j - o) / 2) (m (j - 1)) (m j))
      else m j := by
  induction k with
  | zero =>
    intro j
    have : ¬ (0 ≤ j - o ∧ j - o < 2 * ((0 : Nat) : Int)) := by omega
    simp only [loopN, if_neg this]
  | succ n ih =>
    intro j
    simp only [loopN, compData, Buf.store, RE, IM, n_complex, ih]
    have hA : ¬ (0 ≤ o + (1 + 2 * (0 + (n : Int))) - o ∧
        o + (1 + 2 * (0 + (n : Int))) - o < 2 * (n : Int)) := by omega
    have hB : ¬ (0 ≤ o + (0 + 2 * (0 + (n : Int))) - o ∧
        o + (0 + 2 * (0 + (n : Int))) - o < 2 * (n : Int)) := by omega
    rw [if_neg hA, if_neg hB]
    by_cases h1 : j = o + (1 + 2 * (0 + (n : Int)))
    · have hr : 0 ≤ j - o ∧ j - o < 2 * ((n + 1 : Nat) : Int) := by push_cast; omega
      have hodd : ¬ ((j - o) % 2 = 0) := by omega
      have hdiv : (j - o) / 2 = 0 + (n : Int) := by omega
      have hj1 : j - 1 = o + (0 + 2 * (0 + (n : Int))) := by omega
      rw [if_pos h1, if_pos hr, if_neg hodd, hdiv, hj1, h1]
    · rw [if_neg h1]
      by_cases h2 : j = o + (0 + 2 * (0 + (n : Int)))
      · have hr : 0 ≤ j - o ∧ j - o < 2 * ((n + 1 : Nat) : Int) := by push_cast; omega
        have hev : (j - o) % 2 = 0 := by omega
        have hdiv : (j - o) / 2 = 0 + (n : Int) := by omega
        have hj1 : j + 1 = o + (1 + 2 * (0 + (n : Int))) := by omega
        rw [if_pos h2, if_pos hr, if_pos hev, hdiv, hj1, h2]
      · rw [if_neg h2]
        by_cases h3 : 0 ≤ j - o ∧ j - o < 2 * (n : Int)
        · have hr : 0 ≤ j - o ∧ j - o < 2 * ((n + 1 : Nat) : Int) := by push_cast; omega
          rw [if_pos h3, if_pos hr]
        · have hr : ¬ (0 ≤ j - o ∧ j - o < 2 * ((n + 1 : Nat) : Int)) := by
            push_cast; omega
          rw [if_neg h3, if_neg hr]

/-- The colorspin loop of a site writes only inside the region of the site. -/
theorem compData_loop_frame {R : Type} (ncs s : Int) (Fre Fim : Int → R → R → R)
    (m : Buf R) (j : Int) (hj : ¬ siteRegion ncs s j) :
    loopN 0 (compData (s * (2 * ncs)) Fre Fim) ncs.toNat m j = m j := by
  rw [compData_loop]
  unfold siteRegion at hj
  have : ¬ (0 ≤ j - s * (2 * ncs) ∧ j - s * (2 * ncs) < 2 * (ncs.toNat : Int)) := by omega
  rw [if_neg this]

/-- The values the colorspin loop of a site leaves at component `c` of the site. -/
theorem compData_loop_value {R : Type} (ncs s : Int) (Fre Fim : Int → R → R → R)
    (m : Buf R) (c : Int) (hc0 : 0 ≤ c) (hc1 : c < ncs) :
    loopN 0 (compData (s * (2 * ncs)) Fre Fim) ncs.toNat m
        (s * (2 * ncs) + (RE + n_complex * c)) =
      Fre c (m (s * (2 * ncs) + (RE + n_complex * c)))
        (m (s * (2 * ncs) + (IM + n_complex * c))) ∧
    loopN 0 (compData (s * (2 * ncs)) Fre Fim) ncs.toNat m
        (s * (2 * ncs) + (IM + n_complex * c)) =
      Fim c (m (s * (2 * ncs) + (RE + n_complex * c)))
        (m (s * (2 * ncs) + (IM + n_complex * c))) := by
  simp only [compData_loop, RE, IM, n_complex]
  have r1 : 0 ≤ s * (2 * ncs) + (0 + 2 * c) - s * (2 * ncs) ∧
      s * (2 * ncs) + (0 + 2 * c) - s * (2 * ncs) < 2 * (ncs.toNat : Int) := by omega
  have r2 : 0 ≤ s * (2 * ncs) + (1 + 2 * c) - s * (2 * ncs) ∧
      s * (2 * ncs) + (1 + 2 * c) - s * (2 * ncs) < 2 * (ncs.toNat : Int) := by omega
  have p1 : (s * (2 * ncs) + (0 + 2 * c) - s * (2 * ncs)) % 2 = 0 := by omega
  have p2 : ¬ ((s * (2 * ncs) + (1 + 2 * c) - s * (2 * ncs)) % 2 = 0) := by omega
  have d1 : (s * (2 * ncs) + (0 + 2 * c) - s * (2 * ncs)) / 2 = c := by omega
  have d2 : (s * (2 * ncs) + (1 + 2 * c) - s * (2 * ncs)) / 2 = c := by omega
  have e1 : s * (2 * ncs) + (0 + 2 * c) + 1 = s * (2 * ncs) + (1 + 2 * c) := by ring
  have e2 : s * (2 * ncs) + (1 + 2 * c) - 1 = s * (2 * ncs) + (0 + 2 * c) := by ring
  rw [if_pos r1, if_pos r2, if_pos p1, if_neg p2, d1, d2, e1, e2]
  exact ⟨rfl, rfl⟩

/-- The value at an entry of the region of site `s` after a site loop whose body reads
and writes only the region of its own site: it is what the body of `s` makes of the
initial buffer. -/
theorem loopN_sites_local {R : Type} (body : Int → Buf R → Buf R) (reg : Int → Int → Prop)
    (frame : ∀ s m j, ¬ reg s j → body s m j = m j)
    (loc : ∀ s m m2 j, reg s j → (∀ j2, reg s j2 → m j2 = m2 j2) → body s m j = body s m2 j)
    (disj : ∀ s s2 j, reg s j → reg s2 j → s = s2) (lo : Int) (m : Buf R) :
    ∀ (n : Nat) (s j : Int), lo ≤ s → s < lo + n → reg s j →
      loopN lo body n m j = body s m j := by
  intro n
  induction n with
  | zero => intro s j h1 h2; simp at h2; omega
  | succ n ih =>
    intro s j h1 h2 hr
    simp only [loopN]
    by_cases hs : s = lo + (n : Int)
    · rw [← hs]
      apply loc s _ _ j hr
      intro j2 hj2
      apply loopN_sites_frame body reg frame
      intro s2 a b hreg
      have := disj s2 s j2 hreg hj2
      omega
    · have hne : ¬ reg (lo + (n : Int)) j := fun h => hs (disj _ _ j hr h)
      rw [frame _ _ _ hne]
      exact ih s j h1 (by push_cast at h2; omega) hr

theorem compData_loop_local {R : Type} (ncs s : Int) (Fre Fim : Int → R → R → R)
    (m m2 : Buf R) (j : Int) (hj : siteRegion ncs s j)
    (h : ∀ j2, siteRegion ncs s j2 → m j2 = m2 j2) :
    loopN 0 (compData (s * (2 * ncs)) Fre Fim) ncs.toNat m j =
      loopN 0 (compData (s * (2 * ncs)) Fre Fim) ncs.toNat m2 j := by
  simp only [compData_loop]
  unfold siteRegion at hj h
  have hr : 0 ≤ j - s * (2 * ncs) ∧ j - s * (2 * ncs) < 2 * (ncs.toNat : Int) := by omega
  rw [if_pos hr, if_pos hr]
  by_cases hp : (j - s * (2 * ncs)) % 2 = 0
  · rw [if_pos hp, if_pos hp, h j (by omega), h (j + 1) (by omega)]
  · rw [if_neg hp, if_neg hp, h j (by omega), h (j - 1) (by omega)]

/-- The site loop of a data kernel in normal form. -/
theorem siteLoop_value {R : Type} (n ncs : Int) (Fre Fim : Int → Int → R → R → R)
    (body : Int → Int → Buf R → Buf R)
    (hbody : ∀ site c m, body site c m = compData (site * (2 * ncs)) (Fre site) (Fim site) c m)
    (m : Buf R) (site c : Int) (hs0 : 0 ≤ site) (hs1 : site < n)
    (hc0 : 0 ≤ c) (hc1 : c < ncs) :
    forLoop 0 n (fun cbsite m => forLoop 0 ncs (fun cspin m => body cbsite cspin m) m) m
        (site * (2 * ncs) + (RE + n_complex * c)) =
      Fre site c (m (site * (2 * ncs) + (RE + n_complex * c)))
        (m (site * (2 * ncs) + (IM + n_complex * c))) ∧
    forLoop 0 n (fun cbsite m => forLoop 0 ncs (fun cspin m => body cbsite cspin m) m) m
        (site * (2 * ncs) + (IM + n_complex * c)) =
      Fim site c (m (site * (2 * ncs) + (RE + n_complex * c)))
        (m (site * (2 * ncs) + (IM + n_complex * c))) := by
  have hb : (fun cbsite m => forLoop 0 ncs (fun cspin m => body cbsite cspin m) m) =
      (fun cbsite m =>
        loopN 0 (compData (cbsite * (2 * ncs)) (Fre cbsite) (Fim cbsite)) ncs.toNat m) := by
    funext cbsite m
    rw [forLoop_zero]
    congr 1
    funext c m
    exact hbody cbsite c m
  rw [hb, forLoop_zero]
  have key : ∀ j, siteRegion ncs site j →
      loopN 0 (fun cbsite m =>
        loopN 0 (compData (cbsite * (2 * ncs)) (Fre cbsite) (Fim cbsite)) ncs.toNat m)
        n.toNat m j =
      loopN 0 (compData (site * (2 * ncs)) (Fre site) (Fim site)) ncs.toNat m j := by
    intro j hj
    exact loopN_sites_local
      (fun cbsite m =>
        loopN 0 (compData (cbsite * (2 * ncs)) (Fre cbsite) (Fim cbsite)) ncs.toNat m)
      (siteRegion ncs)
      (fun s m j h => compData_loop_frame ncs s (Fre s) (Fim s) m j h)
      (fun s m m2 j h hh => compData_loop_local ncs s (Fre s) (Fim s) m m2 j h hh)
      (siteRegion_disjoint ncs) 0 m n.toNat site j hs0 (by omega) hj
  have hv := compData_loop_value ncs site (Fre site) (Fim site) m c hc0 hc1
  rw [key _ (by unfold siteRegion; simp only [RE, n_complex]; omega),
    key _ (by unfold siteRegion; simp only [IM, n_complex]; omega)]
  exact hv

theorem siteLoop_frame {R : Type} (n ncs : Int) (Fre Fim : Int → Int → R → R → R)
    (body : Int → Int → Buf R → Buf R)
    (hbody : ∀ site c m, body site c m = compData (site * (2 * ncs)) (Fre site) (Fim site) c m)
    (m : Buf R) (j : Int)
    (hj : ∀ site, 0 ≤ site → site < n → ¬ siteRegion ncs site j) :
    forLoop 0 n (fun cbsite m => forLoop 0 ncs (fun cspin m => body cbsite cspin m) m) m j =
      m j := by
  have hb : (fun cbsite m => forLoop 0 ncs (fun cspin m => body cbsite cspin m) m) =
      (fun cbsite m =>
        loopN 0 (compData (cbsite * (2 * ncs)) (Fre cbsite) (Fim cbsite)) ncs.toNat m) := by
    funext cbsite m
    rw [forLoop_zero]
    congr 1
    funext c m
    exact hbody cbsite c m
  rw [hb, forLoop_zero]
  exact loopN_sites_frame
    (fun cbsite m =>
      loopN 0 (compData (cbsite * (2 * ncs)) (Fre cbsite) (Fim cbsite)) ncs.toNat m)
    (siteRegion ncs)
    (fun s m j h => compData_loop_frame ncs s (Fre s) (Fim s) m j h) 0 m n.toNat j
    (fun s h1 h2 => hj s h1 (by omega))

/-- The checkerboard loop of `blasData`: checkerboards 0 and 1 are run through their
site loop, every other buffer is left alone. -/
theorem blasData_cb {R : Type} (n ncs : Int) (body : Int → Int → Int → Buf R → Buf R)
    (d : Int → Buf R) (cb : Int) :
    blasData n ncs body d cb =
      if cb = 0 ∨ cb = 1 then
        forLoop 0 n (fun cbsite m =>
          forLoop 0 ncs (fun cspin m => body cb cbsite cspin m) m) (d cb)
      else d cb := by
  unfold blasData
  rw [forLoop_zero]
  have e : (2 : Int).toNat = 2 := rfl
  rw [e]
  simp only [loopN, Nat.cast_zero, Nat.cast_one, zero_add, add_zero]
  by_cases h1 : cb = 1
  · subst h1
    simp
  · by_cases h0 : cb = 0
    · subst h0
      simp
    · have : ¬ (cb = 0 ∨ cb = 1) := by tauto
      simp [this, h1, h0, Function.update_noteq]

/-- Normal form of a data kernel: the values left at every component. -/
theorem blasData_value {R : Type} (n ncs : Int) (Fre Fim : Int → Int → Int → R → R → R)
    (body : Int → Int → Int → Buf R → Buf R)
    (hbody : ∀ cb site c m,
      body cb site c m = compData (site * (2 * ncs)) (Fre cb site) (Fim cb site) c m)
    (d : Int → Buf R) (cb site c : Int) (hcb : cb = 0 ∨ cb = 1)
    (hs0 : 0 ≤ site) (hs1 : site < n) (hc0 : 0 ≤ c) (hc1 : c < ncs) :
    blasData n ncs body d cb (site * (2 * ncs) + (RE + n_complex * c)) =
      Fre cb site c (d cb (site * (2 * ncs) + (RE + n_complex * c)))
        (d cb (site * (2 * ncs) + (IM + n_complex * c))) ∧
    blasData n ncs body d cb (site * (2 * ncs) + (IM + n_complex * c)) =
      Fim cb site c (d cb (site * (2 * ncs) + (RE + n_complex * c)))
        (d cb (site * (2 * ncs) + (IM + n_complex * c))) := by
  rw [blasData_cb, if_pos hcb]
  exact siteLoop_value n ncs (Fre cb) (Fim cb) (body cb) (hbody cb) (d cb) site c
    hs0 hs1 hc0 hc1

/-- Normal form of a data kernel: everything outside the components is unchanged. -/
theorem blasData_frame {R : Type} (n ncs : Int) (Fre Fim : Int → Int → Int → R → R → R)
    (body : Int → Int → Int → Buf R → Buf R)
    (hbody : ∀ cb site c m,
      body cb site c m = compData (site * (2 * ncs)) (Fre cb site) (Fim cb site) c m)
    (d : Int → Buf R) (cb j : Int)
    (hj : ¬ (cb = 0 ∨ cb = 1) ∨ ∀ site, 0 ≤ site → site < n → ¬ siteRegion ncs site j) :
    blasData n ncs body d cb j = d cb j := by
  rw [blasData_cb]
  by_cases hcb : cb = 0 ∨ cb = 1
  · rw [if_pos hcb]
    rcases hj with h | h
    · exact absurd hcb h
    · exact siteLoop_frame n ncs (Fre cb) (Fim cb) (body cb) (hbody cb) (d cb) j h
  · rw [if_neg hcb]

theorem loopN_add {R : Type} [CommRing R] (g : Int → R) (body : Int → R → R)
    (hbody : ∀ i a, body i a = a + g i) (k : Nat) (a : R) :
    loopN 0 body k a = a + sumN g k := by
  induction k with
  | zero => simp [loopN, sumN]
  | succ k ih =>
    simp only [loopN, sumN, hbody, ih, zero_add]
    ring

/-- Normal form of a reducing kernel: the reduction variable ends as the sum of the
terms over both checkerboards, all sites and all components. -/
theorem blasReduce_sum {R : Type} [CommRing R] (n ncs : Int) (g : Int → Int → Int → R)
    (body : Int → Int → Int → R → R)
    (hbody : ∀ cb site c a, body cb site c a = a + g cb site c) (a : R) :
    blasReduce n ncs body a = a + sumComp n ncs g := by
  unfold blasReduce sumComp
  simp only [forLoop_zero]
  have e : (2 : Int).toNat = 2 := rfl
  rw [e]
  exact loopN_add _ _ (fun cb a =>
    loopN_add _ _ (fun site a =>
      loopN_add (g cb site) _ (fun c a => hbody cb site c a) _ a) _ a) 2 a

theorem loopN_zero_succ {σ : Type} (body : Int → σ → σ) (n : Nat) (s : σ) :
    loopN 0 body (n + 1) s = body (n : Int) (loopN 0 body n s) := by
  simp [loopN]

/-- Colorspin loop of a kernel that writes and reduces: the buffer follows the data
loop and the reduction variable gains the terms computed from the initial buffer. -/
theorem compPair_loop {R : Type} [CommRing R] (o : Int) (Fre Fim : Int → R → R → R)
    (G : Int → R → R → R) (body : Int → Buf R × R → Buf R × R)
    (hbody : ∀ c m a, body c (m, a) =
      (compData o Fre Fim c m,
        a + G c (m (o + (RE + n_complex * c))) (m (o + (IM + n_complex * c)))))
    (m : Buf R) (a : R) (k : Nat) :
    loopN 0 body k (m, a) =
      (loopN 0 (compData o Fre Fim) k m,
        a + sumN (fun c => G c (m (o + (RE + n_complex * c)))
          (m (o + (IM + n_complex * c)))) k) := by
  induction k with
  | zero => simp [loopN, sumN]
  | succ k ih =>
    have h1 : loopN 0 (compData o Fre Fim) k m (o + (RE + n_complex * (k : Int))) =
        m (o + (RE + n_complex * (k : Int))) := by
      rw [compData_loop]
      have : ¬ (0 ≤ o + (RE + n_complex * (k : Int)) - o ∧
          o + (RE + n_complex * (k : Int)) - o < 2 * (k : Int)) := by
        simp only [RE, n_complex]; omega
      rw [if_neg this]
    have h2 : loopN 0 (compData o Fre Fim) k m (o + (IM + n_complex * (k : Int))) =
        m (o + (IM + n_complex * (k : Int))) := by
      rw [compData_loop]
      have : ¬ (0 ≤ o + (IM + n_complex * (k : Int)) - o ∧
          o + (IM + n_complex * (k : Int)) - o < 2 * (k : Int)) := by
        simp only [IM, n_complex]; omega
      rw [if_neg this]
    rw [loopN_zero_succ, loopN_zero_succ, ih, hbody, h1, h2]
    simp only [sumN]
    rw [add_assoc]

/-- Site loop of a kernel that writes and reduces. -/
theorem sitePair_loop {R : Type} [CommRing R] (ncs : Int)
    (Fre Fim : Int → Int → R → R → R) (G : Int → Int → R → R → R)
    (body : Int → Int → Buf R × R → Buf R × R)
    (hbody : ∀ site c m a, body site c (m, a) =
      (compData (site * (2 * ncs)) (Fre site) (Fim site) c m,
        a + G site c (m (site * (2 * ncs) + (RE + n_complex * c)))
          (m (site * (2 * ncs) + (IM + n_complex * c)))))
    (m : Buf R) (a : R) (n : Nat) :
    loopN 0 (fun cbsite sb => forLoop 0 ncs (fun cspin s => body cbsite cspin s) sb) n
        (m, a) =
      (loopN 0 (fun cbsite m =>
          forLoop 0 ncs (fun cspin m =>
            compData (cbsite * (2 * ncs)) (Fre cbsite) (Fim cbsite) cspin m) m) n m,
        a + sumN (fun site => sumN (fun c =>
          G site c (m (site * (2 * ncs) + (RE + n_complex * c)))
            (m (site * (2 * ncs) + (IM + n_complex * c)))) ncs.toNat) n) := by
  induction n with
  | zero => simp [loopN, sumN]
  | succ n ih =>
    rw [loopN_zero_succ, loopN_zero_succ, ih]
    simp only [forLoop_zero, sumN]
    rw [compPair_loop ((n : Int) * (2 * ncs)) (Fre n) (Fim n) (G n) _
      (fun c m a => hbody n c m a)]
    have hfr : ∀ j, siteRegion ncs (n : Int) j →
        loopN 0 (fun cbsite m =>
          loopN 0 (fun cspin m =>
            compData (cbsite * (2 * ncs)) (Fre cbsite) (Fim cbsite) cspin m) ncs.toNat m)
          n m j = m j := by
      intro j hj
      apply loopN_sites_frame
        (fun cbsite m =>
          loopN 0 (compData (cbsite * (2 * ncs)) (Fre cbsite) (Fim cbsite)) ncs.toNat m)
        (siteRegion ncs)
        (fun s m j h => compData_loop_frame ncs s (Fre s) (Fim s) m j h)
      intro s h1 h2 hreg
      have := siteRegion_disjoint ncs s n j hreg hj
      omega
    have hsum : sumN (fun c => G (n : Int) c
          (loopN 0 (fun cbsite m =>
            loopN 0 (fun cspin m =>
              compData (cbsite * (2 * ncs)) (Fre cbsite) (Fim cbsite) cspin m) ncs.toNat m)
            n m ((n : Int) * (2 * ncs) + (RE + n_complex * c)))
          (loopN 0 (fun cbsite m =>
            loopN 0 (fun cspin m =>
              compData (cbsite * (2 * ncs)) (Fre cbsite) (Fim cbsite) cspin m) ncs.toNat m)
            n m ((n : Int) * (2 * ncs) + (IM + n_complex * c)))) ncs.toNat =
        sumN (fun c => G (n : Int) c (m ((n : Int) * (2 * ncs) + (RE + n_complex * c)))
          (m ((n : Int) * (2 * ncs) + (IM + n_complex * c)))) ncs.toNat := by
      apply sumN_congr
      intro i hi
      rw [hfr _ (by unfold siteRegion; simp only [RE, n_complex]; omega),
        hfr _ (by unfold siteRegion; simp only [IM, n_complex]; omega)]
    rw [hsum, add_assoc]

/-- Normal form of a kernel that writes and reduces: the data is what the data nest
leaves, and the reduction variable ends as the sum of the terms computed from the
initial content over both checkerboards, all sites and all components. -/
theorem blasLoop_spec {R : Type} [CommRing R] (n ncs : Int)
    (Fre Fim : Int → Int → Int → R → R → R) (G : Int → Int → Int → R → R → R)
    (body : Int → Int → Int → Buf R × R → Buf R × R)
    (hbody : ∀ cb site c m a, body cb site c (m, a) =
      (compData (site * (2 * ncs)) (Fre cb site) (Fim cb site) c m,
        a + G cb site c (m (site * (2 * ncs) + (RE + n_complex * c)))
          (m (site * (2 * ncs) + (IM + n_complex * c)))))
    (d : Int → Buf R) (a : R) :
    blasLoop n ncs body d a =
      (blasData n ncs (fun cb site c m =>
          compData (site * (2 * ncs)) (Fre cb site) (Fim cb site) c m) d,
        a + sumComp n ncs (fun cb site c =>
          G cb site c (d cb (site * (2 * ncs) + (RE + n_complex * c)))
            (d cb (site * (2 * ncs) + (IM + n_complex * c))))) := by
  unfold blasLoop blasData sumComp
  have e : (2 : Int).toNat = 2 := rfl
  rw [forLoop_zero 2, forLoop_zero 2, e]
  have two : (2 : Nat) = 0 + 1 + 1 := rfl
  rw [two, loopN_zero_succ, loopN_zero_succ, loopN_zero_succ, loopN_zero_succ]
  simp only [loopN, sumN, forLoop_zero n]
  rw [sitePair_loop ncs (Fre ((0 : Nat) : Int)) (Fim ((0 : Nat) : Int))
    (G ((0 : Nat) : Int)) _ (fun site c m a => hbody _ site c m a)]
  simp only []
  rw [sitePair_loop ncs (Fre ((0 + 1 : Nat) : Int)) (Fim ((0 + 1 : Nat) : Int))
    (G ((0 + 1 : Nat) : Int)) _ (fun site c m a => hbody _ site c m a)]
  simp [add_assoc]

/-! ## Level-1 BLAS: the kernels -/

theorem sumComp_congr {R : Type} [CommRing R] (n ncs : Int) (f g : Int → Int → Int → R)
    (h : ∀ cb site c, (cb = 0 ∨ cb = 1) → (0 ≤ site ∧ site < n) → (0 ≤ c ∧ c < ncs) →
      f cb site c = g cb site c) :
    sumComp n ncs f = sumComp n ncs g := by
  unfold sumComp
  apply sumN_congr
  intro cb hcb
  apply sumN_congr
  intro site hsite
  apply sumN_congr
  intro c hc
  exact h cb site c (by omega) (by omega) (by omega)

theorem Norm2Vec_eq {R : Type} [CommRing R] (x : CoarseSpinor R) :
    Norm2Vec x = sumComp x.info.n_cb_sites x.GetNumColorSpin (fun cb site c =>
      x.compRe cb site c * x.compRe cb site c + x.compIm cb site c * x.compIm cb site c) := by
  unfold Norm2Vec GlobalSum
  exact (blasReduce_sum _ _ (fun cb site c =>
      x.compRe cb site c * x.compRe cb site c + x.compIm cb site c * x.compIm cb site c) _
    (fun _ _ _ _ => rfl) 0).trans (zero_add _)

theorem XmyNorm2Vec_eq {R : Type} [CommRing R] (x y : CoarseSpinor R)
    (hc : LatticeInfo.compatible x.info y.info) :
    XmyNorm2Vec x y = some
      ({ x with data := blasData x.info.n_cb_sites x.GetNumColorSpin (fun cb site c m =>
          compData (site * (2 * x.GetNumColorSpin))
            (fun c re _ => re - y.compRe cb site c)
            (fun c _ im => im - y.compIm cb site c) c m) x.data },
       sumComp x.info.n_cb_sites x.GetNumColorSpin (fun cb site c =>
          (x.compRe cb site c - y.compRe cb site c)
            * (x.compRe cb site c - y.compRe cb site c)
          + (x.compIm cb site c - y.compIm cb site c)
            * (x.compIm cb site c - y.compIm cb site c))) := by
  unfold XmyNorm2Vec GlobalSum
  rw [if_pos hc]
  have h := blasLoop_spec x.info.n_cb_sites x.GetNumColorSpin
    (fun cb site c re _ => re - y.compRe cb site c)
    (fun cb site c _ im => im - y.compIm cb site c)
    (fun cb site c re im => (re - y.compRe cb site c) * (re - y.compRe cb site c)
      + (im - y.compIm cb site c) * (im - y.compIm cb site c))
    (fun cb cbsite cspin s =>
      (((s.1.store (x.siteOffset cbsite + (RE + n_complex * cspin))
          (s.1 (x.siteOffset cbsite + (RE + n_complex * cspin))
            - y.GetSiteDataPtr cb cbsite (RE + n_complex * cspin))).store
        (x.siteOffset cbsite + (IM + n_complex * cspin))
          (s.1 (x.siteOffset cbsite + (IM + n_complex * cspin))
            - y.GetSiteDataPtr cb cbsite (IM + n_complex * cspin))),
       s.2 + ((s.1 (x.siteOffset cbsite + (RE + n_complex * cspin))
            - y.GetSiteDataPtr cb cbsite (RE + n_complex * cspin))
          * (s.1 (x.siteOffset cbsite + (RE + n_complex * cspin))
            - y.GetSiteDataPtr cb cbsite (RE + n_complex * cspin))
         + (s.1 (x.siteOffset cbsite + (IM + n_complex * cspin))
            - y.GetSiteDataPtr cb cbsite (IM + n_complex * cspin))
          * (s.1 (x.siteOffset cbsite + (IM + n_complex * cspin))
            - y.GetSiteDataPtr cb cbsite (IM + n_complex * cspin)))))
    (fun _ _ _ _ _ => rfl) x.data 0
  rw [zero_add] at h
  simp only []
  rw [h]
  rfl

/-- C11: for compatible `x`, `y`, `XmyNorm2Vec(x, y)` succeeds, replaces every component
`x_i` by `x_i - y_i` (real and imaginary part) on both checkerboards, all sites and all
colorspins, and returns `Σ_i |x_i - y_i|^2`, which is the value `Norm2Vec` returns on the
updated `x`.  (`y` is a read-only argument.) -/
theorem C11_xmynorm2 {R : Type} [CommRing R] (x y : CoarseSpinor R)
    (hc : LatticeInfo.compatible x.info y.info) :
    ∃ x2 r, XmyNorm2Vec x y = some (x2, r) ∧ x2.info = x.info ∧
      (∀ cb site c, x.isComp cb site c →
        x2.compRe cb site c = x.compRe cb site c - y.compRe cb site c ∧
        x2.compIm cb site c = x.compIm cb site c - y.compIm cb site c) ∧
      r = sumComp x.info.n_cb_sites x.GetNumColorSpin (fun cb site c =>
          (x.compRe cb site c - y.compRe cb site c)
            * (x.compRe cb site c - y.compRe cb site c)
          + (x.compIm cb site c - y.compIm cb site c)
            * (x.compIm cb site c - y.compIm cb site c)) ∧
      Norm2Vec x2 = r := by
  have hv : ∀ cb site c, x.isComp cb site c →
      blasData x.info.n_cb_sites x.GetNumColorSpin (fun cb site c m =>
          compData (site * (2 * x.GetNumColorSpin))
            (fun c re _ => re - y.compRe cb site c)
            (fun c _ im => im - y.compIm cb site c) c m) x.data cb
          (site * (2 * x.GetNumColorSpin) + (RE + n_complex * c)) =
        x.compRe cb site c - y.compRe cb site c ∧
      blasData x.info.n_cb_sites x.GetNumColorSpin (fun cb site c m =>
          compData (site * (2 * x.GetNumColorSpin))
            (fun c re _ => re - y.compRe cb site c)
            (fun c _ im => im - y.compIm cb site c) c m) x.data cb
          (site * (2 * x.GetNumColorSpin) + (IM + n_complex * c)) =
        x.compIm cb site c - y.compIm cb site c := by
    intro cb site c h
    exact blasData_value x.info.n_cb_sites x.GetNumColorSpin
      (fun cb site c re _ => re - y.compRe cb site c)
      (fun cb site c _ im => im - y.compIm cb site c) _ (fun _ _ _ _ => rfl) x.data
      cb site c h.1 h.2.1.1 h.2.1.2 h.2.2.1 h.2.2.2
  refine ⟨_, _, XmyNorm2Vec_eq x y hc, rfl, fun cb site c h => hv cb site c h, rfl, ?_⟩
  rw [Norm2Vec_eq]
  apply sumComp_congr
  intro cb site c h1 h2 h3
  have := hv cb site c ⟨h1, h2, h3⟩
  show (blasData _ _ _ x.data cb (site * (2 * x.GetNumColorSpin) + (RE + n_complex * c))) *
      (blasData _ _ _ x.data cb (site * (2 * x.GetNumColorSpin) + (RE + n_complex * c))) +
      (blasData _ _ _ x.data cb (site * (2 * x.GetNumColorSpin) + (IM + n_complex * c))) *
      (blasData _ _ _ x.data cb (site * (2 * x.GetNumColorSpin) + (IM + n_complex * c))) = _
  rw [this.1, this.2]

/-- Witness of C11: floats 5 minus floats 3 on the one-site lattice with two colorspins:
8 floats, each difference 2, squared norm 32. -/
theorem C11_xmynorm2_witness :
    (XmyNorm2Vec (constSpinor 1 2 5) (constSpinor 1 2 3)).map Prod.snd = some 32 ∧
    ∃ x2 r, XmyNorm2Vec (constSpinor 1 2 5) (constSpinor 1 2 3) = some (x2, r) ∧
      x2.info = (constSpinor 1 2 5).info ∧
      (∀ cb site c, (constSpinor 1 2 5).isComp cb site c →
        x2.compRe cb site c =
          (constSpinor 1 2 5).compRe cb site c - (constSpinor 1 2 3).compRe cb site c ∧
        x2.compIm cb site c =
          (constSpinor 1 2 5).compIm cb site c - (constSpinor 1 2 3).compIm cb site c) ∧
      r = sumComp (constSpinor 1 2 5).info.n_cb_sites (constSpinor 1 2 5).GetNumColorSpin
        (fun cb site c =>
          ((constSpinor 1 2 5).compRe cb site c - (constSpinor 1 2 3).compRe cb site c)
            * ((constSpinor 1 2 5).compRe cb site c - (constSpinor 1 2 3).compRe cb site c)
          + ((constSpinor 1 2 5).compIm cb site c - (constSpinor 1 2 3).compIm cb site c)
            * ((constSpinor 1 2 5).compIm cb site c
                - (constSpinor 1 2 3).compIm cb site c)) ∧
      Norm2Vec x2 = r :=
  ⟨by decide, C11_xmynorm2 (constSpinor 1 2 5) (constSpinor 1 2 3) (by decide)⟩

theorem sumN_fst {R : Type} [CommRing R] (f : Int → R × R) (k : Nat) :
    (sumN f k).1 = sumN (fun i => (f i).1) k := by
  induction k with
  | zero => rfl
  | succ k ih => simp only [sumN, Prod.fst_add, ih]

theorem sumN_snd {R : Type} [CommRing R] (f : Int → R × R) (k : Nat) :
    (sumN f k).2 = sumN (fun i => (f i).2) k := by
  induction k with
  | zero => rfl
  | succ k ih => simp only [sumN, Prod.snd_add, ih]

theorem sumComp_pair {R : Type} [CommRing R] (n ncs : Int) (p q : Int → Int → Int → R) :
    sumComp n ncs (fun cb site c => (p cb site c, q cb site c)) =
      (sumComp n ncs p, sumComp n ncs q) := by
  unfold sumComp
  apply Prod.ext
  · simp only [sumN_fst]
  · simp only [sumN_snd]

theorem sumN_neg {R : Type} [CommRing R] (f : Int → R) (k : Nat) :
    sumN (fun i => - f i) k = - sumN f k := by
  induction k with
  | zero => simp [sumN]
  | succ k ih => simp only [sumN, ih]; ring

theorem sumComp_neg {R : Type} [CommRing R] (n ncs : Int) (f : Int → Int → Int → R) :
    sumComp n ncs (fun cb site c => - f cb site c) = - sumComp n ncs f := by
  unfold sumComp
  simp only [sumN_neg]

theorem InnerProductVec_eq {R : Type} [CommRing R] (x y : CoarseSpinor R)
    (hc : LatticeInfo.compatible x.info y.info) :
    InnerProductVec x y = some
      (sumComp x.info.n_cb_sites x.GetNumColorSpin (fun cb site c =>
          x.compRe cb site c * y.compRe cb site c + x.compIm cb site c * y.compIm cb site c),
       sumComp x.info.n_cb_sites x.GetNumColorSpin (fun cb site c =>
          x.compRe cb site c * y.compIm cb site c
            - x.compIm cb site c * y.compRe cb site c)) := by
  unfold InnerProductVec GlobalSumArray
  rw [if_pos hc]
  have h := blasReduce_sum x.info.n_cb_sites x.GetNumColorSpin
    (fun cb site c =>
      (x.compRe cb site c * y.compRe cb site c + x.compIm cb site c * y.compIm cb site c,
       x.compRe cb site c * y.compIm cb site c - x.compIm cb site c * y.compRe cb site c))
    (fun cb cbsite cspin (iprod : R × R) =>
      (iprod.1
        + (x.GetSiteDataPtr cb cbsite (RE + n_complex * cspin)
            * y.GetSiteDataPtr cb cbsite (RE + n_complex * cspin)
          + x.GetSiteDataPtr cb cbsite (IM + n_complex * cspin)
            * y.GetSiteDataPtr cb cbsite (IM + n_complex * cspin)),
       iprod.2
        + (x.GetSiteDataPtr cb cbsite (RE + n_complex * cspin)
            * y.GetSiteDataPtr cb cbsite (IM + n_complex * cspin)
          - x.GetSiteDataPtr cb cbsite (IM + n_complex * cspin)
            * y.GetSiteDataPtr cb cbsite (RE + n_complex * cspin))))
    (fun _ _ _ _ => rfl) (0, 0)
  rw [sumComp_pair] at h
  simp only []
  rw [h]
  simp

/-- C12: for compatible `x`, `y`, `InnerProductVec(x, y)` succeeds and returns
`Σ_i conj(x_i) y_i` over both checkerboards, all sites and all colorspin components: real
part `Σ (x_re y_re + x_im y_im)`, imaginary part `Σ (x_re y_im - x_im y_re)`.  (Both
operands are read-only arguments.) -/
theorem C12_inner_product {R : Type} [CommRing R] (x y : CoarseSpinor R)
    (hc : LatticeInfo.compatible x.info y.info) :
    ∃ re im, InnerProductVec x y = some (re, im) ∧
      re = sumComp x.info.n_cb_sites x.GetNumColorSpin (fun cb site c =>
        x.compRe cb site c * y.compRe cb site c + x.compIm cb site c * y.compIm cb site c) ∧
      im = sumComp x.info.n_cb_sites x.GetNumColorSpin (fun cb site c =>
        x.compRe cb site c * y.compIm cb site c - x.compIm cb site c * y.compRe cb site c) ∧
      re = sumComp x.info.n_cb_sites x.GetNumColorSpin (fun cb site c =>
        cmulRe (x.compRe cb site c) (- x.compIm cb site c)
          (y.compRe cb site c) (y.compIm cb site c)) ∧
      im = sumComp x.info.n_cb_sites x.GetNumColorSpin (fun cb site c =>
        cmulIm (x.compRe cb site c) (- x.compIm cb site c)
          (y.compRe cb site c) (y.compIm cb site c)) := by
  refine ⟨_, _, InnerProductVec_eq x y hc, rfl, rfl, ?_, ?_⟩
  · apply sumComp_congr
    intro cb site c _ _ _
    simp only [cmulRe]
    ring
  · apply sumComp_congr
    intro cb site c _ _ _
    simp only [cmulIm]
    ring

/-- C13: for compatible `x`, `y`, `InnerProductVec(x, y)` is the complex conjugate of
`InnerProductVec(y, x)`: both calls succeed, the real parts are equal and the imaginary
parts are negatives of each other. -/
theorem C13_inner_product_conj_symm {R : Type} [CommRing R] (x y : CoarseSpinor R)
    (hc : LatticeInfo.compatible x.info y.info) :
    ∃ re im, InnerProductVec x y = some (re, im) ∧
      InnerProductVec y x = some (re, - im) := by
  have hc2 : LatticeInfo.compatible y.info x.info := by
    unfold LatticeInfo.compatible at hc ⊢
    obtain ⟨h1, h2, h3, h4, h5, h6, h7⟩ := hc
    exact ⟨h1.symm, h2.symm, h3.symm, h4.symm, h5.symm, h6.symm, h7.symm⟩
  have hn : y.info.n_cb_sites = x.info.n_cb_sites := hc.2.2.2.2.1.symm
  have hcs : y.GetNumColorSpin = x.GetNumColorSpin := by
    unfold CoarseSpinor.GetNumColorSpin
    rw [hc.2.2.2.2.2.1, hc.2.2.2.2.2.2]
  refine ⟨_, _, InnerProductVec_eq x y hc, ?_⟩
  rw [InnerProductVec_eq y x hc2, hn, hcs, ← sumComp_neg]
  congr 2
  · apply sumComp_congr
    intro cb site c _ _ _
    ring
  · apply sumComp_congr
    intro cb site c _ _ _
    ring

/-- Witness of C12: floats 2 against floats 3 on the one-site lattice with two
colorspins: 4 components, each `conj(2+2i)(3+3i) = 12 + 0i`. -/
theorem C12_inner_product_witness :
    InnerProductVec (constSpinor 1 2 2) (constSpinor 1 2 3) = some (48, 0) ∧
    ∃ re im, InnerProductVec (constSpinor 1 2 2) (constSpinor 1 2 3) = some (re, im) ∧
      re = sumComp (constSpinor 1 2 2).info.n_cb_sites (constSpinor 1 2 2).GetNumColorSpin
        (fun cb site c =>
          (constSpinor 1 2 2).compRe cb site c * (constSpinor 1 2 3).compRe cb site c
          + (constSpinor 1 2 2).compIm cb site c * (constSpinor 1 2 3).compIm cb site c) ∧
      im = sumComp (constSpinor 1 2 2).info.n_cb_sites (constSpinor 1 2 2).GetNumColorSpin
        (fun cb site c =>
          (constSpinor 1 2 2).compRe cb site c * (constSpinor 1 2 3).compIm cb site c
          - (constSpinor 1 2 2).compIm cb site c * (constSpinor 1 2 3).compRe cb site c) ∧
      re = sumComp (constSpinor 1 2 2).info.n_cb_sites (constSpinor 1 2 2).GetNumColorSpin
        (fun cb site c =>
          cmulRe ((constSpinor 1 2 2).compRe cb site c)
            (- (constSpinor 1 2 2).compIm cb site c)
            ((constSpinor 1 2 3).compRe cb site c) ((constSpinor 1 2 3).compIm cb site c)) ∧
      im = sumComp (constSpinor 1 2 2).info.n_cb_sites (constSpinor 1 2 2).GetNumColorSpin
        (fun cb site c =>
          cmulIm ((constSpinor 1 2 2).compRe cb site c)
            (- (constSpinor 1 2 2).compIm cb site c)
            ((constSpinor 1 2 3).compRe cb site c) ((constSpinor 1 2 3).compIm cb site c)) :=
  ⟨by decide, C12_inner_product (constSpinor 1 2 2) (constSpinor 1 2 3) (by decide)⟩

/-- Witness of C13: `x` with components `1 + 2i` and `y` with components `3 + 5i` on the
one-site lattice with two colorspins: `<x|y> = 52 - 4i` and `<y|x> = 52 + 4i`. -/
theorem C13_inner_product_conj_symm_witness :
    InnerProductVec (reimSpinor 1 2 1 2) (reimSpinor 1 2 3 5) = some (52, -4) ∧
    InnerProductVec (reimSpinor 1 2 3 5) (reimSpinor 1 2 1 2) = some (52, 4) ∧
    ∃ re im, InnerProductVec (reimSpinor 1 2 1 2) (reimSpinor 1 2 3 5) = some (re, im) ∧
      InnerProductVec (reimSpinor 1 2 3 5) (reimSpinor 1 2 1 2) = some (re, - im) :=
  ⟨by decide, by decide,
   C13_inner_product_conj_symm (reimSpinor 1 2 1 2) (reimSpinor 1 2 3 5) (by decide)⟩

theorem compatible_refl (a : LatticeInfo) : LatticeInfo.compatible a a :=
  ⟨rfl, rfl, rfl, rfl, rfl, rfl, rfl⟩

theorem compatible_ncs {R : Type} (x y : CoarseSpinor R)
    (hc : LatticeInfo.compatible x.info y.info) :
    y.info.n_cb_sites = x.info.n_cb_sites ∧ y.GetNumColorSpin = x.GetNumColorSpin := by
  refine ⟨hc.2.2.2.2.1.symm, ?_⟩
  unfold CoarseSpinor.GetNumColorSpin
  rw [hc.2.2.2.2.2.1, hc.2.2.2.2.2.2]

theorem store_other {R : Type} (m : Buf R) (i j : Int) (v : R) (h : j ≠ i) :
    (m.store i v) j = m j := by
  unfold Buf.store
  rw [if_neg h]

theorem re_ne_im (o c : Int) : o + (IM + n_complex * c) ≠ o + (RE + n_complex * c) := by
  simp only [RE, IM, n_complex]
  omega

/-- Every float of the region of a site is the real or the imaginary part of one of its
components. -/
theorem siteRegion_comp (ncs site j : Int) (h : siteRegion ncs site j) :
    ∃ c, (0 ≤ c ∧ c < ncs) ∧
      (j = site * (2 * ncs) + (RE + n_complex * c) ∨
       j = site * (2 * ncs) + (IM + n_complex * c)) := by
  unfold siteRegion at h
  refine ⟨(j - site * (2 * ncs)) / 2, by omega, ?_⟩
  simp only [RE, IM, n_complex]
  omega

/-- Two runs of data kernels in normal form leave the same data when they agree on the
new value of every component and their initial data agree outside the components. -/
theorem blasData_congr {R : Type} (n ncs : Int)
    (Fre1 Fim1 Fre2 Fim2 : Int → Int → Int → R → R → R)
    (body1 body2 : Int → Int → Int → Buf R → Buf R)
    (hbody1 : ∀ cb site c m,
      body1 cb site c m = compData (site * (2 * ncs)) (Fre1 cb site) (Fim1 cb site) c m)
    (hbody2 : ∀ cb site c m,
      body2 cb site c m = compData (site * (2 * ncs)) (Fre2 cb site) (Fim2 cb site) c m)
    (d1 d2 : Int → Buf R)
    (hval : ∀ cb site c, (cb = 0 ∨ cb = 1) → (0 ≤ site ∧ site < n) → (0 ≤ c ∧ c < ncs) →
      Fre1 cb site c (d1 cb (site * (2 * ncs) + (RE + n_complex * c)))
          (d1 cb (site * (2 * ncs) + (IM + n_complex * c))) =
        Fre2 cb site c (d2 cb (site * (2 * ncs) + (RE + n_complex * c)))
          (d2 cb (site * (2 * ncs) + (IM + n_complex * c))) ∧
      Fim1 cb site c (d1 cb (site * (2 * ncs) + (RE + n_complex * c)))
          (d1 cb (site * (2 * ncs) + (IM + n_complex * c))) =
        Fim2 cb site c (d2 cb (site * (2 * ncs) + (RE + n_complex * c)))
          (d2 cb (site * (2 * ncs) + (IM + n_complex * c))))
    (hframe : ∀ cb j,
      (¬ (cb = 0 ∨ cb = 1) ∨ ∀ site, 0 ≤ site → site < n → ¬ siteRegion ncs site j) →
      d1 cb j = d2 cb j) :
    blasData n ncs body1 d1 = blasData n ncs body2 d2 := by
  funext cb j
  by_cases hin : (cb = 0 ∨ cb = 1) ∧ ∃ site, (0 ≤ site ∧ site < n) ∧ siteRegion ncs site j
  · obtain ⟨hcb, site, hs, hreg⟩ := hin
    obtain ⟨c, hc, hj⟩ := siteRegion_comp ncs site j hreg
    have v1 := blasData_value n ncs Fre1 Fim1 body1 hbody1 d1 cb site c hcb hs.1 hs.2
      hc.1 hc.2
    have v2 := blasData_value n ncs Fre2 Fim2 body2 hbody2 d2 cb site c hcb hs.1 hs.2
      hc.1 hc.2
    have hv := hval cb site c hcb hs hc
    rcases hj with hj | hj
    · rw [hj, v1.1, v2.1, hv.1]
    · rw [hj, v1.2, v2.2, hv.2]
  · have hout : ¬ (cb = 0 ∨ cb = 1) ∨
        ∀ site, 0 ≤ site → site < n → ¬ siteRegion ncs site j := by
      by_cases hcb : cb = 0 ∨ cb = 1
      · right
        intro site h0 h1 hreg
        exact hin ⟨hcb, site, ⟨h0, h1⟩, hreg⟩
      · exact Or.inl hcb
    rw [blasData_frame n ncs Fre1 Fim1 body1 hbody1 d1 cb j hout,
      blasData_frame n ncs Fre2 Fim2 body2 hbody2 d2 cb j hout]
    exact hframe cb j hout

theorem sumComp_zero {R : Type} [CommRing R] (n ncs : Int) :
    sumComp n ncs (fun _ _ _ => (0 : R)) = 0 := by
  unfold sumComp
  exact sumN_zero _ (fun _ => sumN_zero _ (fun _ => sumN_zero _ (fun _ => rfl) _) _) _

theorem sumN_mul_left {R : Type} [CommRing R] (a : R) (f : Int → R) (k : Nat) :
    sumN (fun i => a * f i) k = a * sumN f k := by
  induction k with
  | zero => simp [sumN]
  | succ k ih => simp only [sumN, ih]; ring

theorem sumComp_mul_left {R : Type} [CommRing R] (n ncs : Int) (a : R)
    (f : Int → Int → Int → R) :
    sumComp n ncs (fun cb site c => a * f cb site c) = a * sumComp n ncs f := by
  unfold sumComp
  simp only [sumN_mul_left]

/-- Normal form of the body of `ZeroVec`. -/
theorem ZeroVec_comp {R : Type} [CommRing R] (x : CoarseSpinor R) (cb site c : Int)
    (h : x.isComp cb site c) :
    (ZeroVec x).compRe cb site c = 0 ∧ (ZeroVec x).compIm cb site c = 0 :=
  blasData_value x.info.n_cb_sites x.GetNumColorSpin
    (fun _ _ _ _ _ => 0) (fun _ _ _ _ _ => 0) _ (fun _ _ _ _ => rfl) x.data
    cb site c h.1 h.2.1.1 h.2.1.2 h.2.2.1 h.2.2.2

/-- C18: after `ZeroVec(x)` every real and imaginary part on both checkerboards, all
sites and all colorspins is 0, and `Norm2Vec` of the result returns exactly 0. -/
theorem C18_zero_vec {R : Type} [CommRing R] (x : CoarseSpinor R) :
    (ZeroVec x).info = x.info ∧
    (∀ cb site c, x.isComp cb site c →
      (ZeroVec x).compRe cb site c = 0 ∧ (ZeroVec x).compIm cb site c = 0) ∧
    Norm2Vec (ZeroVec x) = 0 := by
  refine ⟨rfl, fun cb site c h => ZeroVec_comp x cb site c h, ?_⟩
  rw [Norm2Vec_eq, ← sumComp_zero (ZeroVec x).info.n_cb_sites (ZeroVec x).GetNumColorSpin]
  apply sumComp_congr
  intro cb site c h1 h2 h3
  obtain ⟨a, b⟩ := ZeroVec_comp x cb site c ⟨h1, h2, h3⟩
  rw [a, b]
  ring

/-- Normal form of the body of `CopyVec`. -/
theorem CopyVec_eq {R : Type} [CommRing R] (x y : CoarseSpinor R)
    (hc : LatticeInfo.compatible x.info y.info) :
    CopyVec x y = some
      { info := x.info,
        data := blasData x.info.n_cb_sites x.GetNumColorSpin (fun cb site c m =>
          compData (site * (2 * x.GetNumColorSpin))
            (fun c _ _ => y.compRe cb site c) (fun c _ _ => y.compIm cb site c) c m)
          x.data } := by
  unfold CopyVec
  rw [if_pos hc]
  rfl

/-- C17: for compatible `x`, `y`, `CopyVec(x, y)` succeeds, afterwards every component of
`x` equals the corresponding component of `y`, and a second `CopyVec(x, y)` leaves `x`
exactly as the first call left it.  (`y` is a read-only argument.) -/
theorem C17_copy_vec {R : Type} [CommRing R] (x y : CoarseSpinor R)
    (hc : LatticeInfo.compatible x.info y.info) :
    ∃ x2, CopyVec x y = some x2 ∧ x2.info = x.info ∧
      (∀ cb site c, x.isComp cb site c →
        x2.compRe cb site c = y.compRe cb site c ∧
        x2.compIm cb site c = y.compIm cb site c) ∧
      CopyVec x2 y = some x2 := by
  refine ⟨_, CopyVec_eq x y hc, rfl, fun cb site c h => ?_, ?_⟩
  · exact blasData_value x.info.n_cb_sites x.GetNumColorSpin
      (fun cb site c _ _ => y.compRe cb site c) (fun cb site c _ _ => y.compIm cb site c)
      _ (fun _ _ _ _ => rfl) x.data cb site c h.1 h.2.1.1 h.2.1.2 h.2.2.1 h.2.2.2
  · rw [CopyVec_eq _ y (by exact hc)]
    congr 2
    exact blasData_congr x.info.n_cb_sites x.GetNumColorSpin
      (fun cb site c _ _ => y.compRe cb site c) (fun cb site c _ _ => y.compIm cb site c)
      (fun cb site c _ _ => y.compRe cb site c) (fun cb site c _ _ => y.compIm cb site c)
      _ _ (fun _ _ _ _ => rfl) (fun _ _ _ _ => rfl) _ x.data
      (fun _ _ _ _ _ _ => ⟨rfl, rfl⟩)
      (fun cb j hout => blasData_frame x.info.n_cb_sites x.GetNumColorSpin
        (fun cb site c _ _ => y.compRe cb site c) (fun cb site c _ _ => y.compIm cb site c)
        _ (fun _ _ _ _ => rfl) x.data cb j hout)

/-- Witness of C17: copying floats 3 over floats 5 on the one-site lattice. -/
theorem C17_copy_vec_witness :
    ∃ x2, CopyVec (constSpinor 1 2 5) (constSpinor 1 2 3) = some x2 ∧
      x2.info = (constSpinor 1 2 5).info ∧
      (∀ cb site c, (constSpinor 1 2 5).isComp cb site c →
        x2.compRe cb site c = (constSpinor 1 2 3).compRe cb site c ∧
        x2.compIm cb site c = (constSpinor 1 2 3).compIm cb site c) ∧
      CopyVec x2 (constSpinor 1 2 3) = some x2 :=
  C17_copy_vec (constSpinor 1 2 5) (constSpinor 1 2 3) (by decide)

/-- Normal form of the body of the real `ScaleVec`: the second statement reads the
imaginary part, which the first statement has not touched. -/
theorem ScaleVecReal_eq {R : Type} [CommRing R] (alpha : R) (x : CoarseSpinor R) :
    ScaleVecReal alpha x =
      { info := x.info,
        data := blasData x.info.n_cb_sites x.GetNumColorSpin (fun _cb site c m =>
          compData (site * (2 * x.GetNumColorSpin))
            (fun _ re _ => re * alpha) (fun _ _ im => im * alpha) c m) x.data } := by
  unfold ScaleVecReal
  simp only []
  refine congrArg
    (fun b => CoarseSpinor.mk x.info (blasData x.info.n_cb_sites x.GetNumColorSpin b x.data))
    ?_
  funext cb site c m
  unfold compData
  rw [store_other _ _ _ _ (re_ne_im _ _)]
  rfl

theorem ScaleVecComplex_eq {R : Type} [CommRing R] (alpha_re alpha_im : R)
    (x : CoarseSpinor R) :
    ScaleVecComplex alpha_re alpha_im x =
      { info := x.info,
        data := blasData x.info.n_cb_sites x.GetNumColorSpin (fun _cb site c m =>
          compData (site * (2 * x.GetNumColorSpin))
            (fun _ re im => cmulRe re im alpha_re alpha_im)
            (fun _ re im => cmulIm re im alpha_re alpha_im) c m) x.data } := rfl

/-- C16: `ScaleVec(alpha, x)` sets every component `x_i` to `alpha x_i` (complex product)
on both checkerboards, all sites and all colorspins, for the complex overload and for the
real overload, and the real overload gives the same spinor as the complex overload
called with `alpha + 0i`. -/
theorem C16_scale_vec {R : Type} [CommRing R] (alpha_re alpha_im : R)
    (x : CoarseSpinor R) :
    (∀ cb site c, x.isComp cb site c →
      (ScaleVecComplex alpha_re alpha_im x).compRe cb site c =
        cmulRe alpha_re alpha_im (x.compRe cb site c) (x.compIm cb site c) ∧
      (ScaleVecComplex alpha_re alpha_im x).compIm cb site c =
        cmulIm alpha_re alpha_im (x.compRe cb site c) (x.compIm cb site c)) ∧
    (∀ cb site c, x.isComp cb site c →
      (ScaleVecReal alpha_re x).compRe cb site c = alpha_re * x.compRe cb site c ∧
      (ScaleVecReal alpha_re x).compIm cb site c = alpha_re * x.compIm cb site c) ∧
    ScaleVecReal alpha_re x = ScaleVecComplex alpha_re 0 x := by
  refine ⟨fun cb site c h => ?_, fun cb site c h => ?_, ?_⟩
  · have v := blasData_value x.info.n_cb_sites x.GetNumColorSpin
      (fun _ _ _ re im => cmulRe re im alpha_re alpha_im)
      (fun _ _ _ re im => cmulIm re im alpha_re alpha_im) _ (fun _ _ _ _ => rfl) x.data
      cb site c h.1 h.2.1.1 h.2.1.2 h.2.2.1 h.2.2.2
    rw [ScaleVecComplex_eq]
    constructor
    · refine v.1.trans ?_
      show cmulRe (x.compRe cb site c) (x.compIm cb site c) alpha_re alpha_im =
        cmulRe alpha_re alpha_im (x.compRe cb site c) (x.compIm cb site c)
      simp only [cmulRe]
      ring
    · refine v.2.trans ?_
      show cmulIm (x.compRe cb site c) (x.compIm cb site c) alpha_re alpha_im =
        cmulIm alpha_re alpha_im (x.compRe cb site c) (x.compIm cb site c)
      simp only [cmulIm]
      ring
  · have v := blasData_value x.info.n_cb_sites x.GetNumColorSpin
      (fun _ _ _ re _ => re * alpha_re) (fun _ _ _ _ im => im * alpha_re) _
      (fun _ _ _ _ => rfl) x.data cb site c h.1 h.2.1.1 h.2.1.2 h.2.2.1 h.2.2.2
    rw [ScaleVecReal_eq]
    exact ⟨v.1.trans (mul_comm _ _), v.2.trans (mul_comm _ _)⟩
  · rw [ScaleVecReal_eq, ScaleVecComplex_eq]
    congr 1
    exact blasData_congr x.info.n_cb_sites x.GetNumColorSpin
      (fun _ _ _ re _ => re * alpha_re) (fun _ _ _ _ im => im * alpha_re)
      (fun _ _ _ re im => cmulRe re im alpha_re 0)
      (fun _ _ _ re im => cmulIm re im alpha_re 0)
      _ _ (fun _ _ _ _ => rfl) (fun _ _ _ _ => rfl) x.data x.data
      (fun _ _ _ _ _ _ => ⟨by simp only [cmulRe]; ring, by simp only [cmulIm]; ring⟩)
      (fun _ _ _ => rfl)

/-- Normal form of the complex `AxpyVec` on compatible operands. -/
theorem AxpyVecComplex_eq {R : Type} [CommRing R] (alpha_re alpha_im : R)
    (x y : CoarseSpinor R) (hc : LatticeInfo.compatible x.info y.info) :
    AxpyVecComplex alpha_re alpha_im x y = some
      (CoarseSpinor.mk y.info
        (blasData y.info.n_cb_sites y.GetNumColorSpin (fun cb site c m =>
          compData (site * (2 * y.GetNumColorSpin))
            (fun c re _ => re + cmulRe alpha_re alpha_im (x.compRe cb site c)
              (x.compIm cb site c))
            (fun c _ im => im + cmulIm alpha_re alpha_im (x.compRe cb site c)
              (x.compIm cb site c)) c m) y.data)) := by
  obtain ⟨hn, hs⟩ := compatible_ncs x y hc
  unfold AxpyVecComplex
  rw [if_pos hc]
  simp only []
  rw [← hn, ← hs]
  rfl

/-- Normal form of the real `AxpyVec` on compatible operands. -/
theorem AxpyVecReal_eq {R : Type} [CommRing R] (alpha : R)
    (x y : CoarseSpinor R) (hc : LatticeInfo.compatible x.info y.info) :
    AxpyVecReal alpha x y = some
      (CoarseSpinor.mk y.info
        (blasData y.info.n_cb_sites y.GetNumColorSpin (fun cb site c m =>
          compData (site * (2 * y.GetNumColorSpin))
            (fun c re _ => re + alpha * x.compRe cb site c)
            (fun c _ im => im + alpha * x.compIm cb site c) c m) y.data)) := by
  obtain ⟨hn, hs⟩ := compatible_ncs x y hc
  unfold AxpyVecReal
  rw [if_pos hc]
  simp only []
  rw [← hn, ← hs]
  refine congrArg
    (fun b => some (CoarseSpinor.mk y.info
      (blasData y.info.n_cb_sites y.GetNumColorSpin b y.data))) ?_
  funext cb site c m
  unfold compData
  rw [store_other _ _ _ _ (re_ne_im _ _)]
  rfl

theorem AxpyVecComplex_comp {R : Type} [CommRing R] (alpha_re alpha_im : R)
    (x y : CoarseSpinor R) (cb site c : Int) (h : y.isComp cb site c) :
    (CoarseSpinor.mk y.info
        (blasData y.info.n_cb_sites y.GetNumColorSpin (fun cb site c m =>
          compData (site * (2 * y.GetNumColorSpin))
            (fun c re _ => re + cmulRe alpha_re alpha_im (x.compRe cb site c)
              (x.compIm cb site c))
            (fun c _ im => im + cmulIm alpha_re alpha_im (x.compRe cb site c)
              (x.compIm cb site c)) c m) y.data)).compRe cb site c =
      y.compRe cb site c
        + cmulRe alpha_re alpha_im (x.compRe cb site c) (x.compIm cb site c) ∧
    (CoarseSpinor.mk y.info
        (blasData y.info.n_cb_sites y.GetNumColorSpin (fun cb site c m =>
          compData (site * (2 * y.GetNumColorSpin))
            (fun c re _ => re + cmulRe alpha_re alpha_im (x.compRe cb site c)
              (x.compIm cb site c))
            (fun c _ im => im + cmulIm alpha_re alpha_im (x.compRe cb site c)
              (x.compIm cb site c)) c m) y.data)).compIm cb site c =
      y.compIm cb site c
        + cmulIm alpha_re alpha_im (x.compRe cb site c) (x.compIm cb site c) :=
  blasData_value y.info.n_cb_sites y.GetNumColorSpin
    (fun cb site c re _ => re + cmulRe alpha_re alpha_im (x.compRe cb site c)
      (x.compIm cb site c))
    (fun cb site c _ im => im + cmulIm alpha_re alpha_im (x.compRe cb site c)
      (x.compIm cb site c)) _ (fun _ _ _ _ => rfl) y.data
    cb site c h.1 h.2.1.1 h.2.1.2 h.2.2.1 h.2.2.2

theorem AxpyVecReal_comp {R : Type} [CommRing R] (alpha : R)
    (x y : CoarseSpinor R) (cb site c : Int) (h : y.isComp cb site c) :
    (CoarseSpinor.mk y.info
        (blasData y.info.n_cb_sites y.GetNumColorSpin (fun cb site c m =>
          compData (site * (2 * y.GetNumColorSpin))
            (fun c re _ => re + alpha * x.compRe cb site c)
            (fun c _ im => im + alpha * x.compIm cb site c) c m) y.data)).compRe cb site c =
      y.compRe cb site c + alpha * x.compRe cb site c ∧
    (CoarseSpinor.mk y.info
        (blasData y.info.n_cb_sites y.GetNumColorSpin (fun cb site c m =>
          compData (site * (2 * y.GetNumColorSpin))
            (fun c re _ => re + alpha * x.compRe cb site c)
            (fun c _ im => im + alpha * x.compIm cb site c) c m) y.data)).compIm cb site c =
      y.compIm cb site c + alpha * x.compIm cb site c :=
  blasData_value y.info.n_cb_sites y.GetNumColorSpin
    (fun cb site c re _ => re + alpha * x.compRe cb site c)
    (fun cb site c _ im => im + alpha * x.compIm cb site c) _ (fun _ _ _ _ => rfl) y.data
    cb site c h.1 h.2.1.1 h.2.1.2 h.2.2.1 h.2.2.2

/-- C15: for compatible `x`, `y`, `AxpyVec(alpha, x, y)` succeeds and sets every
component `y_i` to `y_i + alpha x_i` (complex product) on both checkerboards, all sites
and all colorspins, for the complex and for the real overload, and the real overload
gives the same result as the complex overload called with `alpha + 0i`.  (`x` is a
read-only argument.) -/
theorem C15_axpy_vec {R : Type} [CommRing R] (alpha_re alpha_im : R)
    (x y : CoarseSpinor R) (hc : LatticeInfo.compatible x.info y.info) :
    (∃ y2, AxpyVecComplex alpha_re alpha_im x y = some y2 ∧ y2.info = y.info ∧
      ∀ cb site c, y.isComp cb site c →
        y2.compRe cb site c = y.compRe cb site c
          + cmulRe alpha_re alpha_im (x.compRe cb site c) (x.compIm cb site c) ∧
        y2.compIm cb site c = y.compIm cb site c
          + cmulIm alpha_re alpha_im (x.compRe cb site c) (x.compIm cb site c)) ∧
    (∃ y3, AxpyVecReal alpha_re x y = some y3 ∧ y3.info = y.info ∧
      ∀ cb site c, y.isComp cb site c →
        y3.compRe cb site c = y.compRe cb site c + alpha_re * x.compRe cb site c ∧
        y3.compIm cb site c = y.compIm cb site c + alpha_re * x.compIm cb site c) ∧
    AxpyVecReal alpha_re x y = AxpyVecComplex alpha_re 0 x y := by
  refine ⟨⟨_, AxpyVecComplex_eq alpha_re alpha_im x y hc, rfl,
      fun cb site c h => AxpyVecComplex_comp alpha_re alpha_im x y cb site c h⟩,
    ⟨_, AxpyVecReal_eq alpha_re x y hc, rfl,
      fun cb site c h => AxpyVecReal_comp alpha_re x y cb site c h⟩, ?_⟩
  rw [AxpyVecReal_eq alpha_re x y hc, AxpyVecComplex_eq alpha_re 0 x y hc]
  refine congrArg (fun d => some (CoarseSpinor.mk y.info d)) ?_
  exact blasData_congr y.info.n_cb_sites y.GetNumColorSpin
    (fun cb site c re _ => re + alpha_re * x.compRe cb site c)
    (fun cb site c _ im => im + alpha_re * x.compIm cb site c)
    (fun cb site c re _ => re + cmulRe alpha_re 0 (x.compRe cb site c) (x.compIm cb site c))
    (fun cb site c _ im => im + cmulIm alpha_re 0 (x.compRe cb site c) (x.compIm cb site c))
    _ _ (fun _ _ _ _ => rfl) (fun _ _ _ _ => rfl) y.data y.data
    (fun _ _ _ _ _ _ => ⟨by simp only [cmulRe]; ring, by simp only [cmulIm]; ring⟩)
    (fun _ _ _ => rfl)

/-- Witness of C15: `y` with components `3 + 5i`, `x` with components `1 + 2i`,
`alpha = 2 + i`; the real part of a component becomes `3 + (2*1 - 1*2) = 3`. -/
theorem C15_axpy_vec_witness :
    (AxpyVecComplex 2 1 (reimSpinor 1 2 1 2) (reimSpinor 1 2 3 5)).map
      (fun y2 => (y2.compRe 0 0 1, y2.compIm 0 0 1)) = some (3, 10) ∧
    (AxpyVecReal 2 (reimSpinor 1 2 1 2) (reimSpinor 1 2 3 5)).map
      (fun y3 => (y3.compRe 1 0 0, y3.compIm 1 0 0)) = some (5, 9) ∧
    AxpyVecReal 2 (reimSpinor 1 2 1 2) (reimSpinor 1 2 3 5) =
      AxpyVecComplex 2 0 (reimSpinor 1 2 1 2) (reimSpinor 1 2 3 5) :=
  ⟨by decide, by decide,
   (C15_axpy_vec 2 1 (reimSpinor 1 2 1 2) (reimSpinor 1 2 3 5) (by decide)).2.2⟩

/-- The norm `XmyNorm2Vec(y2, y)` returns when `y2` differs from `y` by `dre + i dim` at
every component. -/
theorem XmyNorm2Vec_of_diff {R : Type} [CommRing R] (y2 y x : CoarseSpinor R) (k : R)
    (hinfo : y2.info = y.info) (hc : LatticeInfo.compatible x.info y.info)
    (hd : ∀ cb site c, y.isComp cb site c →
      (y2.compRe cb site c - y.compRe cb site c) * (y2.compRe cb site c - y.compRe cb site c)
        + (y2.compIm cb site c - y.compIm cb site c)
          * (y2.compIm cb site c - y.compIm cb site c) =
      k * (x.compRe cb site c * x.compRe cb site c
        + x.compIm cb site c * x.compIm cb site c)) :
    ∃ d r, XmyNorm2Vec y2 y = some (d, r) ∧ r = k * Norm2Vec x := by
  obtain ⟨hn, hs⟩ := compatible_ncs x y hc
  have hc2 : LatticeInfo.compatible y2.info y.info := by
    rw [hinfo]
    exact compatible_refl _
  have hn2 : y2.info.n_cb_sites = y.info.n_cb_sites := by rw [hinfo]
  have hs2 : y2.GetNumColorSpin = y.GetNumColorSpin := by
    unfold CoarseSpinor.GetNumColorSpin
    rw [hinfo]
  refine ⟨_, _, XmyNorm2Vec_eq y2 y hc2, ?_⟩
  rw [Norm2Vec_eq x, ← hn, ← hs, ← sumComp_mul_left, hn2, hs2]
  apply sumComp_congr
  intro cb site c h1 h2 h3
  exact hd cb site c ⟨h1, h2, h3⟩

theorem AxpyVecComplex_spec {R : Type} [CommRing R] (alpha_re alpha_im : R)
    (x y : CoarseSpinor R) (hc : LatticeInfo.compatible x.info y.info) :
    ∃ y2, AxpyVecComplex alpha_re alpha_im x y = some y2 ∧ y2.info = y.info ∧
      ∀ cb site c, y.isComp cb site c →
        y2.compRe cb site c = y.compRe cb site c
          + cmulRe alpha_re alpha_im (x.compRe cb site c) (x.compIm cb site c) ∧
        y2.compIm cb site c = y.compIm cb site c
          + cmulIm alpha_re alpha_im (x.compRe cb site c) (x.compIm cb site c) :=
  ⟨_, AxpyVecComplex_eq alpha_re alpha_im x y hc, rfl,
    fun cb site c h => AxpyVecComplex_comp alpha_re alpha_im x y cb site c h⟩

theorem AxpyVecReal_spec {R : Type} [CommRing R] (alpha : R)
    (x y : CoarseSpinor R) (hc : LatticeInfo.compatible x.info y.info) :
    ∃ y3, AxpyVecReal alpha x y = some y3 ∧ y3.info = y.info ∧
      ∀ cb site c, y.isComp cb site c →
        y3.compRe cb site c = y.compRe cb site c + alpha * x.compRe cb site c ∧
        y3.compIm cb site c = y.compIm cb site c + alpha * x.compIm cb site c :=
  ⟨_, AxpyVecReal_eq alpha x y hc, rfl,
    fun cb site c h => AxpyVecReal_comp alpha x y cb site c h⟩

/-- C14: for compatible `x`, `y` and every scalar, if `y2` is `y` after
`AxpyVec(alpha, x, y)` then `XmyNorm2Vec(y2, y)` returns `|alpha|^2 Norm2Vec(x)`: with
`|alpha|^2 = alpha_re^2 + alpha_im^2` for the complex overload and `alpha^2` for the real
overload. -/
theorem C14_axpy_then_xmynorm2 {R : Type} [CommRing R] (alpha_re alpha_im : R)
    (x y : CoarseSpinor R) (hc : LatticeInfo.compatible x.info y.info) :
    (∃ y2 d r, AxpyVecComplex alpha_re alpha_im x y = some y2 ∧
      XmyNorm2Vec y2 y = some (d, r) ∧
      r = (alpha_re * alpha_re + alpha_im * alpha_im) * Norm2Vec x) ∧
    (∃ y3 d r, AxpyVecReal alpha_re x y = some y3 ∧
      XmyNorm2Vec y3 y = some (d, r) ∧
      r = (alpha_re * alpha_re) * Norm2Vec x) := by
  constructor
  · obtain ⟨y2, e, hi, hv⟩ := AxpyVecComplex_spec alpha_re alpha_im x y hc
    obtain ⟨d, r, h1, h2⟩ := XmyNorm2Vec_of_diff y2 y x
      (alpha_re * alpha_re + alpha_im * alpha_im) hi hc
      (fun cb site c h => by
        obtain ⟨a, b⟩ := hv cb site c h
        rw [a, b]
        simp only [cmulRe, cmulIm]
        ring)
    exact ⟨y2, d, r, e, h1, h2⟩
  · obtain ⟨y3, e, hi, hv⟩ := AxpyVecReal_spec alpha_re x y hc
    obtain ⟨d, r, h1, h2⟩ := XmyNorm2Vec_of_diff y3 y x (alpha_re * alpha_re) hi hc
      (fun cb site c h => by
        obtain ⟨a, b⟩ := hv cb site c h
        rw [a, b]
        ring)
    exact ⟨y3, d, r, e, h1, h2⟩

/-- Witness of C14: `x` with components `1 + 2i` (4 components, norm 20), `y` with
components `3 + 5i`, `alpha = 2 + i` (`|alpha|^2 = 5`): the returned norm is 100; with
the real `alpha = 2` it is 80. -/
theorem C14_axpy_then_xmynorm2_witness :
    Norm2Vec (reimSpinor 1 2 1 2) = 20 ∧
    ((AxpyVecComplex 2 1 (reimSpinor 1 2 1 2) (reimSpinor 1 2 3 5)).bind
      (fun y2 => (XmyNorm2Vec y2 (reimSpinor 1 2 3 5)).map Prod.snd)) = some 100 ∧
    ((∃ y2 d r, AxpyVecComplex 2 1 (reimSpinor 1 2 1 2) (reimSpinor 1 2 3 5) = some y2 ∧
      XmyNorm2Vec y2 (reimSpinor 1 2 3 5) = some (d, r) ∧
      r = (2 * 2 + 1 * 1) * Norm2Vec (reimSpinor 1 2 1 2)) ∧
    (∃ y3 d r, AxpyVecReal 2 (reimSpinor 1 2 1 2) (reimSpinor 1 2 3 5) = some y3 ∧
      XmyNorm2Vec y3 (reimSpinor 1 2 3 5) = some (d, r) ∧
      r = (2 * 2) * Norm2Vec (reimSpinor 1 2 1 2))) :=
  ⟨by decide, by decide,
   C14_axpy_then_xmynorm2 2 1 (reimSpinor 1 2 1 2) (reimSpinor 1 2 3 5) (by decide)⟩

/-- C19: each binary vector operation (`XmyNorm2Vec`, `InnerProductVec`, `CopyVec`, both
`AxpyVec` overloads) aborts (returns `none`, no updated operand is produced) if and only
if the `LatticeInfo` of `x` and of `y` differ in one of: the four global extents, the
per-checkerboard site count, the number of colours, the number of spins. -/
theorem C19_binary_ops_fail_iff_incompatible {R : Type} [CommRing R]
    (alpha_re alpha_im : R) (x y : CoarseSpinor R) :
    ((XmyNorm2Vec x y = none ↔ ¬ LatticeInfo.compatible x.info y.info) ∧
     (InnerProductVec x y = none ↔ ¬ LatticeInfo.compatible x.info y.info) ∧
     (CopyVec x y = none ↔ ¬ LatticeInfo.compatible x.info y.info) ∧
     (AxpyVecComplex alpha_re alpha_im x y = none ↔
        ¬ LatticeInfo.compatible x.info y.info) ∧
     (AxpyVecReal alpha_re x y = none ↔ ¬ LatticeInfo.compatible x.info y.info)) ∧
    (¬ LatticeInfo.compatible x.info y.info ↔
      (x.info.n_x ≠ y.info.n_x ∨ x.info.n_y ≠ y.info.n_y ∨ x.info.n_z ≠ y.info.n_z ∨
       x.info.n_t ≠ y.info.n_t ∨ x.info.n_cb_sites ≠ y.info.n_cb_sites ∨
       x.info.n_color ≠ y.info.n_color ∨ x.info.n_spin ≠ y.info.n_spin)) := by
  refine ⟨⟨?_, ?_, ?_, ?_, ?_⟩, ?_⟩
  · unfold XmyNorm2Vec
    split_ifs with h <;> simp [h]
  · unfold InnerProductVec
    split_ifs with h <;> simp [h]
  · unfold CopyVec
    split_ifs with h <;> simp [h]
  · unfold AxpyVecComplex
    split_ifs with h <;> simp [h]
  · unfold AxpyVecReal
    split_ifs with h <;> simp [h]
  · unfold LatticeInfo.compatible
    tauto

/-! ## Aggregation -/

theorem blockGeometry_spec (lat_dims block_dims : IndexArray) :
    (∀ mu : Fin 4, (blockGeometry lat_dims block_dims).1 mu =
      Int.tdiv (lat_dims mu) (block_dims mu)) ∧
    (blockGeometry lat_dims block_dims).2.1 =
      Int.tdiv (lat_dims 0) (block_dims 0) * Int.tdiv (lat_dims 1) (block_dims 1)
        * Int.tdiv (lat_dims 2) (block_dims 2) * Int.tdiv (lat_dims 3) (block_dims 3) ∧
    (blockGeometry lat_dims block_dims).2.2 =
      block_dims 0 * block_dims 1 * block_dims 2 * block_dims 3 := by
  refine ⟨?_, ?_, ?_⟩
  · intro mu
    fin_cases mu <;>
      simp [blockGeometry, forLoop, loopN, idx4, set4, Function.update, n_dim]
  · simp [blockGeometry, forLoop, loopN, idx4, set4, Function.update, n_dim]
  · simp [blockGeometry, forLoop, loopN, idx4, set4, Function.update, n_dim]

theorem tdiv_mul_cancel_of_dvd (a b : Int) (h : b ∣ a) : Int.tdiv a b * b = a := by
  obtain ⟨k, rfl⟩ := h
  by_cases hb : b = 0
  · simp [hb]
  · rw [Int.mul_tdiv_cancel_left _ hb, mul_comm]

theorem assert_of_dvd (lat_dims block_dims : IndexArray)
    (hpos : ∀ mu, 1 ≤ block_dims mu) (hdvd : ∀ mu, block_dims mu ∣ lat_dims mu) :
    AssertVectorsDivideEachOther lat_dims block_dims := by
  intro mu
  refine ⟨by have := hpos mu; omega, ?_⟩
  obtain ⟨k, hk⟩ := hdvd mu
  rw [hk]
  exact Int.mul_tmod_right _ _

/-- C20: for block dimensions `block_dims[mu] ≥ 1` dividing `lat_dims[mu]` on every axis,
both constructors succeed and both aggregations report
`GetNumBlocksPerDim()[mu] = lat_dims[mu] / block_dims[mu]`, `GetNumBlocks()` the product
of these quotients, `GetBlockVolume()` the product of the block dimensions and
`GetBlockDimensions() = block_dims`, so that `GetNumBlocks() * GetBlockVolume()` is the
product of the lattice dimensions. -/
theorem C20_block_counts (lat_dims block_dims : IndexArray)
    (hpos : ∀ mu, 1 ≤ block_dims mu) (hdvd : ∀ mu, block_dims mu ∣ lat_dims mu) :
    (∃ a, FullSpinAggregation.create lat_dims block_dims = some a ∧
      (∀ mu, a.GetNumBlocksPerDim mu = lat_dims mu / block_dims mu) ∧
      a.GetNumBlocks = ∏ mu : Fin 4, (lat_dims mu / block_dims mu) ∧
      a.GetBlockVolume = ∏ mu : Fin 4, block_dims mu ∧
      a.GetBlockDimensions = block_dims ∧
      a.GetNumBlocks * a.GetBlockVolume = ∏ mu : Fin 4, lat_dims mu) ∧
    (∃ a, StandardAggregation.create lat_dims block_dims = some a ∧
      (∀ mu, a.GetNumBlocksPerDim mu = lat_dims mu / block_dims mu) ∧
      a.GetNumBlocks = ∏ mu : Fin 4, (lat_dims mu / block_dims mu) ∧
      a.GetBlockVolume = ∏ mu : Fin 4, block_dims mu ∧
      a.GetBlockDimensions = block_dims ∧
      a.GetNumBlocks * a.GetBlockVolume = ∏ mu : Fin 4, lat_dims mu) := by
  have ha := assert_of_dvd lat_dims block_dims hpos hdvd
  obtain ⟨h1, h2, h3⟩ := blockGeometry_spec lat_dims block_dims
  have hq : ∀ mu, Int.tdiv (lat_dims mu) (block_dims mu) = lat_dims mu / block_dims mu := by
    intro mu
    obtain ⟨k, hk⟩ := hdvd mu
    have hb : block_dims mu ≠ 0 := by have := hpos mu; omega
    rw [hk, Int.mul_tdiv_cancel_left _ hb, Int.mul_ediv_cancel_left _ hb]
  have hm : ∀ mu, lat_dims mu / block_dims mu * block_dims mu = lat_dims mu :=
    fun mu => Int.ediv_mul_cancel (hdvd mu)
  have hprod : (∏ mu : Fin 4, (lat_dims mu / block_dims mu)) * (∏ mu : Fin 4, block_dims mu)
      = ∏ mu : Fin 4, lat_dims mu := by
    rw [← Finset.prod_mul_distrib]
    exact Finset.prod_congr rfl (fun mu _ => hm mu)
  have e2 : (blockGeometry lat_dims block_dims).2.1 =
      ∏ mu : Fin 4, (lat_dims mu / block_dims mu) := by
    rw [h2, Fin.prod_univ_four, hq 0, hq 1, hq 2, hq 3]
  have e3 : (blockGeometry lat_dims block_dims).2.2 = ∏ mu : Fin 4, block_dims mu := by
    rw [h3, Fin.prod_univ_four]
  constructor
  · have hc : FullSpinAggregation.create lat_dims block_dims =
        some (FullSpinAggregation.mk block_dims 1 [0, 1, 2, 3] [0, 1, 2]
          (blockGeometry lat_dims block_dims).2.1 (blockGeometry lat_dims block_dims).1
          (blockGeometry lat_dims block_dims).2.2) := by
      unfold FullSpinAggregation.create
      rw [if_pos ha]
    refine ⟨_, hc, ?_, e2, e3, rfl, ?_⟩
    · intro mu
      exact (h1 mu).trans (hq mu)
    · show (blockGeometry lat_dims block_dims).2.1 * (blockGeometry lat_dims block_dims).2.2
        = _
      rw [e2, e3, hprod]
  · have hc : StandardAggregation.create lat_dims block_dims =
        some (StandardAggregation.mk block_dims 2 [[0, 1], [2, 3]] [[0, 1, 2], [0, 1, 2]]
          (blockGeometry lat_dims block_dims).2.1 (blockGeometry lat_dims block_dims).1
          (blockGeometry lat_dims block_dims).2.2) := by
      unfold StandardAggregation.create
      rw [if_pos ha]
    refine ⟨_, hc, ?_, e2, e3, rfl, ?_⟩
    · intro mu
      exact (h1 mu).trans (hq mu)
    · show (blockGeometry lat_dims block_dims).2.1 * (blockGeometry lat_dims block_dims).2.2
        = _
      rw [e2, e3, hprod]

/-- Witness of C20: a 4x4x4x4 lattice with 2x2x2x2 blocks gives 16 blocks of 16 sites
under both policies. -/
theorem C20_block_counts_witness :
    ((FullSpinAggregation.create (fun _ => 4) (fun _ => 2)).map
      (fun a => (a.GetNumBlocks, a.GetBlockVolume, a.GetNumBlocksPerDim 3))
        = some (16, 16, 2)) ∧
    ((StandardAggregation.create (fun _ => 4) (fun _ => 2)).map
      (fun a => (a.GetNumBlocks, a.GetBlockVolume, a.GetNumBlocksPerDim 3))
        = some (16, 16, 2)) ∧
    (∃ a, FullSpinAggregation.create (fun _ => 4) (fun _ => 2) = some a ∧
      (∀ mu, a.GetNumBlocksPerDim mu = (4 : Int) / 2) ∧
      a.GetNumBlocks = ∏ _mu : Fin 4, ((4 : Int) / 2) ∧
      a.GetBlockVolume = ∏ _mu : Fin 4, (2 : Int) ∧
      a.GetBlockDimensions = (fun _ => 2) ∧
      a.GetNumBlocks * a.GetBlockVolume = ∏ _mu : Fin 4, (4 : Int)) :=
  ⟨by decide, by decide,
   (C20_block_counts (fun _ => 4) (fun _ => 2) (by decide) (by decide)).1⟩

theorem assert_iff_dvd (lat_dims block_dims : IndexArray) :
    AssertVectorsDivideEachOther lat_dims block_dims ↔
      ∀ mu, block_dims mu ≠ 0 ∧ block_dims mu ∣ lat_dims mu := by
  unfold AssertVectorsDivideEachOther
  refine forall_congr' (fun mu => and_congr Iff.rfl ?_)
  exact ⟨Int.dvd_of_tmod_eq_zero, Int.tmod_eq_zero_of_dvd⟩

theorem fullSpin_create_none_iff (lat_dims block_dims : IndexArray) :
    FullSpinAggregation.create lat_dims block_dims = none ↔
      ¬ AssertVectorsDivideEachOther lat_dims block_dims := by
  unfold FullSpinAggregation.create
  split_ifs with h <;> simp [h]

theorem standard_create_none_iff (lat_dims block_dims : IndexArray) :
    StandardAggregation.create lat_dims block_dims = none ↔
      ¬ AssertVectorsDivideEachOther lat_dims block_dims := by
  unfold StandardAggregation.create
  split_ifs with h <;> simp [h]

theorem fullSpin_create_some (lat_dims block_dims : IndexArray)
    (a : FullSpinAggregation) (h : FullSpinAggregation.create lat_dims block_dims = some a) :
    AssertVectorsDivideEachOther lat_dims block_dims ∧
    a = FullSpinAggregation.mk block_dims 1 [0, 1, 2, 3] [0, 1, 2]
          (blockGeometry lat_dims block_dims).2.1 (blockGeometry lat_dims block_dims).1
          (blockGeometry lat_dims block_dims).2.2 := by
  unfold FullSpinAggregation.create at h
  split_ifs at h with ha
  exact ⟨ha, (Option.some.inj h).symm⟩

theorem standard_create_some (lat_dims block_dims : IndexArray)
    (a : StandardAggregation) (h : StandardAggregation.create lat_dims block_dims = some a) :
    AssertVectorsDivideEachOther lat_dims block_dims ∧
    a = StandardAggregation.mk block_dims 2 [[0, 1], [2, 3]] [[0, 1, 2], [0, 1, 2]]
          (blockGeometry lat_dims block_dims).2.1 (blockGeometry lat_dims block_dims).1
          (blockGeometry lat_dims block_dims).2.2 := by
  unfold StandardAggregation.create at h
  split_ifs at h with ha
  exact ⟨ha, (Option.some.inj h).symm⟩

/-- C21: constructing a `FullSpinAggregation` or a `StandardAggregation` aborts (returns
`none`) if and only if on some axis the lattice dimension is not exactly divisible by the
block dimension (a block dimension 0 divides nothing); the check precedes the block
counts, so every aggregation that is produced has block dimensions dividing the lattice
dimensions on every axis, with `blocks_per_dim[mu] * block_dims[mu] = lat_dims[mu]`. -/
theorem C21_construction_fails_iff_not_divisible (lat_dims block_dims : IndexArray) :
    (FullSpinAggregation.create lat_dims block_dims = none ↔
      ∃ mu, ¬ (block_dims mu ≠ 0 ∧ block_dims mu ∣ lat_dims mu)) ∧
    (StandardAggregation.create lat_dims block_dims = none ↔
      ∃ mu, ¬ (block_dims mu ≠ 0 ∧ block_dims mu ∣ lat_dims mu)) ∧
    (∀ a, FullSpinAggregation.create lat_dims block_dims = some a →
      ∀ mu, a.GetBlockDimensions mu ≠ 0 ∧ a.GetBlockDimensions mu ∣ lat_dims mu ∧
        a.GetNumBlocksPerDim mu * a.GetBlockDimensions mu = lat_dims mu) ∧
    (∀ a, StandardAggregation.create lat_dims block_dims = some a →
      ∀ mu, a.GetBlockDimensions mu ≠ 0 ∧ a.GetBlockDimensions mu ∣ lat_dims mu ∧
        a.GetNumBlocksPerDim mu * a.GetBlockDimensions mu = lat_dims mu) := by
  refine ⟨?_, ?_, ?_, ?_⟩
  · rw [fullSpin_create_none_iff, assert_iff_dvd, not_forall]
  · rw [standard_create_none_iff, assert_iff_dvd, not_forall]
  · intro a h mu
    obtain ⟨ha, rfl⟩ := fullSpin_create_some _ _ a h
    obtain ⟨h0, hd⟩ := (assert_iff_dvd _ _).mp ha mu
    refine ⟨h0, hd, ?_⟩
    show (blockGeometry lat_dims block_dims).1 mu * block_dims mu = lat_dims mu
    rw [(blockGeometry_spec lat_dims block_dims).1 mu]
    exact tdiv_mul_cancel_of_dvd _ _ hd
  · intro a h mu
    obtain ⟨ha, rfl⟩ := standard_create_some _ _ a h
    obtain ⟨h0, hd⟩ := (assert_iff_dvd _ _).mp ha mu
    refine ⟨h0, hd, ?_⟩
    show (blockGeometry lat_dims block_dims).1 mu * block_dims mu = lat_dims mu
    rw [(blockGeometry_spec lat_dims block_dims).1 mu]
    exact tdiv_mul_cancel_of_dvd _ _ hd

/-- Witness of C21: a 4x4x4x4 lattice with 3x3x3x3 blocks is refused by both
constructors (3 does not divide 4 on axis 0), and 2x2x2x2 blocks are accepted. -/
theorem C21_construction_fails_iff_not_divisible_witness :
    FullSpinAggregation.create (fun _ => 4) (fun _ => 3) = none ∧
    StandardAggregation.create (fun _ => 4) (fun _ => 3) = none ∧
    (FullSpinAggregation.create (fun _ => 4) (fun _ => 2)).isSome = true ∧
    (StandardAggregation.create (fun _ => 4) (fun _ => 2)).isSome = true :=
  ⟨(C21_construction_fails_iff_not_divisible (fun _ => 4) (fun _ => 3)).1.mpr
      ⟨0, by decide⟩,
   (C21_construction_fails_iff_not_divisible (fun _ => 4) (fun _ => 3)).2.1.mpr
      ⟨0, by decide⟩,
   by decide, by decide⟩

/-- C22: `StandardAggregation` has 2 aggregates with source spins `[0,1]` and `[2,3]`,
which are disjoint and whose union is `{0,1,2,3}`; `FullSpinAggregation` has 1 aggregate
with source spins `[0,1,2,3]`; in both policies the source colours of every aggregate
index below `GetNumAggregates()` are `[0,1,2]`. -/
theorem C22_source_spins_and_colors (lat_dims block_dims : IndexArray)
    (s : StandardAggregation) (f : FullSpinAggregation)
    (hs : StandardAggregation.create lat_dims block_dims = some s)
    (hf : FullSpinAggregation.create lat_dims block_dims = some f) :
    (s.GetNumAggregates = 2 ∧
      ∃ s0 s1, s.GetSourceSpins 0 = some s0 ∧ s.GetSourceSpins 1 = some s1 ∧
        s0 = [0, 1] ∧ s1 = [2, 3] ∧ s0.Disjoint s1 ∧
        ∀ k : Int, (k ∈ s0 ∨ k ∈ s1) ↔ k ∈ [0, 1, 2, 3]) ∧
    (f.GetNumAggregates = 1 ∧ f.GetSourceSpins 0 = [0, 1, 2, 3]) ∧
    (∀ a, 0 ≤ a → a < s.GetNumAggregates → s.GetSourceColors a = some [0, 1, 2]) ∧
    (∀ a, 0 ≤ a → a < f.GetNumAggregates → f.GetSourceColors a = [0, 1, 2]) := by
  obtain ⟨_, rfl⟩ := standard_create_some _ _ s hs
  obtain ⟨_, rfl⟩ := fullSpin_create_some _ _ f hf
  refine ⟨⟨rfl, [0, 1], [2, 3], rfl, rfl, rfl, rfl, ?_, ?_⟩, ⟨rfl, rfl⟩, ?_, ?_⟩
  · intro a h1 h2
    simp at h1 h2
    omega
  · intro k
    simp
    tauto
  · intro a h0 h2
    have h2 : a < 2 := h2
    interval_cases a <;> rfl
  · intro a _ _
    rfl

/-- Witness of C22 on a 4x4x4x4 lattice with 2x2x2x2 blocks. -/
theorem C22_source_spins_and_colors_witness :
    ∃ s f, StandardAggregation.create (fun _ => 4) (fun _ => 2) = some s ∧
      FullSpinAggregation.create (fun _ => 4) (fun _ => 2) = some f ∧
      s.GetNumAggregates = 2 ∧ s.GetSourceSpins 0 = some [0, 1] ∧
      s.GetSourceSpins 1 = some [2, 3] ∧ s.GetSourceColors 1 = some [0, 1, 2] ∧
      f.GetNumAggregates = 1 ∧ f.GetSourceSpins 0 = [0, 1, 2, 3] ∧
      f.GetSourceColors 0 = [0, 1, 2] ∧
      ((s.GetNumAggregates = 2 ∧
        ∃ s0 s1, s.GetSourceSpins 0 = some s0 ∧ s.GetSourceSpins 1 = some s1 ∧
          s0 = [0, 1] ∧ s1 = [2, 3] ∧ s0.Disjoint s1 ∧
          ∀ k : Int, (k ∈ s0 ∨ k ∈ s1) ↔ k ∈ [0, 1, 2, 3]) ∧
      (f.GetNumAggregates = 1 ∧ f.GetSourceSpins 0 = [0, 1, 2, 3]) ∧
      (∀ a, 0 ≤ a → a < s.GetNumAggregates → s.GetSourceColors a = some [0, 1, 2]) ∧
      (∀ a, 0 ≤ a → a < f.GetNumAggregates → f.GetSourceColors a = [0, 1, 2])) :=
  ⟨_, _, rfl, rfl, rfl, rfl, rfl, rfl, rfl, rfl, rfl,
   C22_source_spins_and_colors (fun _ => 4) (fun _ => 2) _ _ rfl rfl⟩

/-! ## Zeroing a gauge field -/

/-- A loop whose body keeps a zero at `j` leaves a zero at `j`. -/
theorem loopN_zero_pres {R : Type} [Zero R] (body : Int → Buf R → Buf R) (j : Int)
    (pres : ∀ i m, m j = 0 → body i m j = 0) (lo : Int) :
    ∀ (n : Nat) (m : Buf R), m j = 0 → loopN lo body n m j = 0 := by
  intro n
  induction n with
  | zero => intro m h; exact h
  | succ n ih => intro m h; exact pres _ _ (ih m h)

/-- A loop whose body keeps a zero at `j` and one of whose iterations writes a zero
at `j` leaves a zero at `j`. -/
theorem loopN_zero_hit {R : Type} [Zero R] (body : Int → Buf R → Buf R) (j : Int)
    (pres : ∀ i m, m j = 0 → body i m j = 0) (lo i0 : Int)
    (hit : ∀ m, body i0 m j = 0) :
    ∀ (n : Nat) (m : Buf R), lo ≤ i0 → i0 < lo + n → loopN lo body n m j = 0 := by
  intro n
  induction n with
  | zero => intro m h1 h2; simp at h2; omega
  | succ n ih =>
    intro m h1 h2
    simp only [loopN]
    by_cases h : i0 = lo + (n : Int)
    · rw [← h]
      exact hit _
    · exact pres _ _ (ih m h1 (by push_cast at h2; omega))

theorem forLoop_zero_pres {R : Type} [Zero R] (body : Int → Buf R → Buf R) (j : Int)
    (pres : ∀ i m, m j = 0 → body i m j = 0) (lo hi : Int) (m : Buf R) (h : m j = 0) :
    forLoop lo hi body m j = 0 :=
  loopN_zero_pres body j pres lo _ m h

theorem forLoop_zero_hit {R : Type} [Zero R] (body : Int → Buf R → Buf R) (j : Int)
    (pres : ∀ i m, m j = 0 → body i m j = 0) (lo hi i0 : Int)
    (hit : ∀ m, body i0 m j = 0) (m : Buf R) (h1 : lo ≤ i0) (h2 : i0 < hi) :
    forLoop lo hi body m j = 0 :=
  loopN_zero_hit body j pres lo i0 hit _ m h1 (by omega)

theorem zeroPair_pres {R : Type} [Zero R] (o cs j : Int) (m : Buf R) (h : m j = 0) :
    ((m.store (o + (RE + n_complex * cs)) 0).store (o + (IM + n_complex * cs)) 0) j = 0 := by
  unfold Buf.store
  split_ifs <;> first | rfl | exact h

theorem zeroPair_hit {R : Type} [Zero R] (o cs j : Int) (m : Buf R)
    (h : j = o + (RE + n_complex * cs) ∨ j = o + (IM + n_complex * cs)) :
    ((m.store (o + (RE + n_complex * cs)) 0).store (o + (IM + n_complex * cs)) 0) j = 0 := by
  unfold Buf.store
  rcases h with h | h
  · split_ifs <;> rfl
  · rw [if_pos h]

/-- The floats `ZeroGauge` leaves in a direction block are zero. -/
theorem ZeroGauge_entry {R : Type} [CommRing R] (g : CoarseGauge R)
    (cb site dir cs : Int) (hcb : cb = 0 ∨ cb = 1)
    (hs0 : 0 ≤ site) (hs1 : site < g.info.n_cb_sites) (hd0 : 0 ≤ dir) (hd1 : dir < 9)
    (hc0 : 0 ≤ cs) (hc1 : cs < g.GetNumColorSpin * g.GetNumColorSpin) :
    (ZeroGauge g).GetSiteDirDataPtr cb site dir (RE + n_complex * cs) = 0 ∧
    (ZeroGauge g).GetSiteDirDataPtr cb site dir (IM + n_complex * cs) = 0 := by
  have key : ∀ j, (j = g.siteDirOffset site dir + (RE + n_complex * cs) ∨
      j = g.siteDirOffset site dir + (IM + n_complex * cs)) →
      (ZeroGauge g).data cb j = 0 := by
    intro j hj
    show blasData g.info.n_cb_sites 9 _ g.data cb j = 0
    rw [blasData_cb, if_pos hcb]
    have pres_cs : ∀ (o : Int) (i : Int) (m : Buf R), m j = 0 →
        ((m.store (o + (RE + n_complex * i)) 0).store (o + (IM + n_complex * i)) 0) j = 0 :=
      fun o i m h => zeroPair_pres o i j m h
    have pres_dir : ∀ (cbsite : Int) (i : Int) (m : Buf R), m j = 0 →
        forLoop 0 (g.GetNumColorSpin * g.GetNumColorSpin) (fun cs m =>
          (m.store (g.siteDirOffset cbsite i + (RE + n_complex * cs)) 0).store
            (g.siteDirOffset cbsite i + (IM + n_complex * cs)) 0) m j = 0 :=
      fun cbsite i m h => forLoop_zero_pres _ j (pres_cs _) _ _ m h
    have pres_site : ∀ (i : Int) (m : Buf R), m j = 0 →
        forLoop 0 9 (fun dir m =>
          forLoop 0 (g.GetNumColorSpin * g.GetNumColorSpin) (fun cs m =>
            (m.store (g.siteDirOffset i dir + (RE + n_complex * cs)) 0).store
              (g.siteDirOffset i dir + (IM + n_complex * cs)) 0) m) m j = 0 :=
      fun i m h => forLoop_zero_pres _ j (pres_dir i) _ _ m h
    refine forLoop_zero_hit _ j pres_site 0 _ site (fun m => ?_) _ hs0 hs1
    refine forLoop_zero_hit _ j (pres_dir site) 0 9 dir (fun m => ?_) _ hd0 hd1
    refine forLoop_zero_hit _ j (pres_cs _) 0 _ cs (fun m => ?_) _ hc0 hc1
    exact zeroPair_hit _ cs j m hj
  exact ⟨key _ (Or.inl rfl), key _ (Or.inr rfl)⟩

/-- C23: after `ZeroGauge(g)` the real and the imaginary part of every one of the
`N_colorspin x N_colorspin` complex entries of all 9 direction blocks (8 stencil directions
and the local term) is 0 at every site of both checkerboards; the entries are indexed
flat (`cs`) as the kernel does, and by row and column. -/
theorem C23_zero_gauge {R : Type} [CommRing R] (g : CoarseGauge R) (cb site dir : Int)
    (hcb : cb = 0 ∨ cb = 1) (hs : 0 ≤ site ∧ site < g.info.n_cb_sites)
    (hd : 0 ≤ dir ∧ dir < 9) :
    (ZeroGauge g).info = g.info ∧
    (∀ cs, 0 ≤ cs → cs < g.GetNumColorSpin * g.GetNumColorSpin →
      (ZeroGauge g).GetSiteDirDataPtr cb site dir (RE + n_complex * cs) = 0 ∧
      (ZeroGauge g).GetSiteDirDataPtr cb site dir (IM + n_complex * cs) = 0) ∧
    (∀ row col, 0 ≤ row → row < g.GetNumColorSpin → 0 ≤ col → col < g.GetNumColorSpin →
      (ZeroGauge g).GetSiteDirDataPtr cb site dir
        (RE + n_complex * (row * g.GetNumColorSpin + col)) = 0 ∧
      (ZeroGauge g).GetSiteDirDataPtr cb site dir
        (IM + n_complex * (row * g.GetNumColorSpin + col)) = 0) := by
  refine ⟨rfl, fun cs h0 h1 => ZeroGauge_entry g cb site dir cs hcb hs.1 hs.2 hd.1 hd.2 h0 h1,
    fun row col hr0 hr1 hc0 hc1 => ?_⟩
  refine ZeroGauge_entry g cb site dir _ hcb hs.1 hs.2 hd.1 hd.2 ?_ ?_
  · have h := mul_nonneg hr0 (by omega : 0 ≤ g.GetNumColorSpin)
    linarith
  · have h := mul_nonneg (by omega : 0 ≤ g.GetNumColorSpin - 1 - row)
      (by omega : 0 ≤ g.GetNumColorSpin)
    nlinarith

/-- Witness of C23: a gauge field with 2 colorspins on the 2 x 1 x 1 x 1 lattice whose
floats all hold 7; the last entry of the local block (direction 8) of the site of
checkerboard 1 is 0 after `ZeroGauge`. -/
theorem C23_zero_gauge_witness :
    (constGauge 1 2 7).GetSiteDirDataPtr 1 0 8 (IM + n_complex * 3) = 7 ∧
    (ZeroGauge (constGauge 1 2 7)).GetSiteDirDataPtr 1 0 8 (RE + n_complex * 3) = 0 ∧
    (ZeroGauge (constGauge 1 2 7)).GetSiteDirDataPtr 1 0 8 (IM + n_complex * 3) = 0 :=
  ⟨by decide,
   ((C23_zero_gauge (constGauge 1 2 7) 1 0 8 (by decide) (by decide) (by decide)).2.1
      3 (by decide) (by decide)).1,
   ((C23_zero_gauge (constGauge 1 2 7) 1 0 8 (by decide) (by decide) (by decide)).2.1
      3 (by decide) (by decide)).2⟩

/-! ## Site ranges of the cores -/

/-- The number `sites_per_core` of lines 85-86 is the ceiling of
`n_sites_cb / n_cores`. -/
theorem sitesPerCore_eq_ceil (n k : Int) (hn : 0 ≤ n) (hk : 1 ≤ k) :
    sitesPerCore n k = ⌈(n : ℚ) / (k : ℚ)⌉ := by
  obtain ⟨h1, _, _, h2⟩ := sitesPerCore_spec n k hn hk
  have hkq : (0 : ℚ) < (k : ℚ) := by exact_mod_cast (by omega : 0 < k)
  symm
  rw [Int.ceil_eq_iff]
  constructor
  · rw [lt_div_iff₀ hkq]
    have : ((k * (sitesPerCore n k - 1) : Int) : ℚ) < (n : ℚ) := by exact_mod_cast h2
    push_cast at this
    linarith
  · rw [div_le_iff₀ hkq]
    have : ((n : Int) : ℚ) ≤ ((k * sitesPerCore n k : Int) : ℚ) := by exact_mod_cast h1
    push_cast at this
    linarith

/-- A team of at least one thread with at least one core has `1 ≤ n_smt ≤ N`. -/
theorem smt_range_of_cores (N s : Int) (hN : 1 ≤ N) (hk : 1 ≤ Int.tdiv N s) :
    1 ≤ s ∧ s ≤ N := by
  have hs : 0 < s := by
    by_contra h
    have e : Int.tdiv N s = -(Int.tdiv N (-s)) := by
      rw [Int.tdiv_neg, neg_neg]
    have := Int.tdiv_nonneg (by omega : 0 ≤ N) (by omega : 0 ≤ -s)
    omega
  refine ⟨hs, ?_⟩
  by_contra h
  have : Int.tdiv N s = 0 := Int.tdiv_eq_zero_of_lt (by omega) (by omega)
  omega

/-- The range of a thread holds at most `sites_per_core` sites. -/
theorem threadLimits_size (cfg : MGConfig) (n_threads n_smt n_vrows n_sites_cb tid : Int)
    (l : ThreadLimits)
    (h : threadLimits cfg n_threads n_smt n_vrows n_sites_cb tid = some l) :
    l.max_site - l.min_site ≤ sitesPerCore n_sites_cb (Int.tdiv n_threads n_smt) := by
  obtain ⟨a, b⟩ := threadLimits_site_eq cfg _ _ _ _ _ _ h
  rw [a, b]
  unfold MinInt
  split_ifs with h1
  · linarith
  · linarith

/-- C25: for a team of `N ≥ 1` threads and an SMT factor with
`n_cores = N div n_smt ≥ 1`, every site of `[0, num_cb_sites)` lies in the site range
`[min_site, max_site)` of exactly one core id of `0..n_cores-1` (the range of a core is
the one stored for its threads, which all store the same), and no range holds more than
the ceiling of `num_cb_sites / n_cores` sites. -/
theorem C25_core_ranges_partition (cfg : MGConfig)
    (n_threads n_smt n_vrows n_sites_cb : Int)
    (hN : 1 ≤ n_threads) (hk : 1 ≤ Int.tdiv n_threads n_smt) (hn : 0 ≤ n_sites_cb) :
    (∀ site, 0 ≤ site → site < n_sites_cb →
      ∃! c : Int, (0 ≤ c ∧ c < Int.tdiv n_threads n_smt) ∧
        ∃ tid l, (0 ≤ tid ∧ tid < n_threads) ∧ coreId n_smt tid = c ∧
          threadLimits cfg n_threads n_smt n_vrows n_sites_cb tid = some l ∧
          l.ownsSite site) ∧
    (∀ t1 t2 l1 l2, coreId n_smt t1 = coreId n_smt t2 →
      threadLimits cfg n_threads n_smt n_vrows n_sites_cb t1 = some l1 →
      threadLimits cfg n_threads n_smt n_vrows n_sites_cb t2 = some l2 →
      l1.min_site = l2.min_site ∧ l1.max_site = l2.max_site) ∧
    (∀ tid l, threadLimits cfg n_threads n_smt n_vrows n_sites_cb tid = some l →
      l.max_site - l.min_site ≤
        ⌈(n_sites_cb : ℚ) / ((Int.tdiv n_threads n_smt : Int) : ℚ)⌉) := by
  obtain ⟨hs, hsN⟩ := smt_range_of_cores n_threads n_smt hN hk
  obtain ⟨_, hkN⟩ := nCores_pos n_threads n_smt hs hsN
  refine ⟨fun site h0 h1 => ?_, ?_, ?_⟩
  · obtain ⟨hcov, _, hpos, _⟩ :=
      sitesPerCore_spec n_sites_cb (Int.tdiv n_threads n_smt) hn hk
    have hspc := hpos (by omega)
    set spc := sitesPerCore n_sites_cb (Int.tdiv n_threads n_smt) with hspcdef
    have hc0 : 0 ≤ site / spc := Int.ediv_nonneg h0 (by omega)
    have hc1 : site / spc < Int.tdiv n_threads n_smt :=
      ediv_lt_of_lt_mul_pos _ _ _ (by omega) (by nlinarith)
    have hlo : site / spc * spc ≤ site := Int.ediv_mul_le _ (by omega)
    have hhi : site < (site / spc + 1) * spc := Int.lt_ediv_add_one_mul_self _ (by omega)
    obtain ⟨l, e, a, b⟩ := threadLimits_some cfg n_threads n_smt n_vrows n_sites_cb
      (site / spc * n_smt) (by omega) (by omega)
    have hcore : coreId n_smt (site / spc * n_smt) = site / spc := by
      unfold coreId
      rw [tdiv_nonneg_eq _ _ (by positivity) (by omega)]
      exact Int.mul_ediv_cancel _ (by omega)
    refine ⟨site / spc, ⟨⟨hc0, hc1⟩, site / spc * n_smt, l,
      ⟨by positivity, by nlinarith⟩, hcore, e, ?_⟩, ?_⟩
    · unfold ThreadLimits.ownsSite
      rw [a, b, MinInt_lt_iff, hcore]
      exact ⟨hlo, hhi, h1⟩
    · rintro c ⟨_, tid, l2, _, hc, e2, o2⟩
      obtain ⟨a2, b2⟩ := threadLimits_site_eq cfg _ _ _ _ _ _ e2
      unfold ThreadLimits.ownsSite at o2
      rw [a2, b2, MinInt_lt_iff, hc] at o2
      exact core_unique _ _ _ site o2.1 o2.2.1 hlo hhi
  · intro t1 t2 l1 l2 hc e1 e2
    obtain ⟨a1, b1⟩ := threadLimits_site_eq cfg _ _ _ _ _ _ e1
    obtain ⟨a2, b2⟩ := threadLimits_site_eq cfg _ _ _ _ _ _ e2
    rw [a1, b1, a2, b2, hc]
    exact ⟨rfl, rfl⟩
  · intro tid l e
    rw [← sitesPerCore_eq_ceil n_sites_cb _ hn hk]
    exact threadLimits_size cfg _ _ _ _ _ l e

/-- Witness of C25: 4 threads, SMT factor 2 (2 cores), 5 sites: the ranges of the cores
are `[0, 3)` and `[3, 5)`, at most `⌈5/2⌉ = 3` sites each. -/
theorem C25_core_ranges_partition_witness :
    threadLimits cfg8x64 4 2 6 5 0 = some ⟨0, 4, 0, 3⟩ ∧
    threadLimits cfg8x64 4 2 6 5 2 = some ⟨0, 4, 3, 5⟩ ∧
    ((∀ site, 0 ≤ site → site < (5 : Int) →
      ∃! c : Int, (0 ≤ c ∧ c < Int.tdiv 4 2) ∧
        ∃ tid l, (0 ≤ tid ∧ tid < (4 : Int)) ∧ coreId 2 tid = c ∧
          threadLimits cfg8x64 4 2 6 5 tid = some l ∧ l.ownsSite site) ∧
    (∀ t1 t2 l1 l2, coreId 2 t1 = coreId 2 t2 →
      threadLimits cfg8x64 4 2 6 5 t1 = some l1 →
      threadLimits cfg8x64 4 2 6 5 t2 = some l2 →
      l1.min_site = l2.min_site ∧ l1.max_site = l2.max_site) ∧
    (∀ tid l, threadLimits cfg8x64 4 2 6 5 tid = some l →
      l.max_site - l.min_site ≤ ⌈((5 : Int) : ℚ) / ((Int.tdiv 4 2 : Int) : ℚ)⌉)) :=
  ⟨by decide, by decide,
   C25_core_ranges_partition cfg8x64 4 2 6 5 (by decide) (by decide) (by decide)⟩

/-- C26 (as stated) fails: with 4 threads, SMT factor 1 and 5 sites, `sites_per_core`
is 2 and thread 3 stores `min_site = 6`, `max_site = 5`: the range is empty, but
`min_site` exceeds both `max_site` and the site count. -/
theorem C26_well_formed_counterexample :
    threadLimits cfg8x64 4 1 6 5 3 = some ⟨0, 6, 6, 5⟩ ∧
    ¬ (∀ tid l, 0 ≤ tid → tid < 4 → threadLimits cfg8x64 4 1 6 5 tid = some l →
        0 ≤ l.min_site ∧ l.min_site ≤ l.max_site ∧ l.max_site ≤ 5) := by
  refine ⟨by decide, fun h => ?_⟩
  have h3 := h 3 ⟨0, 6, 6, 5⟩ (by decide) (by decide) (by decide)
  exact absurd h3.2.1 (by decide)

/-- C26 (amended): for `N ≥ 1`, `1 ≤ n_smt ≤ N` and `num_cb_sites ≥ 0`, every thread
`tid ≥ 0` stores `0 ≤ min_site` and `0 ≤ max_site ≤ num_cb_sites`; the sites of its range
`[min_site, max_site)` lie in `[0, num_cb_sites)`; and `min_site ≤ max_site` holds
exactly when `min_site ≤ num_cb_sites` (otherwise the range is empty). -/
theorem C26_site_range_bounds (cfg : MGConfig)
    (n_threads n_smt n_vrows n_sites_cb tid : Int)
    (hs : 1 ≤ n_smt) (hsN : n_smt ≤ n_threads)
    (hn : 0 ≤ n_sites_cb) (ht : 0 ≤ tid) :
    ∃ l, threadLimits cfg n_threads n_smt n_vrows n_sites_cb tid = some l ∧
      0 ≤ l.min_site ∧ 0 ≤ l.max_site ∧ l.max_site ≤ n_sites_cb ∧
      (l.min_site ≤ l.max_site ↔ l.min_site ≤ n_sites_cb) ∧
      (∀ site, l.ownsSite site → 0 ≤ site ∧ site < n_sites_cb) := by
  obtain ⟨hk, _⟩ := nCores_pos n_threads n_smt hs hsN
  obtain ⟨_, hspc, _, _⟩ := sitesPerCore_spec n_sites_cb (Int.tdiv n_threads n_smt) hn hk
  obtain ⟨l, e, a, b⟩ := threadLimits_some cfg n_threads n_smt n_vrows n_sites_cb tid
    (by omega) (by omega)
  have hc : 0 ≤ coreId n_smt tid := Int.tdiv_nonneg ht (by omega)
  have hmin : 0 ≤ coreId n_smt tid * sitesPerCore n_sites_cb (Int.tdiv n_threads n_smt) :=
    mul_nonneg hc hspc
  have hnext : coreId n_smt tid * sitesPerCore n_sites_cb (Int.tdiv n_threads n_smt) ≤
      (coreId n_smt tid + 1) * sitesPerCore n_sites_cb (Int.tdiv n_threads n_smt) := by
    linarith
  refine ⟨l, e, ?_, ?_, ?_, ?_, ?_⟩
  · rw [a]
    exact hmin
  · rw [b]
    unfold MinInt
    split_ifs <;> omega
  · rw [b]
    unfold MinInt
    split_ifs <;> omega
  · rw [a, b]
    unfold MinInt
    split_ifs <;> constructor <;> intro _ <;> omega
  · intro site o
    unfold ThreadLimits.ownsSite at o
    rw [a, b, MinInt_lt_iff] at o
    omega

/-- Witness of C26 (amended): 4 threads, SMT factor 1, 5 sites; thread 2 owns the range
`[4, 5)`. -/
theorem C26_site_range_bounds_witness :
    threadLimits cfg8x64 4 1 6 5 2 = some ⟨0, 6, 4, 5⟩ ∧
    ∃ l, threadLimits cfg8x64 4 1 6 5 2 = some l ∧
      0 ≤ l.min_site ∧ 0 ≤ l.max_site ∧ l.max_site ≤ 5 ∧
      (l.min_site ≤ l.max_site ↔ l.min_site ≤ 5) ∧
      (∀ site, l.ownsSite site → 0 ≤ site ∧ site < 5) :=
  ⟨by decide,
   C26_site_range_bounds cfg8x64 4 1 6 5 2 (by decide) (by decide) (by decide) (by decide)⟩

/-- C27 (as stated) fails: with 1 thread and SMT factor 2 the divisor
`n_cores = 1 div 2` is 0, and the constructor divides `n_sites_cb` by it. -/
theorem C27_division_by_zero_counterexample :
    (1 : Int) ≤ 1 ∧ (1 : Int) ≤ 2 ∧ Int.tdiv 1 2 = 0 ∧
    threadLimits cfg8x64 1 2 6 5 0 = none ∧
    (CoarseDiracOp.create cfg8x64 (latt2 3 4) 2 1).isSome = false :=
  ⟨by decide, by decide, by decide, by decide, by decide⟩

/-- C27 (amended): for `N ≥ 1` and `1 ≤ n_smt ≤ N` no division by zero occurs in the
constructor (`n_cores = N div n_smt ≥ 1`, every thread gets its limits and the object is
built); for `n_smt > N` the divisor `n_cores` is 0 and every thread divides by it. -/
theorem C27_partition_well_defined (cfg : MGConfig) (l_info : LatticeInfo)
    (n_threads n_smt : Int) (hN : 1 ≤ n_threads) (hs : 1 ≤ n_smt) :
    (n_smt ≤ n_threads →
      1 ≤ Int.tdiv n_threads n_smt ∧
      (∀ n_vrows n_sites_cb tid,
        (threadLimits cfg n_threads n_smt n_vrows n_sites_cb tid).isSome = true) ∧
      (CoarseDiracOp.create cfg l_info n_smt n_threads).isSome = true) ∧
    (n_threads < n_smt →
      Int.tdiv n_threads n_smt = 0 ∧
      (∀ n_vrows n_sites_cb tid,
        threadLimits cfg n_threads n_smt n_vrows n_sites_cb tid = none) ∧
      CoarseDiracOp.create cfg l_info n_smt n_threads = none) := by
  constructor
  · intro hsN
    obtain ⟨hk, _⟩ := nCores_pos n_threads n_smt hs hsN
    have hall : ∀ n_vrows n_sites_cb tid,
        (threadLimits cfg n_threads n_smt n_vrows n_sites_cb tid).isSome = true := by
      intro n_vrows n_sites_cb tid
      obtain ⟨l, e, _⟩ := threadLimits_some cfg n_threads n_smt n_vrows n_sites_cb tid
        (by omega) (by omega)
      rw [e]
      rfl
    refine ⟨hk, hall, ?_⟩
    unfold CoarseDiracOp.create
    have : ((List.range n_threads.toNat).all (fun t =>
        (threadLimits cfg n_threads n_smt
          (Int.tdiv (2 * (l_info.n_color * l_info.n_spin)) cfg.VECLEN)
          l_info.n_cb_sites (t : Int)).isSome)) = true := by
      rw [List.all_eq_true]
      intro t _
      exact hall _ _ _
    simp only [this, if_true]
    rfl
  · intro hlt
    have hk : Int.tdiv n_threads n_smt = 0 := Int.tdiv_eq_zero_of_lt (by omega) hlt
    have hnone : ∀ n_vrows n_sites_cb tid,
        threadLimits cfg n_threads n_smt n_vrows n_sites_cb tid = none :=
      fun _ _ _ => threadLimits_none cfg _ _ _ _ _ (Or.inr hk)
    refine ⟨hk, hnone, ?_⟩
    unfold CoarseDiracOp.create
    have : ((List.range n_threads.toNat).all (fun t =>
        (threadLimits cfg n_threads n_smt
          (Int.tdiv (2 * (l_info.n_color * l_info.n_spin)) cfg.VECLEN)
          l_info.n_cb_sites (t : Int)).isSome)) = false := by
      rw [List.all_eq_false]
      refine ⟨0, List.mem_range.mpr (by omega), ?_⟩
      rw [hnone]
      simp
    simp only [this]
    rfl

/-- Witness of C27 (amended): 4 threads with SMT factor 2 on the 2 x 1 x 1 x 1 lattice
with 3 colours and 4 spins. -/
theorem C27_partition_well_defined_witness :
    1 ≤ Int.tdiv 4 2 ∧
    (∀ n_vrows n_sites_cb tid,
      (threadLimits cfg8x64 4 2 n_vrows n_sites_cb tid).isSome = true) ∧
    (CoarseDiracOp.create cfg8x64 (latt2 3 4) 2 4).isSome = true :=
  (C27_partition_well_defined cfg8x64 (latt2 3 4) 4 2 (by decide) (by decide)).1 (by decide)

/-- C28 fails on the code: in a build with 8-float vectors and 64-byte cache lines
(16 floats), an operator with 12 colorspins has `n_vrows = 3`, the constructor counts
`n_cachelines = 24 div 16 = 1`, and with SMT factor 1 the only slot gets the vector rows
`[0, 2)`: row 2 is owned by no slot. -/
theorem C28_vrow_ranges_drop_partial_cacheline :
    (CoarseDiracOp.build cfg8x64 (latt2 6 2) 1 1).n_vrows = 3 ∧
    threadLimits cfg8x64 1 1 3 1 0 = some ⟨0, 2, 0, 1⟩ ∧
    ¬ ∃ tid l, (0 ≤ tid ∧ tid < 1) ∧ threadLimits cfg8x64 1 1 3 1 tid = some l ∧
        l.min_vrow ≤ 2 ∧ 2 < l.max_vrow := by
  refine ⟨by decide, by decide, ?_⟩
  rintro ⟨tid, l, ⟨h0, h1⟩, e, _, b⟩
  have ht : tid = 0 := by omega
  subst ht
  have e2 : threadLimits cfg8x64 1 1 3 1 0 = some ⟨0, 2, 0, 1⟩ := by decide
  rw [e2] at e
  cases e
  exact absurd b (by decide)

/-! ## Neighbour table: bounds and checkerboard consistency -/

/-- Normal form of the eight entries of the neighbour table. -/
theorem neighSites_eq (op : CoarseDiracOp) (cb site : Int)
    (hx : 1 ≤ op.n_xh) (hy : 1 ≤ op.n_y) (hz : 1 ≤ op.n_z) (ht : 1 ≤ op.n_t)
    (hxx : 2 * op.n_xh ≤ op.n_x)
    (h0 : 0 ≤ site) (h1 : site < op.n_xh * op.n_y * op.n_z * op.n_t) :
    let c := decodeSite op.n_xh op.n_y op.n_z site
    let x := globalX cb c
    neighSites op cb site 0 =
      ((x + 1) % op.n_x) / 2 + op.n_xh * (c.y + op.n_y * (c.z + op.n_z * c.t)) ∧
    neighSites op cb site 1 =
      ((x - 1) % op.n_x) / 2 + op.n_xh * (c.y + op.n_y * (c.z + op.n_z * c.t)) ∧
    neighSites op cb site 2 =
      c.xcb + op.n_xh * ((c.y + 1) % op.n_y + op.n_y * (c.z + op.n_z * c.t)) ∧
    neighSites op cb site 3 =
      c.xcb + op.n_xh * ((c.y - 1) % op.n_y + op.n_y * (c.z + op.n_z * c.t)) ∧
    neighSites op cb site 4 =
      c.xcb + op.n_xh * (c.y + op.n_y * ((c.z + 1) % op.n_z + op.n_z * c.t)) ∧
    neighSites op cb site 5 =
      c.xcb + op.n_xh * (c.y + op.n_y * ((c.z - 1) % op.n_z + op.n_z * c.t)) ∧
    neighSites op cb site 6 =
      c.xcb + op.n_xh * (c.y + op.n_y * (c.z + op.n_z * ((c.t + 1) % op.n_t))) ∧
    neighSites op cb site 7 =
      c.xcb + op.n_xh * (c.y + op.n_y * (c.z + op.n_z * ((c.t - 1) % op.n_t))) := by
  intro c x
  obtain ⟨cx0, cx1, cy0, cy1, cz0, cz1, ct0, ct1⟩ :=
    decodeSite_bounds op.n_xh op.n_y op.n_z op.n_t site hx hy hz ht h0 h1
  obtain ⟨gx0, gx1⟩ := globalX_bounds cb c op.n_xh cx0 cx1
  have hxp := wrap_plus x op.n_x gx0 (by omega)
  have hxm := wrap_minus x op.n_x gx0 (by omega)
  have hxp0 : 0 ≤ (x + 1) % op.n_x := Int.emod_nonneg _ (by omega)
  have hxm0 : 0 ≤ (x - 1) % op.n_x := Int.emod_nonneg _ (by omega)
  refine ⟨?_, ?_, ?_, ?_, ?_, ?_, ?_, ?_⟩
  · show Int.tdiv (if x < op.n_x - 1 then x + 1 else 0) 2 + _ = _
    rw [hxp, tdiv_nonneg_eq _ 2 hxp0 (by decide)]
  · show Int.tdiv (if x > 0 then x - 1 else op.n_x - 1) 2 + _ = _
    rw [hxm, tdiv_nonneg_eq _ 2 hxm0 (by decide)]
  · show c.xcb + op.n_xh * ((if c.y < op.n_y - 1 then c.y + 1 else 0) + _) = _
    rw [wrap_plus c.y op.n_y cy0 cy1]
  · show c.xcb + op.n_xh * ((if c.y > 0 then c.y - 1 else op.n_y - 1) + _) = _
    rw [wrap_minus c.y op.n_y cy0 cy1]
  · show c.xcb + op.n_xh * (c.y + op.n_y * ((if c.z < op.n_z - 1 then c.z + 1 else 0) + _)) = _
    rw [wrap_plus c.z op.n_z cz0 cz1]
  · show c.xcb + op.n_xh * (c.y + op.n_y * ((if c.z > 0 then c.z - 1 else op.n_z - 1) + _)) = _
    rw [wrap_minus c.z op.n_z cz0 cz1]
  · show c.xcb + op.n_xh * (c.y + op.n_y * (c.z + op.n_z *
      (if c.t < op.n_t - 1 then c.t + 1 else 0))) = _
    rw [wrap_plus c.t op.n_t ct0 ct1]
  · show c.xcb + op.n_xh * (c.y + op.n_y * (c.z + op.n_z *
      (if c.t > 0 then c.t - 1 else op.n_t - 1))) = _
    rw [wrap_minus c.t op.n_t ct0 ct1]

theorem encode_bounds (n_xh n_y n_z n_t a b c d : Int)
    (ha : 0 ≤ a ∧ a < n_xh) (hb : 0 ≤ b ∧ b < n_y) (hc : 0 ≤ c ∧ c < n_z)
    (hd : 0 ≤ d ∧ d < n_t) :
    0 ≤ a + n_xh * (b + n_y * (c + n_z * d)) ∧
    a + n_xh * (b + n_y * (c + n_z * d)) < n_xh * n_y * n_z * n_t := by
  have w0 : 0 ≤ c + n_z * d := by
    have := mul_nonneg (by omega : 0 ≤ n_z) hd.1
    omega
  have w1 : c + n_z * d + 1 ≤ n_z * n_t := by
    have := mul_le_mul_of_nonneg_left (by omega : d + 1 ≤ n_t) (by omega : 0 ≤ n_z)
    linarith
  have v0 : 0 ≤ b + n_y * (c + n_z * d) := by
    have := mul_nonneg (by omega : 0 ≤ n_y) w0
    omega
  have v1 : b + n_y * (c + n_z * d) + 1 ≤ n_y * (n_z * n_t) := by
    have := mul_le_mul_of_nonneg_left w1 (by omega : 0 ≤ n_y)
    linarith
  constructor
  · have := mul_nonneg (by omega : 0 ≤ n_xh) v0
    omega
  · have := mul_le_mul_of_nonneg_left v1 (by omega : 0 ≤ n_xh)
    have e : n_xh * n_y * n_z * n_t = n_xh * (n_y * (n_z * n_t)) := by ring
    rw [e]
    linarith

theorem tdiv_enc (n a v : Int) (ha : 0 ≤ a ∧ a < n) (hv : 0 ≤ v) :
    Int.tdiv (a + n * v) n = v := by
  have hnv := mul_nonneg (by omega : 0 ≤ n) hv
  rw [tdiv_nonneg_eq _ n (by omega) (by omega),
    Int.add_mul_ediv_left _ _ (by omega : n ≠ 0), Int.ediv_eq_zero_of_lt ha.1 ha.2]
  omega

/-- Decoding inverts the row-major encoding of in-range coordinates. -/
theorem decodeSite_of_encode (n_xh n_y n_z a b c d : Int)
    (ha : 0 ≤ a ∧ a < n_xh) (hb : 0 ≤ b ∧ b < n_y) (hc : 0 ≤ c ∧ c < n_z) (hd : 0 ≤ d) :
    decodeSite n_xh n_y n_z (a + n_xh * (b + n_y * (c + n_z * d))) =
      SiteCoords.mk a b c d := by
  have w0 : 0 ≤ c + n_z * d := by
    have := mul_nonneg (by omega : 0 ≤ n_z) hd
    omega
  have v0 : 0 ≤ b + n_y * (c + n_z * d) := by
    have := mul_nonneg (by omega : 0 ≤ n_y) w0
    omega
  simp only [decodeSite, tdiv_enc n_xh a _ ha v0, tdiv_enc n_y b _ hb w0,
    tdiv_enc n_z c d hc hd, SiteCoords.mk.injEq]
  refine ⟨by ring, by ring, by ring, trivial⟩

/-- Every entry of the neighbour table is an in-range checkerboard site index. -/
theorem neighSites_bounds (op : CoarseDiracOp) (cb site : Int)
    (hx : 1 ≤ op.n_xh) (hy : 1 ≤ op.n_y) (hz : 1 ≤ op.n_z) (ht : 1 ≤ op.n_t)
    (hxx : op.n_x = 2 * op.n_xh)
    (h0 : 0 ≤ site) (h1 : site < op.n_xh * op.n_y * op.n_z * op.n_t) (mu : Fin 8) :
    0 ≤ neighSites op cb site mu ∧
    neighSites op cb site mu < op.n_xh * op.n_y * op.n_z * op.n_t := by
  obtain ⟨cx0, cx1, cy0, cy1, cz0, cz1, ct0, ct1⟩ :=
    decodeSite_bounds op.n_xh op.n_y op.n_z op.n_t site hx hy hz ht h0 h1
  obtain ⟨e0, e1, e2, e3, e4, e5, e6, e7⟩ :=
    neighSites_eq op cb site hx hy hz ht (by omega) h0 h1
  have hxp0 := Int.emod_nonneg (globalX cb (decodeSite op.n_xh op.n_y op.n_z site) + 1)
    (by omega : op.n_x ≠ 0)
  have hxp1 := Int.emod_lt_of_pos (globalX cb (decodeSite op.n_xh op.n_y op.n_z site) + 1)
    (by omega : 0 < op.n_x)
  have hxm0 := Int.emod_nonneg (globalX cb (decodeSite op.n_xh op.n_y op.n_z site) - 1)
    (by omega : op.n_x ≠ 0)
  have hxm1 := Int.emod_lt_of_pos (globalX cb (decodeSite op.n_xh op.n_y op.n_z site) - 1)
    (by omega : 0 < op.n_x)
  have py := fun v : Int => And.intro (Int.emod_nonneg v (by omega : op.n_y ≠ 0))
    (Int.emod_lt_of_pos v (by omega : 0 < op.n_y))
  have pz := fun v : Int => And.intro (Int.emod_nonneg v (by omega : op.n_z ≠ 0))
    (Int.emod_lt_of_pos v (by omega : 0 < op.n_z))
  have pt := fun v : Int => And.intro (Int.emod_nonneg v (by omega : op.n_t ≠ 0))
    (Int.emod_lt_of_pos v (by omega : 0 < op.n_t))
  fin_cases mu
  · show 0 ≤ neighSites op cb site 0 ∧ neighSites op cb site 0 < _
    rw [e0]
    exact encode_bounds _ _ _ _ _ _ _ _ (by omega) ⟨cy0, cy1⟩ ⟨cz0, cz1⟩ ⟨ct0, ct1⟩
  · show 0 ≤ neighSites op cb site 1 ∧ neighSites op cb site 1 < _
    rw [e1]
    exact encode_bounds _ _ _ _ _ _ _ _ (by omega) ⟨cy0, cy1⟩ ⟨cz0, cz1⟩ ⟨ct0, ct1⟩
  · show 0 ≤ neighSites op cb site 2 ∧ neighSites op cb site 2 < _
    rw [e2]
    exact encode_bounds _ _ _ _ _ _ _ _ ⟨cx0, cx1⟩ (py _) ⟨cz0, cz1⟩ ⟨ct0, ct1⟩
  · show 0 ≤ neighSites op cb site 3 ∧ neighSites op cb site 3 < _
    rw [e3]
    exact encode_bounds _ _ _ _ _ _ _ _ ⟨cx0, cx1⟩ (py _) ⟨cz0, cz1⟩ ⟨ct0, ct1⟩
  · show 0 ≤ neighSites op cb site 4 ∧ neighSites op cb site 4 < _
    rw [e4]
    exact encode_bounds _ _ _ _ _ _ _ _ ⟨cx0, cx1⟩ ⟨cy0, cy1⟩ (pz _) ⟨ct0, ct1⟩
  · show 0 ≤ neighSites op cb site 5 ∧ neighSites op cb site 5 < _
    rw [e5]
    exact encode_bounds _ _ _ _ _ _ _ _ ⟨cx0, cx1⟩ ⟨cy0, cy1⟩ (pz _) ⟨ct0, ct1⟩
  · show 0 ≤ neighSites op cb site 6 ∧ neighSites op cb site 6 < _
    rw [e6]
    exact encode_bounds _ _ _ _ _ _ _ _ ⟨cx0, cx1⟩ ⟨cy0, cy1⟩ ⟨cz0, cz1⟩ (pt _)
  · show 0 ≤ neighSites op cb site 7 ∧ neighSites op cb site 7 < _
    rw [e7]
    exact encode_bounds _ _ _ _ _ _ _ _ ⟨cx0, cx1⟩ ⟨cy0, cy1⟩ ⟨cz0, cz1⟩ (pt _)

theorem arr8_fin {α : Type} (a : Fin 8 → α) (mu : Fin 8) : arr8 a ((mu : Nat) : Int) = a mu := by
  fin_cases mu <;> rfl

/-- C29: for extents `n_y, n_z, n_t ≥ 1`, `n_xh ≥ 1`, `n_x = 2*n_xh`, a target
checkerboard `cb ∈ {0,1}` and a site of `[0, n_xh*n_y*n_z*n_t)`, all eight neighbour site
indices lie in `[0, n_xh*n_y*n_z*n_t)` and the source checkerboard `1 - cb` is 0 or 1;
the pointer `neigh_spinors[mu]` gathered by `operator()` and `Dslash` is the site data of
that in-range site on the source checkerboard. -/
theorem C29_neighbours_in_bounds {R : Type} (op : CoarseDiracOp) (spinor_in : CoarseSpinor R)
    (cb site : Int)
    (hx : 1 ≤ op.n_xh) (hy : 1 ≤ op.n_y) (hz : 1 ≤ op.n_z) (ht : 1 ≤ op.n_t)
    (hxx : op.n_x = 2 * op.n_xh) (hcb : cb = 0 ∨ cb = 1)
    (h0 : 0 ≤ site) (h1 : site < op.n_xh * op.n_y * op.n_z * op.n_t) :
    (∀ mu : Fin 8, 0 ≤ neighSites op cb site mu ∧
      neighSites op cb site mu < op.n_xh * op.n_y * op.n_z * op.n_t) ∧
    (1 - cb = 0 ∨ 1 - cb = 1) ∧
    (∀ mu : Fin 8, neighSpinors op spinor_in cb site ((mu : Nat) : Int) =
      spinor_in.GetSiteDataPtr (1 - cb) (neighSites op cb site mu)) := by
  refine ⟨fun mu => neighSites_bounds op cb site hx hy hz ht hxx h0 h1 mu, by omega,
    fun mu => ?_⟩
  unfold neighSpinors
  exact arr8_fin _ mu

/-- Witness of C29: the last site of checkerboard 0 of a 4 x 2 x 2 x 2 lattice (16 sites
per checkerboard); its neighbours are the sites 14, 15, 13, 13, 11, 11, 7, 7 of
checkerboard 1. -/
theorem C29_neighbours_in_bounds_witness :
    (∀ mu : Fin 8, neighSites op4222 0 15 mu = ![14, 15, 13, 13, 11, 11, 7, 7] mu) ∧
    ((∀ mu : Fin 8, 0 ≤ neighSites op4222 0 15 mu ∧
      neighSites op4222 0 15 mu < op4222.n_xh * op4222.n_y * op4222.n_z * op4222.n_t) ∧
    ((1 : Int) - 0 = 0 ∨ (1 : Int) - 0 = 1) ∧
    (∀ mu : Fin 8, neighSpinors op4222 (constSpinor 1 2 1) 0 15 ((mu : Nat) : Int) =
      (constSpinor 1 2 1).GetSiteDataPtr (1 - 0) (neighSites op4222 0 15 mu))) :=
  ⟨by decide,
   C29_neighbours_in_bounds op4222 (constSpinor 1 2 1) 0 15 (by decide) (by decide)
    (by decide) (by decide) (by decide) (by decide) (by decide) (by decide)⟩

/-- Global coordinates `(x, y, z, t)`, by the decoding of lines 118-123 and the global x
of line 143, of the checkerboard site that encodes in-range coordinates. -/
theorem globalCoords_of_encode (n_xh n_y n_z cb a b c d n : Int)
    (ha : 0 ≤ a ∧ a < n_xh) (hb : 0 ≤ b ∧ b < n_y) (hc : 0 ≤ c ∧ c < n_z) (hd : 0 ≤ d)
    (hn : n = a + n_xh * (b + n_y * (c + n_z * d))) :
    (globalX cb (decodeSite n_xh n_y n_z n), (decodeSite n_xh n_y n_z n).y,
      (decodeSite n_xh n_y n_z n).z, (decodeSite n_xh n_y n_z n).t) =
      (2 * a + (cb + b + c + d) % 2, b, c, d) := by
  rw [hn, decodeSite_of_encode n_xh n_y n_z a b c d ha hb hc hd]
  rfl

/-- C30: checkerboard consistency of the neighbour table.  When all four extents are even
(`n_x = 2*n_xh`), for an in-range site of target checkerboard `cb` with global
coordinates `(x, y, z, t)`, `x = 2*xcb + ((cb+y+z+t) mod 2)`, each of the eight neighbour
indices, decoded on the source checkerboard `1 - cb` by the same rule, has the global
coordinates of the periodic nearest neighbour: one coordinate shifted by `±1` modulo its
extent, the others unchanged. -/
theorem C30_checkerboard_consistency (op : CoarseDiracOp) (cb site : Int)
    (hx : 1 ≤ op.n_xh) (hy : 1 ≤ op.n_y) (hz : 1 ≤ op.n_z) (ht : 1 ≤ op.n_t)
    (hxx : op.n_x = 2 * op.n_xh) (hye : op.n_y % 2 = 0) (hze : op.n_z % 2 = 0)
    (hte : op.n_t % 2 = 0)
    (h0 : 0 ≤ site) (h1 : site < op.n_xh * op.n_y * op.n_z * op.n_t) :
    let c := decodeSite op.n_xh op.n_y op.n_z site
    let x := globalX cb c
    let nb := fun mu : Fin 8 => decodeSite op.n_xh op.n_y op.n_z (neighSites op cb site mu)
    let gx := fun mu : Fin 8 => globalX (1 - cb) (nb mu)
    (gx 0, (nb 0).y, (nb 0).z, (nb 0).t) = ((x + 1) % op.n_x, c.y, c.z, c.t) ∧
    (gx 1, (nb 1).y, (nb 1).z, (nb 1).t) = ((x - 1) % op.n_x, c.y, c.z, c.t) ∧
    (gx 2, (nb 2).y, (nb 2).z, (nb 2).t) = (x, (c.y + 1) % op.n_y, c.z, c.t) ∧
    (gx 3, (nb 3).y, (nb 3).z, (nb 3).t) = (x, (c.y - 1) % op.n_y, c.z, c.t) ∧
    (gx 4, (nb 4).y, (nb 4).z, (nb 4).t) = (x, c.y, (c.z + 1) % op.n_z, c.t) ∧
    (gx 5, (nb 5).y, (nb 5).z, (nb 5).t) = (x, c.y, (c.z - 1) % op.n_z, c.t) ∧
    (gx 6, (nb 6).y, (nb 6).z, (nb 6).t) = (x, c.y, c.z, (c.t + 1) % op.n_t) ∧
    (gx 7, (nb 7).y, (nb 7).z, (nb 7).t) = (x, c.y, c.z, (c.t - 1) % op.n_t) := by
  intro c x nb gx
  have hxv : x = globalX cb c := rfl
  have hcv : c = decodeSite op.n_xh op.n_y op.n_z site := rfl
  clear_value x c
  subst hxv
  subst hcv
  obtain ⟨cx0, cx1, cy0, cy1, cz0, cz1, ct0, ct1⟩ :=
    decodeSite_bounds op.n_xh op.n_y op.n_z op.n_t site hx hy hz ht h0 h1
  obtain ⟨e0, e1, e2, e3, e4, e5, e6, e7⟩ :=
    neighSites_eq op cb site hx hy hz ht (by omega) h0 h1
  obtain ⟨gx0, gx1⟩ := globalX_bounds cb (decodeSite op.n_xh op.n_y op.n_z site)
    op.n_xh cx0 cx1
  have wxp := wrap_plus (globalX cb (decodeSite op.n_xh op.n_y op.n_z site)) op.n_x gx0
    (by omega)
  have wxm := wrap_minus (globalX cb (decodeSite op.n_xh op.n_y op.n_z site)) op.n_x gx0
    (by omega)
  have wyp := wrap_plus _ op.n_y cy0 cy1
  have wym := wrap_minus _ op.n_y cy0 cy1
  have wzp := wrap_plus _ op.n_z cz0 cz1
  have wzm := wrap_minus _ op.n_z cz0 cz1
  have wtp := wrap_plus _ op.n_t ct0 ct1
  have wtm := wrap_minus _ op.n_t ct0 ct1
  have py := fun v : Int => And.intro (Int.emod_nonneg v (by omega : op.n_y ≠ 0))
    (Int.emod_lt_of_pos v (by omega : 0 < op.n_y))
  have pz := fun v : Int => And.intro (Int.emod_nonneg v (by omega : op.n_z ≠ 0))
    (Int.emod_lt_of_pos v (by omega : 0 < op.n_z))
  have pt := fun v : Int => And.intro (Int.emod_nonneg v (by omega : op.n_t ≠ 0))
    (Int.emod_lt_of_pos v (by omega : 0 < op.n_t))
  have hxp0 := Int.emod_nonneg (globalX cb (decodeSite op.n_xh op.n_y op.n_z site) + 1)
    (by omega : op.n_x ≠ 0)
  have hxp1 := Int.emod_lt_of_pos (globalX cb (decodeSite op.n_xh op.n_y op.n_z site) + 1)
    (by omega : 0 < op.n_x)
  have hxm0 := Int.emod_nonneg (globalX cb (decodeSite op.n_xh op.n_y op.n_z site) - 1)
    (by omega : op.n_x ≠ 0)
  have hxm1 := Int.emod_lt_of_pos (globalX cb (decodeSite op.n_xh op.n_y op.n_z site) - 1)
    (by omega : 0 < op.n_x)
  refine ⟨?_, ?_, ?_, ?_, ?_, ?_, ?_, ?_⟩
  · refine (globalCoords_of_encode op.n_xh op.n_y op.n_z (1 - cb) _ _ _ _ _
      (by omega) ⟨cy0, cy1⟩ ⟨cz0, cz1⟩ ct0 e0).trans ?_
    refine Prod.ext ?_ rfl
    dsimp only
    rw [← wxp]
    simp only [globalX]
    split_ifs <;> omega
  · refine (globalCoords_of_encode op.n_xh op.n_y op.n_z (1 - cb) _ _ _ _ _
      (by omega) ⟨cy0, cy1⟩ ⟨cz0, cz1⟩ ct0 e1).trans ?_
    refine Prod.ext ?_ rfl
    dsimp only
    rw [← wxm]
    simp only [globalX]
    split_ifs <;> omega
  · refine (globalCoords_of_encode op.n_xh op.n_y op.n_z (1 - cb) _ _ _ _ _
      ⟨cx0, cx1⟩ (py _) ⟨cz0, cz1⟩ ct0 e2).trans ?_
    refine Prod.ext ?_ rfl
    dsimp only
    rw [← wyp]
    simp only [globalX]
    split_ifs <;> omega
  · refine (globalCoords_of_encode op.n_xh op.n_y op.n_z (1 - cb) _ _ _ _ _
      ⟨cx0, cx1⟩ (py _) ⟨cz0, cz1⟩ ct0 e3).trans ?_
    refine Prod.ext ?_ rfl
    dsimp only
    rw [← wym]
    simp only [globalX]
    split_ifs <;> omega
  · refine (globalCoords_of_encode op.n_xh op.n_y op.n_z (1 - cb) _ _ _ _ _
      ⟨cx0, cx1⟩ ⟨cy0, cy1⟩ (pz _) ct0 e4).trans ?_
    refine Prod.ext ?_ rfl
    dsimp only
    rw [← wzp]
    simp only [globalX]
    split_ifs <;> omega
  · refine (globalCoords_of_encode op.n_xh op.n_y op.n_z (1 - cb) _ _ _ _ _
      ⟨cx0, cx1⟩ ⟨cy0, cy1⟩ (pz _) ct0 e5).trans ?_
    refine Prod.ext ?_ rfl
    dsimp only
    rw [← wzm]
    simp only [globalX]
    split_ifs <;> omega
  · refine (globalCoords_of_encode op.n_xh op.n_y op.n_z (1 - cb) _ _ _ _ _
      ⟨cx0, cx1⟩ ⟨cy0, cy1⟩ ⟨cz0, cz1⟩ (pt _).1 e6).trans ?_
    refine Prod.ext ?_ rfl
    dsimp only
    rw [← wtp]
    simp only [globalX]
    split_ifs <;> omega
  · refine (globalCoords_of_encode op.n_xh op.n_y op.n_z (1 - cb) _ _ _ _ _
      ⟨cx0, cx1⟩ ⟨cy0, cy1⟩ ⟨cz0, cz1⟩ (pt _).1 e7).trans ?_
    refine Prod.ext ?_ rfl
    dsimp only
    rw [← wtm]
    simp only [globalX]
    split_ifs <;> omega

/-- Witness of C30: the last site (15) of checkerboard 0 of a 4 x 2 x 2 x 2 lattice
has global coordinates (3, 1, 1, 1); its forward x neighbour, site 14 of checkerboard 1,
decodes to (0, 1, 1, 1) and its backward y neighbour, site 13, to (3, 0, 1, 1). -/
theorem C30_checkerboard_consistency_witness :
    globalX 0 (decodeSite 2 2 2 15) = 3 ∧
    (globalX (1 - 0) (decodeSite 2 2 2 (neighSites op4222 0 15 0)),
      (decodeSite 2 2 2 (neighSites op4222 0 15 0)).y,
      (decodeSite 2 2 2 (neighSites op4222 0 15 0)).z,
      (decodeSite 2 2 2 (neighSites op4222 0 15 0)).t) = (0, 1, 1, 1) ∧
    (globalX (1 - 0) (decodeSite 2 2 2 (neighSites op4222 0 15 3)),
      (decodeSite 2 2 2 (neighSites op4222 0 15 3)).y,
      (decodeSite 2 2 2 (neighSites op4222 0 15 3)).z,
      (decodeSite 2 2 2 (neighSites op4222 0 15 3)).t) = (3, 0, 1, 1) ∧
    (let c := decodeSite op4222.n_xh op4222.n_y op4222.n_z 15
    let x := globalX 0 c
    let nb := fun mu : Fin 8 =>
      decodeSite op4222.n_xh op4222.n_y op4222.n_z (neighSites op4222 0 15 mu)
    let gx := fun mu : Fin 8 => globalX (1 - 0) (nb mu)
    (gx 0, (nb 0).y, (nb 0).z, (nb 0).t) = ((x + 1) % op4222.n_x, c.y, c.z, c.t) ∧
    (gx 1, (nb 1).y, (nb 1).z, (nb 1).t) = ((x - 1) % op4222.n_x, c.y, c.z, c.t) ∧
    (gx 2, (nb 2).y, (nb 2).z, (nb 2).t) = (x, (c.y + 1) % op4222.n_y, c.z, c.t) ∧
    (gx 3, (nb 3).y, (nb 3).z, (nb 3).t) = (x, (c.y - 1) % op4222.n_y, c.z, c.t) ∧
    (gx 4, (nb 4).y, (nb 4).z, (nb 4).t) = (x, c.y, (c.z + 1) % op4222.n_z, c.t) ∧
    (gx 5, (nb 5).y, (nb 5).z, (nb 5).t) = (x, c.y, (c.z - 1) % op4222.n_z, c.t) ∧
    (gx 6, (nb 6).y, (nb 6).z, (nb 6).t) = (x, c.y, c.z, (c.t + 1) % op4222.n_t) ∧
    (gx 7, (nb 7).y, (nb 7).z, (nb 7).t) = (x, c.y, c.z, (c.t - 1) % op4222.n_t)) :=
  ⟨by decide, by decide, by decide,
   C30_checkerboard_consistency op4222 0 15 (by decide) (by decide) (by decide) (by decide)
    (by decide) (by decide) (by decide) (by decide) (by decide) (by decide)⟩

/-! ## Blocks -/

/-- A loop whose body appends `c` entries appends `n * c` entries in `n` iterations. -/
theorem loopN_list_length {α : Type} (body : Int → List α → List α) (c : Nat)
    (hb : ∀ i l, (body i l).length = l.length + c) (lo : Int) :
    ∀ (n : Nat) (l : List α), (loopN lo body n l).length = l.length + n * c := by
  intro n
  induction n with
  | zero => intro l; simp [loopN]
  | succ n ih =>
    intro l
    simp only [loopN, hb, ih]
    ring

/-- The entries of a list built by a loop whose body appends the entries `P i`. -/
theorem loopN_list_mem {α : Type} (body : Int → List α → List α) (P : Int → α → Prop)
    (hb : ∀ i l x, x ∈ body i l ↔ x ∈ l ∨ P i x) (lo : Int) :
    ∀ (n : Nat) (l : List α) (x : α),
      x ∈ loopN lo body n l ↔ x ∈ l ∨ ∃ i, lo ≤ i ∧ i < lo + n ∧ P i x := by
  intro n
  induction n with
  | zero =>
    intro l x
    simp only [loopN]
    constructor
    · exact fun h => Or.inl h
    · rintro (h | ⟨i, h1, h2, _⟩)
      · exact h
      · simp at h2
        omega
  | succ n ih =>
    intro l x
    simp only [loopN, hb, ih]
    constructor
    · rintro ((h | ⟨i, h1, h2, h3⟩) | h)
      · exact Or.inl h
      · exact Or.inr ⟨i, h1, by push_cast; omega, h3⟩
      · exact Or.inr ⟨_, by omega, by push_cast; omega, h⟩
    · rintro (h | ⟨i, h1, h2, h3⟩)
      · exact Or.inl (Or.inl h)
      · by_cases hi : i = lo + (n : Int)
        · subst hi
          exact Or.inr h3
        · exact Or.inl (Or.inr ⟨i, h1, by push_cast at h2; omega, h3⟩)

theorem forLoop_list_length {α : Type} (body : Int → List α → List α) (c : Nat)
    (hb : ∀ i l, (body i l).length = l.length + c) (hi : Int) (l : List α) :
    (forLoop 0 hi body l).length = l.length + hi.toNat * c := by
  unfold forLoop
  rw [loopN_list_length body c hb 0, sub_zero]

theorem forLoop_list_mem {α : Type} (body : Int → List α → List α) (P : Int → α → Prop)
    (hb : ∀ i l x, x ∈ body i l ↔ x ∈ l ∨ P i x) (hi : Int) (l : List α) (x : α) :
    x ∈ forLoop 0 hi body l ↔ x ∈ l ∨ ∃ i, 0 ≤ i ∧ i < hi ∧ P i x := by
  unfold forLoop
  rw [loopN_list_mem body P hb 0]
  refine or_congr Iff.rfl (exists_congr (fun i => ?_))
  constructor
  · rintro ⟨h1, h2, h3⟩
    exact ⟨h1, by omega, h3⟩
  · rintro ⟨h1, h2, h3⟩
    exact ⟨h1, by omega, h3⟩

/-- The four nested loops of a row-major enumeration append one entry per coordinate
tuple. -/
theorem nest4_length {α : Type} (f : Int → Int → Int → Int → α) (n0 n1 n2 n3 : Int)
    (l : List α) :
    (forLoop 0 n3 (fun t l =>
      forLoop 0 n2 (fun z l =>
        forLoop 0 n1 (fun y l =>
          forLoop 0 n0 (fun x l => l ++ [f x y z t]) l) l) l) l).length =
      l.length + n3.toNat * (n2.toNat * (n1.toNat * (n0.toNat * 1))) := by
  refine forLoop_list_length _ _ (fun t l => ?_) n3 l
  refine forLoop_list_length _ _ (fun z l => ?_) n2 l
  refine forLoop_list_length _ _ (fun y l => ?_) n1 l
  refine forLoop_list_length _ _ (fun x l => ?_) n0 l
  simp

/-- The entries of a row-major enumeration by four nested loops. -/
theorem nest4_mem {α : Type} (f : Int → Int → Int → Int → α) (n0 n1 n2 n3 : Int)
    (l : List α) (a : α) :
    a ∈ (forLoop 0 n3 (fun t l =>
      forLoop 0 n2 (fun z l =>
        forLoop 0 n1 (fun y l =>
          forLoop 0 n0 (fun x l => l ++ [f x y z t]) l) l) l) l) ↔
      a ∈ l ∨ ∃ t, 0 ≤ t ∧ t < n3 ∧ ∃ z, 0 ≤ z ∧ z < n2 ∧ ∃ y, 0 ≤ y ∧ y < n1 ∧
        ∃ x, 0 ≤ x ∧ x < n0 ∧ a = f x y z t := by
  refine forLoop_list_mem _ (fun t a => ∃ z, 0 ≤ z ∧ z < n2 ∧ ∃ y, 0 ≤ y ∧ y < n1 ∧
        ∃ x, 0 ≤ x ∧ x < n0 ∧ a = f x y z t) (fun t l a => ?_) n3 l a
  refine forLoop_list_mem _ (fun z a => ∃ y, 0 ≤ y ∧ y < n1 ∧
        ∃ x, 0 ≤ x ∧ x < n0 ∧ a = f x y z t) (fun z l a => ?_) n2 l a
  refine forLoop_list_mem _ (fun y a => ∃ x, 0 ≤ x ∧ x < n0 ∧ a = f x y z t)
    (fun y l a => ?_) n1 l a
  refine forLoop_list_mem _ (fun x a => a = f x y z t) (fun x l a => ?_) n0 l a
  simp

theorem Block.create_length (lat o b : IndexArray) :
    (Block.create lat o b).site_list.length =
      (b 3).toNat * ((b 2).toNat * ((b 1).toNat * ((b 0).toNat * 1))) := by
  unfold Block.create
  simp only []
  rw [nest4_length (fun x y z t => CoordsToIndex ![o 0 + x, o 1 + y, o 2 + z, o 3 + t] lat)]
  simp

theorem Block.create_mem (lat o b : IndexArray) (s : Int) :
    s ∈ (Block.create lat o b).site_list ↔
      ∃ t, 0 ≤ t ∧ t < b 3 ∧ ∃ z, 0 ≤ z ∧ z < b 2 ∧ ∃ y, 0 ≤ y ∧ y < b 1 ∧
        ∃ x, 0 ≤ x ∧ x < b 0 ∧
          s = CoordsToIndex ![o 0 + x, o 1 + y, o 2 + z, o 3 + t] lat := by
  unfold Block.create
  simp only []
  rw [nest4_mem (fun x y z t => CoordsToIndex ![o 0 + x, o 1 + y, o 2 + z, o 3 + t] lat)]
  simp

/-- The number of sites of a block with non-negative dimensions. -/
theorem Block.create_num_sites (lat o b : IndexArray) (hb : ∀ mu, 0 ≤ b mu) :
    ((Block.create lat o b).site_list.length : Int) = ∏ mu : Fin 4, b mu ∧
    (Block.create lat o b).getNumSites = ∏ mu : Fin 4, b mu ∧
    (Block.create lat o b).isCreated = true := by
  have e : ((Block.create lat o b).site_list.length : Int) = ∏ mu : Fin 4, b mu := by
    rw [Block.create_length, Fin.prod_univ_four]
    push_cast
    rw [Int.toNat_of_nonneg (hb 0), Int.toNat_of_nonneg (hb 1), Int.toNat_of_nonneg (hb 2),
      Int.toNat_of_nonneg (hb 3)]
    ring
  exact ⟨e, e, rfl⟩

/-- The blocks `CreateBlockList` builds. -/
theorem CreateBlockList_some (lat b : IndexArray)
    (h : AssertVectorsDivideEachOther lat b) :
    ∃ blocklist, CreateBlockList lat b =
        some (blocklist, fun mu => Int.tdiv (lat mu) (b mu)) ∧
      blocklist.length = (Int.tdiv (lat 3) (b 3)).toNat * ((Int.tdiv (lat 2) (b 2)).toNat *
        ((Int.tdiv (lat 1) (b 1)).toNat * ((Int.tdiv (lat 0) (b 0)).toNat * 1))) ∧
      ∀ B, B ∈ blocklist ↔
        ∃ ct, 0 ≤ ct ∧ ct < Int.tdiv (lat 3) (b 3) ∧
        ∃ cz, 0 ≤ cz ∧ cz < Int.tdiv (lat 2) (b 2) ∧
        ∃ cy, 0 ≤ cy ∧ cy < Int.tdiv (lat 1) (b 1) ∧
        ∃ cx, 0 ≤ cx ∧ cx < Int.tdiv (lat 0) (b 0) ∧
          B = Block.create lat ![cx * b 0, cy * b 1, cz * b 2, ct * b 3] b := by
  unfold CreateBlockList
  rw [if_pos h]
  refine ⟨_, rfl, ?_, fun B => ?_⟩
  · have := nest4_length
      (fun cx cy cz ct => Block.create lat ![cx * b 0, cy * b 1, cz * b 2, ct * b 3] b)
      (Int.tdiv (lat 0) (b 0)) (Int.tdiv (lat 1) (b 1)) (Int.tdiv (lat 2) (b 2))
      (Int.tdiv (lat 3) (b 3)) []
    simpa using this
  · have := nest4_mem
      (fun cx cy cz ct => Block.create lat ![cx * b 0, cy * b 1, cz * b 2, ct * b 3] b)
      (Int.tdiv (lat 0) (b 0)) (Int.tdiv (lat 1) (b 1)) (Int.tdiv (lat 2) (b 2))
      (Int.tdiv (lat 3) (b 3)) [] B
    simpa using this

theorem flatMap_length_const {α β : Type} (f : α → List β) (c : Nat) :
    ∀ (L : List α), (∀ a ∈ L, (f a).length = c) → (L.flatMap f).length = L.length * c := by
  intro L
  induction L with
  | nil => intro _; simp
  | cons a L ih =>
    intro h
    rw [List.flatMap_cons, List.length_append, h a (List.mem_cons_self _ _),
      ih (fun x hx => h x (List.mem_cons_of_mem _ hx)), List.length_cons]
    ring

/-- Splitting a coordinate into its block coordinate and its local coordinate. -/
theorem coord_split (x b q : Int) (hb : 1 ≤ b) (hx0 : 0 ≤ x) (hx1 : x < q * b) :
    (0 ≤ x / b ∧ x / b < q) ∧ (0 ≤ x % b ∧ x % b < b) ∧ x / b * b + x % b = x := by
  refine ⟨⟨Int.ediv_nonneg hx0 (by omega), Int.ediv_lt_of_lt_mul (by omega) hx1⟩,
    ⟨Int.emod_nonneg _ (by omega), Int.emod_lt_of_pos _ (by omega)⟩, ?_⟩
  have := Int.emod_add_ediv x b
  linarith

/-- C24: for lattice dimensions evenly divisible by the block dimensions, the blocks
built by `CreateBlockList` (each populated by `Block::create` from its origin and the
block extent) have site lists whose concatenation holds every lattice site index
`0 .. V - 1` exactly once (it is a permutation of that range, without duplicates); there
are `∏ (lat_dims / block_dims)` blocks and each holds `∏ block_dims` sites. -/
theorem C24_blocks_partition (lat b : IndexArray)
    (hl : ∀ mu, 1 ≤ lat mu) (hb : ∀ mu, 1 ≤ b mu) (hd : ∀ mu, b mu ∣ lat mu) :
    ∃ blocklist blocked, CreateBlockList lat b = some (blocklist, blocked) ∧
      (∀ mu, blocked mu = lat mu / b mu) ∧
      (blocklist.length : Int) = ∏ mu : Fin 4, (lat mu / b mu) ∧
      (∀ B ∈ blocklist, B.isCreated = true ∧
        (B.getSiteList.length : Int) = ∏ mu : Fin 4, b mu ∧
        B.getNumSites = ∏ mu : Fin 4, b mu) ∧
      (blocklist.flatMap Block.getSiteList).Perm
        ((List.range (∏ mu : Fin 4, lat mu).toNat).map (fun k : Nat => (k : Int))) ∧
      (blocklist.flatMap Block.getSiteList).Nodup := by
  have ha := assert_of_dvd lat b hb hd
  obtain ⟨blocklist, hc, hlen, hmem⟩ := CreateBlockList_some lat b ha
  have hl0 : ∀ mu, 0 ≤ lat mu := fun mu => by have := hl mu; omega
  have hb0 : ∀ mu, 0 ≤ b mu := fun mu => by have := hb mu; omega
  have hbp : ∀ mu, 0 < b mu := fun mu => by have := hb mu; omega
  have hq : ∀ mu, Int.tdiv (lat mu) (b mu) = lat mu / b mu :=
    fun mu => tdiv_nonneg_eq _ _ (hl0 mu) (hbp mu)
  have hq1 : ∀ mu, lat mu / b mu * b mu = lat mu := fun mu => Int.ediv_mul_cancel (hd mu)
  have hq0 : ∀ mu, 0 ≤ lat mu / b mu := fun mu => Int.ediv_nonneg (hl0 mu) (hb0 mu)
  have hlenI : (blocklist.length : Int) = ∏ mu : Fin 4, (lat mu / b mu) := by
    rw [hlen, Fin.prod_univ_four, hq 0, hq 1, hq 2, hq 3]
    push_cast
    rw [Int.toNat_of_nonneg (hq0 0), Int.toNat_of_nonneg (hq0 1),
      Int.toNat_of_nonneg (hq0 2), Int.toNat_of_nonneg (hq0 3)]
    ring
  have hblock : ∀ B ∈ blocklist, B.isCreated = true ∧
      (B.getSiteList.length : Int) = ∏ mu : Fin 4, b mu ∧
      B.getNumSites = ∏ mu : Fin 4, b mu := by
    intro B hB
    obtain ⟨ct, _, _, cz, _, _, cy, _, _, cx, _, _, rfl⟩ := (hmem B).mp hB
    obtain ⟨e1, e2, e3⟩ := Block.create_num_sites lat
      ![cx * b 0, cy * b 1, cz * b 2, ct * b 3] b hb0
    exact ⟨e3, e1, e2⟩
  have hV0 : 0 ≤ ∏ mu : Fin 4, lat mu := Finset.prod_nonneg (fun mu _ => hl0 mu)
  have hprod : (∏ mu : Fin 4, (lat mu / b mu)) * (∏ mu : Fin 4, b mu)
      = ∏ mu : Fin 4, lat mu := by
    rw [← Finset.prod_mul_distrib]
    exact Finset.prod_congr rfl (fun mu _ => hq1 mu)
  have hflatI : ((blocklist.flatMap Block.getSiteList).length : Int) =
      ∏ mu : Fin 4, lat mu := by
    have hcount : ∀ B ∈ blocklist, (Block.getSiteList B).length =
        ((∏ mu : Fin 4, b mu).toNat) := by
      intro B hB
      have := (hblock B hB).2.1
      omega
    rw [flatMap_length_const Block.getSiteList _ blocklist hcount]
    push_cast
    rw [hlenI, Int.toNat_of_nonneg (Finset.prod_nonneg (fun mu _ => hb0 mu)), hprod]
  have hRnodup : ((List.range (∏ mu : Fin 4, lat mu).toNat).map
      (fun k : Nat => (k : Int))).Nodup :=
    (List.nodup_range _).map (fun a c h => by exact_mod_cast h)
  have hsub : (List.range (∏ mu : Fin 4, lat mu).toNat).map (fun k : Nat => (k : Int)) ⊆
      blocklist.flatMap Block.getSiteList := by
    intro s hs
    obtain ⟨k, hk, rfl⟩ := List.mem_map.mp hs
    have hk1 : ((k : Nat) : Int) < lat 0 * lat 1 * lat 2 * lat 3 := by
      have := List.mem_range.mp hk
      rw [Fin.prod_univ_four] at this hV0
      omega
    obtain ⟨cx0, cx1, cy0, cy1, cz0, cz1, ct0, ct1⟩ :=
      decodeSite_bounds (lat 0) (lat 1) (lat 2) (lat 3) (k : Int) (hl 0) (hl 1) (hl 2)
        (hl 3) (by omega) hk1
    have henc := decodeSite_encode (lat 0) (lat 1) (lat 2) (k : Int)
    obtain ⟨bx, lx, ex⟩ := coord_split _ (b 0) (lat 0 / b 0) (hb 0) cx0
      (by rw [hq1 0]; exact cx1)
    obtain ⟨b_y, ly, ey⟩ := coord_split _ (b 1) (lat 1 / b 1) (hb 1) cy0
      (by rw [hq1 1]; exact cy1)
    obtain ⟨bz, lz, ez⟩ := coord_split _ (b 2) (lat 2 / b 2) (hb 2) cz0
      (by rw [hq1 2]; exact cz1)
    obtain ⟨bt, lt, et⟩ := coord_split _ (b 3) (lat 3 / b 3) (hb 3) ct0
      (by rw [hq1 3]; exact ct1)
    rw [List.mem_flatMap]
    refine ⟨Block.create lat
      ![(decodeSite (lat 0) (lat 1) (lat 2) (k : Int)).xcb / b 0 * b 0,
        (decodeSite (lat 0) (lat 1) (lat 2) (k : Int)).y / b 1 * b 1,
        (decodeSite (lat 0) (lat 1) (lat 2) (k : Int)).z / b 2 * b 2,
        (decodeSite (lat 0) (lat 1) (lat 2) (k : Int)).t / b 3 * b 3] b, ?_, ?_⟩
    · refine (hmem _).mpr ⟨_, bt.1, by rw [hq 3]; exact bt.2, _, bz.1,
        by rw [hq 2]; exact bz.2, _, b_y.1, by rw [hq 1]; exact b_y.2, _, bx.1,
        by rw [hq 0]; exact bx.2, rfl⟩
    · show (k : Int) ∈ (Block.create lat _ b).site_list
      refine (Block.create_mem _ _ _ _).mpr ⟨_, lt.1, lt.2, _, lz.1, lz.2, _, ly.1, ly.2,
        _, lx.1, lx.2, ?_⟩
      show (k : Int) =
        ((decodeSite (lat 0) (lat 1) (lat 2) (k : Int)).xcb / b 0 * b 0
            + (decodeSite (lat 0) (lat 1) (lat 2) (k : Int)).xcb % b 0) + lat 0 *
          (((decodeSite (lat 0) (lat 1) (lat 2) (k : Int)).y / b 1 * b 1
            + (decodeSite (lat 0) (lat 1) (lat 2) (k : Int)).y % b 1) + lat 1 *
          (((decodeSite (lat 0) (lat 1) (lat 2) (k : Int)).z / b 2 * b 2
            + (decodeSite (lat 0) (lat 1) (lat 2) (k : Int)).z % b 2) + lat 2 *
          ((decodeSite (lat 0) (lat 1) (lat 2) (k : Int)).t / b 3 * b 3
            + (decodeSite (lat 0) (lat 1) (lat 2) (k : Int)).t % b 3)))
      rw [ex, ey, ez, et]
      exact henc
  have hlenle : (blocklist.flatMap Block.getSiteList).length ≤
      ((List.range (∏ mu : Fin 4, lat mu).toNat).map (fun k : Nat => (k : Int))).length := by
    rw [List.length_map, List.length_range]
    omega
  have hperm := ((List.subperm_of_subset hRnodup hsub).perm_of_length_le hlenle).symm
  exact ⟨blocklist, _, hc, hq, hlenI, hblock, hperm, hperm.nodup_iff.mpr hRnodup⟩

/-- Witness of C24: a 4 x 2 x 2 x 2 lattice with 2 x 1 x 2 x 1 blocks gives 8 blocks of
4 sites; the first block holds the sites 0, 1, 8, 9. -/
theorem C24_blocks_partition_witness :
    (CreateBlockList ![4, 2, 2, 2] ![2, 1, 2, 1]).map
      (fun r => (r.1.length, (r.1.map Block.getSiteList).head?)) =
      some (8, some [0, 1, 8, 9]) ∧
    ∃ blocklist blocked, CreateBlockList ![4, 2, 2, 2] ![2, 1, 2, 1] =
        some (blocklist, blocked) ∧
      (∀ mu, blocked mu = (![4, 2, 2, 2] : IndexArray) mu / (![2, 1, 2, 1] : IndexArray) mu) ∧
      (blocklist.length : Int) =
        ∏ mu : Fin 4, ((![4, 2, 2, 2] : IndexArray) mu / (![2, 1, 2, 1] : IndexArray) mu) ∧
      (∀ B ∈ blocklist, B.isCreated = true ∧
        (B.getSiteList.length : Int) = ∏ mu : Fin 4, (![2, 1, 2, 1] : IndexArray) mu ∧
        B.getNumSites = ∏ mu : Fin 4, (![2, 1, 2, 1] : IndexArray) mu) ∧
      (blocklist.flatMap Block.getSiteList).Perm
        ((List.range (∏ mu : Fin 4, (![4, 2, 2, 2] : IndexArray) mu).toNat).map
          (fun k : Nat => (k : Int))) ∧
      (blocklist.flatMap Block.getSiteList).Nodup :=
  ⟨by decide,
   C24_blocks_partition ![4, 2, 2, 2] ![2, 1, 2, 1] (by decide) (by decide) (by decide)⟩

/-! ## Inner product of a spinor with itself -/

/-- C31: for every coarse spinor `x`, `InnerProductVec(x, x)` succeeds, its imaginary
part is exactly 0 and its real part equals `Norm2Vec(x)` (in exact arithmetic). -/
theorem C31_inner_product_self {R : Type} [CommRing R] (x : CoarseSpinor R) :
    InnerProductVec x x = some (Norm2Vec x, 0) := by
  rw [InnerProductVec_eq x x (compatible_refl _), Norm2Vec_eq]
  have him : sumComp x.info.n_cb_sites x.GetNumColorSpin (fun cb site c =>
      x.compRe cb site c * x.compIm cb site c - x.compIm cb site c * x.compRe cb site c)
      = 0 := by
    rw [← sumComp_zero x.info.n_cb_sites x.GetNumColorSpin]
    apply sumComp_congr
    intro cb site c _ _ _
    ring
  rw [him]

/-- Witness of C31: the spinor on the 2 x 1 x 1 x 1 lattice with 2 colorspins whose
components are all `1 + 2i` (4 components): the inner product with itself is `20 + 0i`
and the squared norm is 20. -/
theorem C31_inner_product_self_witness :
    InnerProductVec (reimSpinor 1 2 1 2) (reimSpinor 1 2 1 2) = some (20, 0) ∧
    Norm2Vec (reimSpinor 1 2 1 2) = 20 ∧
    InnerProductVec (reimSpinor 1 2 1 2) (reimSpinor 1 2 1 2) =
      some (Norm2Vec (reimSpinor 1 2 1 2), 0) :=
  ⟨by decide, by decide, C31_inner_product_self (reimSpinor 1 2 1 2)⟩

end MG
